import Mathlib

/-!
# Daily report (`Nippou`) domain model

A shallow embedding of `internal/domain/nippou/nippou.go`, of the create use case
in `internal/usecase/nippou` and of the storage mapping in
`internal/infrastructure/salesforce/models.go`.

Modelling conventions:

* A Go `string` is modelled by its sequence of code points (`List Char`), which
  covers every string that is valid UTF-8.  `utf8.RuneCountInString` is then the
  length of the list.
* `time.Time` is an instant on the integer line, counted from the zero value
  `time.Time{}`; `Before` and `After` are `<` and `>`.
* A `float64` coordinate is NaN, an infinity or a finite value, which is a rational
  number; the comparisons are those of Go, so every comparison with NaN but `!=`
  is false.
* A pointer receiver or pointer field is an `Option`; `none` is `nil`.
* A method that mutates its receiver returns the receiver's state after the
  call together with the returned `error` (`none` is a `nil` error).
* A call of `time.Now()` inside a method is the argument `now` of the model.
-/

namespace nippou

/-- Go strings, as sequences of code points. -/
abbrev GoString := List Char

/-- Instants of `time.Time`, counted in nanoseconds from the zero value. -/
abbrev Time := Int

deriving instance DecidableEq for Except

/-! ## Standard library functions used by the package -/

/-- Embedding of `unicode.IsSpace`: the code points with the `White_Space` property. -/
def unicodeIsSpace (c : Char) : Bool :=
  let r := c.toNat
  (0x09 ≤ r && r ≤ 0x0D) || r == 0x20 || r == 0x85 || r == 0xA0 || r == 0x1680 ||
  (0x2000 ≤ r && r ≤ 0x200A) || r == 0x2028 || r == 0x2029 || r == 0x202F ||
  r == 0x205F || r == 0x3000

/-- Embedding of `strings.TrimSpace`: drop the leading and the trailing white space. -/
def TrimSpace (s : GoString) : GoString :=
  ((s.dropWhile unicodeIsSpace).reverse.dropWhile unicodeIsSpace).reverse

/-- Scanning loop of `strings.ReplaceAll` for a non-empty `old`; `skip` counts the
code points of a matched occurrence that are still to be consumed. -/
def replaceScan (old new : GoString) : Nat → GoString → GoString
  | _, [] => []
  | skip + 1, _ :: cs => replaceScan old new skip cs
  | 0, c :: cs =>
    if old.isPrefixOf (c :: cs) then new ++ replaceScan old new (old.length - 1) cs
    else c :: replaceScan old new 0 cs

/-- Embedding of `strings.ReplaceAll`: replace the non-overlapping occurrences of
`old`, leftmost first.  An empty `old` matches before every code point and at
the end. -/
def ReplaceAll (s old new : GoString) : GoString :=
  if old = [] then new ++ s.flatMap (fun c => c :: new) else replaceScan old new 0 s

/-- Embedding of `utf8.RuneCountInString`. -/
def RuneCountInString (s : GoString) : Nat := s.length

/-- Embedding of `unicode.ToLower` on the code points whose lower case is an ASCII
character: the letters `A`-`Z`, U+0130 (capital I with dot above, lower case
`i`) and U+212A (Kelvin sign, lower case `k`).  Every other code point is its
own lower case or has a non-ASCII lower case and is left in place here: the
package lower-cases a text only in `NewTag`, which rejects the text as soon as
its lower case holds a non-ASCII code point, whichever one it is. -/
def unicodeToLower (c : Char) : Char :=
  if 'A' ≤ c ∧ c ≤ 'Z' then Char.ofNat (c.toNat + 32)
  else if c.toNat = 0x130 then 'i'
  else if c.toNat = 0x212A then 'k'
  else c

/-- Embedding of `strings.ToLower`: every code point is mapped by `unicode.ToLower`. -/
def ToLower (s : GoString) : GoString := s.map unicodeToLower

/-! ## Go `float64` -/

/-- A Go `float64` as far as the packages look at it: not-a-number, an infinity, or
a finite value, which is a rational number.  The packages copy and compare
coordinates and do no arithmetic on them.  The values `+0` and `-0`, which
compare equal, are one value here. -/
inductive Float64 where
  | nan
  | negInf
  | posInf
  | finite (q : ℚ)
deriving DecidableEq

/-- The Go comparison `a < b` of two `float64`: false when a side is NaN. -/
def Float64.lt : Float64 → Float64 → Bool
  | .finite a, .finite b => decide (a < b)
  | .negInf, .finite _ => true
  | .negInf, .posInf => true
  | .finite _, .posInf => true
  | _, _ => false

/-- The Go comparison `a <= b` of two `float64`: false when a side is NaN. -/
def Float64.le : Float64 → Float64 → Bool
  | .finite a, .finite b => decide (a ≤ b)
  | .negInf, .negInf => true
  | .negInf, .finite _ => true
  | .negInf, .posInf => true
  | .finite _, .posInf => true
  | .posInf, .posInf => true
  | _, _ => false

/-- The Go comparison `a == b` of two `float64`: false when a side is NaN. -/
def Float64.eq : Float64 → Float64 → Bool
  | .nan, _ => false
  | _, .nan => false
  | a, b => decide (a = b)

/-- The Go comparison `a != b` of two `float64`: true when a side is NaN. -/
def Float64.ne (a b : Float64) : Bool := !Float64.eq a b

/-- The Go negation `-a`. -/
def Float64.neg : Float64 → Float64
  | .nan => .nan
  | .negInf => .posInf
  | .posInf => .negInf
  | .finite q => .finite (-q)

instance : LT Float64 := ⟨fun a b => Float64.lt a b = true⟩

instance : LE Float64 := ⟨fun a b => Float64.le a b = true⟩

instance (a b : Float64) : Decidable (a < b) :=
  inferInstanceAs (Decidable (Float64.lt a b = true))

instance (a b : Float64) : Decidable (a ≤ b) :=
  inferInstanceAs (Decidable (Float64.le a b = true))

instance : Neg Float64 := ⟨Float64.neg⟩

instance (n : Nat) [OfNat ℚ n] : OfNat Float64 n := ⟨.finite (OfNat.ofNat n)⟩

/-! ## Constants -/

def MaxContentLength : Nat := 65536
def MaxAddressLength : Nat := 500
def MaxModelNameLength : Nat := 100
def MaxTagLength : Nat := 50
def MaxTagCount : Nat := 20
def MinLatitude : Float64 := -90
def MaxLatitude : Float64 := 90
def MinLongitude : Float64 := -180
def MaxLongitude : Float64 := 180

/-! ## Domain errors -/

/-- The structured error of the package. -/
structure DomainError where
  Code : String
  Message : String
  Field : String
deriving DecidableEq, Repr

def ErrCodeValidation : String := "VALIDATION_ERROR"
def ErrCodeInvalidFormat : String := "INVALID_FORMAT"
def ErrCodeDuplicate : String := "DUPLICATE_ERROR"
def ErrCodeLimitExceeded : String := "LIMIT_EXCEEDED"
def ErrCodeNilReceiver : String := "NIL_RECEIVER"

def ErrEmptyContent : DomainError :=
  { Code := ErrCodeValidation, Field := "content", Message := "content cannot be empty" }
def ErrContentTooLong : DomainError :=
  { Code := ErrCodeLimitExceeded, Field := "content", Message := "content exceeds maximum length" }
def ErrInvalidDateFormat : DomainError :=
  { Code := ErrCodeInvalidFormat, Field := "date", Message := "expected YYYY-MM-DD format" }
def ErrInvalidLatitude : DomainError :=
  { Code := ErrCodeValidation, Field := "latitude", Message := "must be between -90 and 90" }
def ErrInvalidLongitude : DomainError :=
  { Code := ErrCodeValidation, Field := "longitude", Message := "must be between -180 and 180" }
def ErrAddressTooLong : DomainError :=
  { Code := ErrCodeLimitExceeded, Field := "address", Message := "address exceeds maximum length" }
def ErrDuplicateTag : DomainError :=
  { Code := ErrCodeDuplicate, Field := "tag", Message := "tag already exists" }
def ErrTagTooLong : DomainError :=
  { Code := ErrCodeLimitExceeded, Field := "tag", Message := "tag exceeds maximum length" }
def ErrEmptyTag : DomainError :=
  { Code := ErrCodeValidation, Field := "tag", Message := "tag cannot be empty" }
def ErrInvalidTagFormat : DomainError :=
  { Code := ErrCodeInvalidFormat, Field := "tag", Message := "tag contains invalid characters" }
def ErrMaxTagsExceeded : DomainError :=
  { Code := ErrCodeLimitExceeded, Field := "tags", Message := "maximum number of tags exceeded" }
def ErrModelNameTooLong : DomainError :=
  { Code := ErrCodeLimitExceeded, Field := "modelName",
    Message := "model name exceeds maximum length" }
def ErrEmptyModelName : DomainError :=
  { Code := ErrCodeValidation, Field := "modelName",
    Message := "model name cannot be empty when voice is enabled" }
def ErrNilNippou : DomainError :=
  { Code := ErrCodeNilReceiver, Field := "nippou", Message := "operation on nil Nippou" }

/-! ## Helper functions -/

/-- Embedding of `sanitizeString`: trim, strip NUL, normalise line endings to LF. -/
def sanitizeString (s : GoString) : GoString :=
  let s := TrimSpace s
  let s := ReplaceAll s ['\x00'] []
  let s := ReplaceAll s ['\r', '\n'] ['\n']
  let s := ReplaceAll s ['\r'] ['\n']
  s

/-! ## Tag value object -/

/-- The character class `[a-zA-Z0-9]`. -/
def isAlnumASCII (c : Char) : Bool :=
  ('a' ≤ c && c ≤ 'z') || ('A' ≤ c && c ≤ 'Z') || ('0' ≤ c && c ≤ '9')

/-- Embedding of `tagPattern.MatchString` for the pattern `^[a-zA-Z0-9][a-zA-Z0-9_-]*$`. -/
def tagPatternMatchString (s : GoString) : Bool :=
  match s with
  | [] => false
  | c :: cs => isAlnumASCII c && cs.all (fun d => isAlnumASCII d || d == '_' || d == '-')

/-- A validated tag value. -/
structure Tag where
  value : GoString
deriving DecidableEq, Repr

/-- Embedding of `NewTag`. -/
def NewTag (value : GoString) : Except DomainError Tag :=
  let trimmed := TrimSpace value
  if trimmed = [] then .error ErrEmptyTag
  else if RuneCountInString trimmed > MaxTagLength then .error ErrTagTooLong
  else
    let normalized := ToLower trimmed
    if !tagPatternMatchString normalized then .error ErrInvalidTagFormat
    else .ok { value := normalized }

/-- Embedding of `Tag.String`. -/
def Tag.String (t : Tag) : GoString := t.value

/-- Embedding of `Tag.Equals`. -/
def Tag.Equals (t other : Tag) : Bool := t.value == other.value

/-! ## Standard library: `time.Parse` with the layout `2006-01-02` -/

/-- Embedding of `isDigit` of package `time`. -/
def isDigit (c : Char) : Bool := '0' ≤ c && c ≤ '9'

/-- Value of a decimal digit. -/
def digitVal (c : Char) : Nat := c.toNat - '0'.toNat

/-- Embedding of `isLeap` of package `time`. -/
def isLeap (year : Nat) : Bool := year % 4 == 0 && (year % 100 != 0 || year % 400 == 0)

/-- Embedding of `daysIn` of package `time`. -/
def daysIn (month year : Nat) : Nat :=
  if month == 2 then (if isLeap year then 29 else 28)
  else if month == 4 || month == 6 || month == 9 || month == 11 then 30
  else 31

/-- Days from the first of January to the first of `month` in `year`. -/
def daysBefore (month year : Nat) : Nat :=
  ((List.range (month - 1)).map (fun m => daysIn (m + 1) year)).sum

/-- Embedding of `time.Date(year, month, day, 0, 0, 0, 0, time.UTC)` as an
instant: the nanoseconds from `0001-01-01T00:00:00Z`, the zero `time.Time`. -/
def timeDate (year month day : Nat) : Time :=
  let y : Int := (year : Int) - 1
  let days : Int := 365 * y + y / 4 - y / 100 + y / 400 + daysBefore month year + ((day : Int) - 1)
  days * 86400 * 1000000000

/-- Embedding of `time.Parse("2006-01-02", value)`: four digits, `-`, two digits,
`-`, two digits and nothing else; the month is in 1..12 and the day exists in
that month.  `none` is a parse error. -/
def timeParseDate (value : GoString) : Option Time :=
  match value with
  | [y1, y2, y3, y4, s1, m1, m2, s2, d1, d2] =>
    if isDigit y1 && isDigit y2 && isDigit y3 && isDigit y4 && s1 == '-' &&
        isDigit m1 && isDigit m2 && s2 == '-' && isDigit d1 && isDigit d2 then
      let year := digitVal y1 * 1000 + digitVal y2 * 100 + digitVal y3 * 10 + digitVal y4
      let month := digitVal m1 * 10 + digitVal m2
      let day := digitVal d1 * 10 + digitVal d2
      if month ≤ 0 || 12 < month then none
      else if day < 1 || day > daysIn month year then none
      else some (timeDate year month day)
    else none
  | _ => none

/-! ## Standard library: `uuid.Parse` of `github.com/google/uuid` -/

/-- Bytes of the UTF-8 encoding of a string. -/
def utf8Bytes (s : GoString) : List Nat :=
  s.flatMap (fun c => (String.utf8EncodeChar c).map UInt8.toNat)

/-- Length of a string in bytes (`len(s)`). -/
def len (s : GoString) : Nat := (utf8Bytes s).length

/-- Bytes of hexadecimal digits, the entries of the table `xvalues` other than 255. -/
def isHexByte (b : Nat) : Bool :=
  (48 ≤ b && b ≤ 57) || (97 ≤ b && b ≤ 102) || (65 ≤ b && b ≤ 70)

/-- The form `xxxxxxxx-xxxx-xxxx-xxxx-xxxxxxxxxxxx` on the first 36 bytes: `-` at
the offsets 8, 13, 18 and 23, a hexadecimal digit at every other offset. -/
def uuidCanonical (bs : List Nat) : Bool :=
  (List.range 36).all (fun i =>
    if i == 8 || i == 13 || i == 18 || i == 23 then bs.get? i == some 45
    else (bs.get? i).any isHexByte)

/-- Lower case of an ASCII byte. -/
def lowerASCIIByte (b : Nat) : Nat := if 65 ≤ b ∧ b ≤ 90 then b + 32 else b

/-- Whether `uuid.Parse(s)` succeeds.  The library selects the form by the byte
length: 36 (canonical), 45 (canonical after `urn:uuid:`, compared by
`strings.EqualFold`), 38 (only the middle 36 bytes are examined) and 32
(hexadecimal digits only). -/
def uuidParse (s : GoString) : Bool :=
  let bs := utf8Bytes s
  if len s == 36 then uuidCanonical bs
  else if len s == 36 + 9 then
    (bs.take 9).map lowerASCIIByte == utf8Bytes "urn:uuid:".toList && uuidCanonical (bs.drop 9)
  else if len s == 36 + 2 then uuidCanonical (bs.drop 1)
  else if len s == 32 then bs.all isHexByte
  else false

/-! ## ID value object -/

/-- An immutable unique identifier. -/
structure ID where
  value : GoString
deriving DecidableEq, Repr

/-- The interface `IDGenerator`: `Generate` is the value its call returns. -/
structure IDGenerator where
  Generate : Unit → ID

/-- Embedding of `IDFromString`. -/
def IDFromString (s : GoString) : Except DomainError ID :=
  if s = [] then
    .error { Code := ErrCodeValidation, Field := "id", Message := "ID cannot be empty" }
  else if !uuidParse s then
    .error { Code := ErrCodeInvalidFormat, Field := "id", Message := "invalid UUID format" }
  else .ok { value := s }

/-- Embedding of `ID.String`. -/
def ID.String (id : ID) : GoString := id.value

/-- Embedding of `ID.IsEmpty`. -/
def ID.IsEmpty (id : ID) : Bool := id.value == []

/-- Embedding of `ID.Equals`. -/
def ID.Equals (id other : ID) : Bool := id.value == other.value

/-! ## Location value object -/

/-- Geographical coordinates with a sanitized address. -/
structure Location where
  latitude : Float64
  longitude : Float64
  address : GoString
deriving DecidableEq

/-- Embedding of `NewLocation`. -/
def NewLocation (lat lng : Float64) (address : GoString) : Except DomainError Location :=
  if lat < MinLatitude ∨ lat > MaxLatitude then .error ErrInvalidLatitude
  else if lng < MinLongitude ∨ lng > MaxLongitude then .error ErrInvalidLongitude
  else
    let sanitizedAddress := sanitizeString address
    if RuneCountInString sanitizedAddress > MaxAddressLength then .error ErrAddressTooLong
    else .ok { latitude := lat, longitude := lng, address := sanitizedAddress }

/-- Embedding of `Location.Latitude` (nil-safe). -/
def Location.Latitude (l : Option Location) : Float64 :=
  match l with
  | none => 0
  | some l => l.latitude

/-- Embedding of `Location.Longitude` (nil-safe). -/
def Location.Longitude (l : Option Location) : Float64 :=
  match l with
  | none => 0
  | some l => l.longitude

/-- Embedding of `Location.Address` (nil-safe). -/
def Location.Address (l : Option Location) : GoString :=
  match l with
  | none => []
  | some l => l.address

/-- Embedding of `Location.Equals`. -/
def Location.Equals (l other : Option Location) : Bool :=
  match l, other with
  | none, none => true
  | none, some _ => false
  | some _, none => false
  | some l, some o =>
    Float64.eq l.latitude o.latitude && Float64.eq l.longitude o.longitude &&
      l.address == o.address

/-! ## VoiceConfig value object -/

/-- Voice settings. -/
structure VoiceConfig where
  enabled : Bool
  modelName : GoString
deriving DecidableEq

/-- Embedding of `NewVoiceConfig`. -/
def NewVoiceConfig (enabled : Bool) (modelName : GoString) : Except DomainError VoiceConfig :=
  let sanitizedModel := sanitizeString modelName
  if enabled && sanitizedModel == [] then .error ErrEmptyModelName
  else if RuneCountInString sanitizedModel > MaxModelNameLength then .error ErrModelNameTooLong
  else .ok { enabled := enabled, modelName := sanitizedModel }

/-- Embedding of `VoiceConfig.Enabled` (nil-safe). -/
def VoiceConfig.Enabled (v : Option VoiceConfig) : Bool :=
  match v with
  | none => false
  | some v => v.enabled

/-- Embedding of `VoiceConfig.ModelName` (nil-safe). -/
def VoiceConfig.ModelName (v : Option VoiceConfig) : GoString :=
  match v with
  | none => []
  | some v => v.modelName

/-- Embedding of `VoiceConfig.Equals`. -/
def VoiceConfig.Equals (v other : Option VoiceConfig) : Bool :=
  match v, other with
  | none, none => true
  | none, some _ => false
  | some _, none => false
  | some v, some o => v.enabled == o.enabled && v.modelName == o.modelName

/-! ## Nippou entity -/

/-- The daily report entity. -/
structure Nippou where
  id : ID
  date : Time
  content : GoString
  location : Option Location
  voice : Option VoiceConfig
  tags : List Tag
  createdAt : Time
  updatedAt : Time
deriving DecidableEq

/-- A Go `func() time.Time`: the value its call returns. -/
abbrev TimeFunc := Unit → Time

/-- The fluent builder of `Nippou`. -/
structure NippouBuilder where
  dateStr : GoString
  content : GoString
  location : Option Location
  voice : Option VoiceConfig
  tags : List Tag
  idGen : IDGenerator
  timeFunc : TimeFunc

/-- Embedding of `NewNippouBuilder`; the package-level `defaultIDGenerator` and
the process clock `time.Now` are arguments. -/
def NewNippouBuilder (defaultIDGenerator : IDGenerator) (timeNow : TimeFunc)
    (dateStr content : GoString) : NippouBuilder :=
  { dateStr := dateStr, content := content, location := none, voice := none, tags := [],
    idGen := defaultIDGenerator, timeFunc := timeNow }

/-- Embedding of `NippouBuilder.WithLocation`. -/
def NippouBuilder.WithLocation (b : NippouBuilder) (location : Option Location) : NippouBuilder :=
  { b with location := location }

/-- Embedding of `NippouBuilder.WithVoice`. -/
def NippouBuilder.WithVoice (b : NippouBuilder) (voice : Option VoiceConfig) : NippouBuilder :=
  { b with voice := voice }

/-- Embedding of `NippouBuilder.WithTags`. -/
def NippouBuilder.WithTags (b : NippouBuilder) (tags : List Tag) : NippouBuilder :=
  { b with tags := tags }

/-- Embedding of `NippouBuilder.WithIDGenerator`. -/
def NippouBuilder.WithIDGenerator (b : NippouBuilder) (gen : IDGenerator) : NippouBuilder :=
  { b with idGen := gen }

/-- Embedding of `NippouBuilder.WithTimeFunc`. -/
def NippouBuilder.WithTimeFunc (b : NippouBuilder) (fn : TimeFunc) : NippouBuilder :=
  { b with timeFunc := fn }

/-- Embedding of `copyTags`: a copy holds the same values. -/
def copyTags (tags : List Tag) : List Tag := tags

/-- Embedding of `NippouBuilder.Build`. -/
def NippouBuilder.Build (b : NippouBuilder) : Except DomainError Nippou :=
  let sanitizedContent := sanitizeString b.content
  if sanitizedContent = [] then .error ErrEmptyContent
  else if RuneCountInString sanitizedContent > MaxContentLength then .error ErrContentTooLong
  else
    match timeParseDate b.dateStr with
    | none => .error ErrInvalidDateFormat
    | some date =>
      if b.tags.length > MaxTagCount then .error ErrMaxTagsExceeded
      else
        let now := b.timeFunc ()
        .ok { id := b.idGen.Generate (), date := date, content := sanitizedContent,
              location := b.location, voice := b.voice, tags := copyTags b.tags,
              createdAt := now, updatedAt := now }

/-- Embedding of `NewNippou`. -/
def NewNippou (defaultIDGenerator : IDGenerator) (timeNow : TimeFunc)
    (dateStr content : GoString) : Except DomainError Nippou :=
  (NewNippouBuilder defaultIDGenerator timeNow dateStr content).Build

/-! ### Getters -/

/-- Embedding of `Nippou.ID`. -/
def Nippou.ID (n : Option Nippou) : ID :=
  match n with
  | none => { value := [] }
  | some n => n.id

/-- Embedding of `Nippou.Date`. -/
def Nippou.Date (n : Option Nippou) : Time :=
  match n with
  | none => 0
  | some n => n.date

/-- Embedding of `Nippou.Content`. -/
def Nippou.Content (n : Option Nippou) : GoString :=
  match n with
  | none => []
  | some n => n.content

/-- Embedding of `Nippou.Location`: a copy of the location. -/
def Nippou.Location (n : Option Nippou) : Option Location :=
  match n with
  | none => none
  | some n =>
    match n.location with
    | none => none
    | some l => some { latitude := l.latitude, longitude := l.longitude, address := l.address }

/-- Embedding of `Nippou.Voice`: a copy of the voice configuration. -/
def Nippou.Voice (n : Option Nippou) : Option VoiceConfig :=
  match n with
  | none => none
  | some n =>
    match n.voice with
    | none => none
    | some v => some { enabled := v.enabled, modelName := v.modelName }

/-- Embedding of `Nippou.Tags`. -/
def Nippou.Tags (n : Option Nippou) : List Tag :=
  match n with
  | none => []
  | some n => copyTags n.tags

/-- Embedding of `Nippou.TagStrings`. -/
def Nippou.TagStrings (n : Option Nippou) : List GoString :=
  match n with
  | none => []
  | some n => n.tags.map Tag.String

/-- Embedding of `Nippou.CreatedAt`. -/
def Nippou.CreatedAt (n : Option Nippou) : Time :=
  match n with
  | none => 0
  | some n => n.createdAt

/-- Embedding of `Nippou.UpdatedAt`. -/
def Nippou.UpdatedAt (n : Option Nippou) : Time :=
  match n with
  | none => 0
  | some n => n.updatedAt

/-! ### Mutators

Each mutator returns the state of the receiver after the call and the error.
`now` is the value of `time.Now()` for the calls that read the clock. -/

/-- Embedding of `Nippou.UpdateContent`. -/
def Nippou.UpdateContent (n : Option Nippou) (content : GoString) (now : Time) :
    Option Nippou × Option DomainError :=
  match n with
  | none => (none, some ErrNilNippou)
  | some n =>
    let sanitized := sanitizeString content
    if sanitized = [] then (some n, some ErrEmptyContent)
    else if RuneCountInString sanitized > MaxContentLength then (some n, some ErrContentTooLong)
    else (some { n with content := sanitized, updatedAt := now }, none)

/-- Embedding of `Nippou.AttachLocation`. -/
def Nippou.AttachLocation (n : Option Nippou) (lat lng : Float64) (address : GoString)
    (now : Time) :
    Option Nippou × Option DomainError :=
  match n with
  | none => (none, some ErrNilNippou)
  | some n =>
    match NewLocation lat lng address with
    | .error err => (some n, some err)
    | .ok loc => (some { n with location := some loc, updatedAt := now }, none)

/-- Embedding of `Nippou.SetLocation`. -/
def Nippou.SetLocation (n : Option Nippou) (loc : Option nippou.Location) (now : Time) :
    Option Nippou × Option DomainError :=
  match n with
  | none => (none, some ErrNilNippou)
  | some n => (some { n with location := loc, updatedAt := now }, none)

/-- Embedding of `Nippou.RemoveLocation`. -/
def Nippou.RemoveLocation (n : Option Nippou) (now : Time) :
    Option Nippou × Option DomainError :=
  match n with
  | none => (none, some ErrNilNippou)
  | some n => (some { n with location := none, updatedAt := now }, none)

/-- Embedding of `Nippou.SetVoiceConfig`. -/
def Nippou.SetVoiceConfig (n : Option Nippou) (enabled : Bool) (modelName : GoString)
    (now : Time) : Option Nippou × Option DomainError :=
  match n with
  | none => (none, some ErrNilNippou)
  | some n =>
    match NewVoiceConfig enabled modelName with
    | .error err => (some n, some err)
    | .ok voice => (some { n with voice := some voice, updatedAt := now }, none)

/-- Embedding of `Nippou.SetVoice`. -/
def Nippou.SetVoice (n : Option Nippou) (voice : Option VoiceConfig) (now : Time) :
    Option Nippou × Option DomainError :=
  match n with
  | none => (none, some ErrNilNippou)
  | some n => (some { n with voice := voice, updatedAt := now }, none)

/-- Embedding of `Nippou.RemoveVoice`. -/
def Nippou.RemoveVoice (n : Option Nippou) (now : Time) :
    Option Nippou × Option DomainError :=
  match n with
  | none => (none, some ErrNilNippou)
  | some n => (some { n with voice := none, updatedAt := now }, none)

/-- Embedding of `Nippou.AddValidatedTag`. -/
def Nippou.AddValidatedTag (n : Option Nippou) (tag : Tag) (now : Time) :
    Option Nippou × Option DomainError :=
  match n with
  | none => (none, some ErrNilNippou)
  | some n =>
    if n.tags.length ≥ MaxTagCount then (some n, some ErrMaxTagsExceeded)
    else if n.tags.any (fun t => t.Equals tag) then (some n, some ErrDuplicateTag)
    else (some { n with tags := n.tags ++ [tag], updatedAt := now }, none)

/-- Embedding of `Nippou.AddTag`. -/
def Nippou.AddTag (n : Option Nippou) (tagStr : GoString) (now : Time) :
    Option Nippou × Option DomainError :=
  match n with
  | none => (none, some ErrNilNippou)
  | some n =>
    match NewTag tagStr with
    | .error err => (some n, some err)
    | .ok tag => Nippou.AddValidatedTag (some n) tag now

/-- Embedding of `Nippou.RemoveTag`: the first tag equal to the argument, at index
`i`, is cut out by `append(n.tags[:i], n.tags[i+1:]...)`. -/
def Nippou.RemoveTag (n : Option Nippou) (tagStr : GoString) (now : Time) :
    Option Nippou × Option DomainError :=
  match n with
  | none => (none, some ErrNilNippou)
  | some n =>
    match NewTag tagStr with
    | .error err => (some n, some err)
    | .ok tag =>
      match n.tags.findIdx? (fun t => t.Equals tag) with
      | some i =>
        (some { n with tags := n.tags.take i ++ n.tags.drop (i + 1), updatedAt := now }, none)
      | none => (some n, none)

/-- Embedding of `Nippou.HasTag`. -/
def Nippou.HasTag (n : Option Nippou) (tagStr : GoString) : Bool :=
  match n with
  | none => false
  | some n =>
    match NewTag tagStr with
    | .error _ => false
    | .ok tag => n.tags.any (fun t => t.Equals tag)

/-- Embedding of `Nippou.TagCount`. -/
def Nippou.TagCount (n : Option Nippou) : Nat :=
  match n with
  | none => 0
  | some n => n.tags.length

/-! ## Reconstruction -/

/-- The raw fields a repository hands to `Reconstruct`. -/
structure ReconstructedNippou where
  ID : GoString
  Date : Time
  Content : GoString
  Location : Option Location
  Voice : Option VoiceConfig
  Tags : List GoString
  CreatedAt : Time
  UpdatedAt : Time
deriving DecidableEq

/-- The loop of `Reconstruct`: the tags `NewTag` accepts, in order; the others
are skipped. -/
def reconstructTags : List GoString → List Tag
  | [] => []
  | tagStr :: rest =>
    match NewTag tagStr with
    | .error _ => reconstructTags rest
    | .ok tag => tag :: reconstructTags rest

/-- Embedding of `Reconstruct`. -/
def Reconstruct (data : ReconstructedNippou) : Except DomainError Nippou :=
  match IDFromString data.ID with
  | .error err => .error err
  | .ok id =>
    .ok { id := id, date := data.Date, content := data.Content, location := data.Location,
          voice := data.Voice, tags := reconstructTags data.Tags,
          createdAt := data.CreatedAt, updatedAt := data.UpdatedAt }

/-! ## Sequences of mutator calls -/

/-- One call of a mutator of `Nippou`, with its arguments. -/
inductive Mutation where
  | UpdateContent (content : GoString)
  | AttachLocation (lat lng : Float64) (address : GoString)
  | SetLocation (loc : Option Location)
  | RemoveLocation
  | SetVoiceConfig (enabled : Bool) (modelName : GoString)
  | SetVoice (voice : Option VoiceConfig)
  | RemoveVoice
  | AddTag (tagStr : GoString)
  | AddValidatedTag (tag : Tag)
  | RemoveTag (tagStr : GoString)

/-- Perform the call on the receiver `n` when the process clock reads `now`. -/
def Mutation.call (m : Mutation) (n : Option Nippou) (now : Time) :
    Option Nippou × Option DomainError :=
  match m with
  | .UpdateContent content => Nippou.UpdateContent n content now
  | .AttachLocation lat lng address => Nippou.AttachLocation n lat lng address now
  | .SetLocation loc => Nippou.SetLocation n loc now
  | .RemoveLocation => Nippou.RemoveLocation n now
  | .SetVoiceConfig enabled modelName => Nippou.SetVoiceConfig n enabled modelName now
  | .SetVoice voice => Nippou.SetVoice n voice now
  | .RemoveVoice => Nippou.RemoveVoice n now
  | .AddTag tagStr => Nippou.AddTag n tagStr now
  | .AddValidatedTag tag => Nippou.AddValidatedTag n tag now
  | .RemoveTag tagStr => Nippou.RemoveTag n tagStr now

/-- The receiver after a sequence of calls, each with the reading of the process
clock at that call; the returned errors are dropped. -/
def runCalls (n : Option Nippou) : List (Mutation × Time) → Option Nippou
  | [] => n
  | (m, now) :: rest => runCalls (m.call n now).1 rest

/-- No two entries of a tag list are equal (`Tag.Equals`). -/
def TagsUnique (tags : List Tag) : Prop :=
  tags.Pairwise (fun a b => a.Equals b = false)

instance (tags : List Tag) : Decidable (TagsUnique tags) := by
  unfold TagsUnique; infer_instance

/-! ## Example values -/

/-- An identifier in canonical UUID form. -/
def sampleID : GoString := "550e8400-e29b-41d4-a716-446655440000".toList

/-- A report without tags, created and last updated at instant 5. -/
def sampleNippou : Nippou :=
  { id := { value := sampleID }, date := timeDate 2026 1 8, content := "content".toList,
    location := none, voice := none, tags := [], createdAt := 5, updatedAt := 5 }

/-- The tags `t0`, `t1`, ... : `k` distinct tags. -/
def sampleTags (k : Nat) : List Tag :=
  (List.range k).map (fun i => { value := 't' :: (Nat.repr i).toList })

/-- A builder with a fixed identifier and a clock fixed at instant 100. -/
def sampleBuilder : NippouBuilder :=
  { dateStr := "2026-01-08".toList, content := "content".toList, location := none,
    voice := none, tags := [], idGen := { Generate := fun _ => { value := sampleID } },
    timeFunc := fun _ => 100 }

/-- Raw fields with the identifier `sampleID` and the given raw tags. -/
def sampleData (tags : List GoString) : ReconstructedNippou :=
  { ID := sampleID, Date := timeDate 2026 1 8, Content := "content".toList, Location := none,
    Voice := none, Tags := tags, CreatedAt := 5, UpdatedAt := 5 }

/-- Two raw strings are both accepted by `NewTag`, with equal tags. -/
def rawTagsClash (a b : GoString) : Bool :=
  match NewTag a, NewTag b with
  | .ok ta, .ok tb => ta.Equals tb
  | _, _ => false

/-- No two raw strings are accepted by `NewTag` with equal tags. -/
def RawTagsDistinct (raw : List GoString) : Prop :=
  raw.Pairwise (fun a b => rawTagsClash a b = false)

instance (raw : List GoString) : Decidable (RawTagsDistinct raw) := by
  unfold RawTagsDistinct; infer_instance


/-! ## Sanitized text -/

/-- The line-ending step in the words of the specification: every CRLF pair and
every lone CR becomes one LF. -/
def normalizeLineEndings : GoString → GoString
  | [] => []
  | [c] => if c = '\r' then ['\n'] else [c]
  | c :: d :: rest =>
    if c = '\r' ∧ d = '\n' then '\n' :: normalizeLineEndings rest
    else if c = '\r' then '\n' :: normalizeLineEndings (d :: rest)
    else c :: normalizeLineEndings (d :: rest)

/-- A text without NUL and without carriage return. -/
def NoNULNoCR (s : GoString) : Prop := '\x00' ∉ s ∧ '\r' ∉ s

instance (s : GoString) : Decidable (NoNULNoCR s) := by
  unfold NoNULNoCR; infer_instance

/-- The report `sampleBuilder` builds when it is given the tags `tags`. -/
def sampleBuilt (tags : List Tag) : Nippou :=
  { sampleNippou with tags := tags, createdAt := 100, updatedAt := 100 }

/-- A lower-case ASCII letter or a digit. -/
def isLowerAlnumASCII (c : Char) : Bool :=
  ('a' ≤ c && c ≤ 'z') || ('0' ≤ c && c ≤ '9')

/-! ## Calendar dates in the words of the specification -/

/-- The character of a decimal digit. -/
def digitChar (k : Nat) : Char := Char.ofNat ('0'.toNat + k)

/-- The strict form `YYYY-MM-DD` of a date: four digits, `-`, two digits, `-`, two
digits, each field padded with zeros. -/
def formatDate (year month day : Nat) : GoString :=
  [digitChar (year / 1000 % 10), digitChar (year / 100 % 10), digitChar (year / 10 % 10),
    digitChar (year % 10), '-', digitChar (month / 10 % 10), digitChar (month % 10), '-',
    digitChar (day / 10 % 10), digitChar (day % 10)]

/-- An existing calendar date with a year of four digits: the month is 1 to 12 and
the day is valid for that month and year. -/
def IsCalendarDate (year month day : Nat) : Prop :=
  year ≤ 9999 ∧ 1 ≤ month ∧ month ≤ 12 ∧ 1 ≤ day ∧ day ≤ daysIn month year

instance (year month day : Nat) : Decidable (IsCalendarDate year month day) := by
  unfold IsCalendarDate; infer_instance

/-- Nanoseconds in a day. -/
def nanosecondsPerDay : Int := 86400 * 1000000000

/-! ## Raw fields of an entity and targets of the mutators -/

/-- The raw fields read off an entity through its accessors: `ID().String()`,
`Date()`, `Content()`, `Location()`, `Voice()`, `TagStrings()`, `CreatedAt()` and
`UpdatedAt()`. -/
def rawFields (n : Option Nippou) : ReconstructedNippou :=
  { ID := (Nippou.ID n).String, Date := Nippou.Date n, Content := Nippou.Content n,
    Location := Nippou.Location n, Voice := Nippou.Voice n, Tags := Nippou.TagStrings n,
    CreatedAt := Nippou.CreatedAt n, UpdatedAt := Nippou.UpdatedAt n }

/-- The fields of the entity a mutator may write, `updatedAt` apart. -/
inductive Field where
  | content
  | location
  | voice
  | tags
deriving DecidableEq

/-- The field a mutator writes. -/
def Mutation.target : Mutation → Field
  | .UpdateContent _ => .content
  | .AttachLocation _ _ _ => .location
  | .SetLocation _ => .location
  | .RemoveLocation => .location
  | .SetVoiceConfig _ _ => .voice
  | .SetVoice _ => .voice
  | .RemoveVoice => .voice
  | .AddTag _ => .tags
  | .AddValidatedTag _ => .tags
  | .RemoveTag _ => .tags

/-- The sample builder with an identifier generator that returns `test-id-123`. -/
def mockIDBuilder : NippouBuilder :=
  sampleBuilder.WithIDGenerator { Generate := fun _ => { value := "test-id-123".toList } }

/-! ## The read accessors over an explicit heap

The value-level getters above cannot tell a copy from an alias.  Here the pointer
fields of the entity are addresses into a heap, an allocation takes the next free
address, and the caller may write through the references the accessors return. -/

/-- Addresses of heap objects. -/
abbrev Addr := Nat

/-- A heap: the `Location` and `VoiceConfig` objects behind pointers, the backing
arrays of `[]Tag` slices, and the next free address. -/
structure Heap where
  locations : Addr → Location
  voices : Addr → VoiceConfig
  arrays : Addr → List Tag
  next : Addr

/-- A non-nil `[]Tag` slice: its backing array and its length. -/
structure TagSlice where
  array : Addr
  len : Nat
deriving DecidableEq

/-- The entity as it lies in memory: `location` and `voice` are pointers, `tags`
is a slice, and `none` is `nil`. -/
structure NippouObj where
  id : ID
  date : Time
  content : GoString
  location : Option Addr
  voice : Option Addr
  tags : Option TagSlice
  createdAt : Time
  updatedAt : Time

/-- The Location a pointer refers to. -/
def Heap.locationAt (h : Heap) (p : Option Addr) : Option Location := p.map h.locations

/-- The VoiceConfig a pointer refers to. -/
def Heap.voiceAt (h : Heap) (p : Option Addr) : Option VoiceConfig := p.map h.voices

/-- The elements of a slice. -/
def Heap.tagsAt (h : Heap) (s : Option TagSlice) : List Tag :=
  match s with
  | none => []
  | some s => (h.arrays s.array).take s.len

/-- The value of the entity in a heap. -/
def NippouObj.value (o : NippouObj) (h : Heap) : Nippou :=
  { id := o.id, date := o.date, content := o.content, location := h.locationAt o.location,
    voice := h.voiceAt o.voice, tags := h.tagsAt o.tags, createdAt := o.createdAt,
    updatedAt := o.updatedAt }

/-- Every address the entity holds is allocated. -/
def NippouObj.Allocated (o : NippouObj) (h : Heap) : Prop :=
  (∀ p, o.location = some p → p < h.next) ∧ (∀ p, o.voice = some p → p < h.next) ∧
  (∀ s, o.tags = some s → s.array < h.next)

/-- Embedding of `Nippou.Location` over the heap: `&Location{...}` is a new object
that holds the three fields of the entity's location. -/
def NippouObj.Location (n : Option NippouObj) (h : Heap) : Option Addr × Heap :=
  match n with
  | none => (none, h)
  | some n =>
    match n.location with
    | none => (none, h)
    | some p =>
      (some h.next,
        { h with
          locations := Function.update h.locations h.next
            { latitude := (h.locations p).latitude, longitude := (h.locations p).longitude,
              address := (h.locations p).address },
          next := h.next + 1 })

/-- Embedding of `Nippou.Voice` over the heap. -/
def NippouObj.Voice (n : Option NippouObj) (h : Heap) : Option Addr × Heap :=
  match n with
  | none => (none, h)
  | some n =>
    match n.voice with
    | none => (none, h)
    | some p =>
      (some h.next,
        { h with
          voices := Function.update h.voices h.next
            { enabled := (h.voices p).enabled, modelName := (h.voices p).modelName },
          next := h.next + 1 })

/-- Embedding of `copyTags` over the heap: `make` allocates a new array and `copy`
fills it with the elements of the argument.  The address of an array of length 0
carries no meaning: it holds no element. -/
def copyTagsHeap (tags : Option TagSlice) (h : Heap) : Option TagSlice × Heap :=
  match tags with
  | none => (none, h)
  | some s =>
    (some { array := h.next, len := s.len },
      { h with
        arrays := Function.update h.arrays h.next ((h.arrays s.array).take s.len),
        next := h.next + 1 })

/-- Embedding of `Nippou.Tags` over the heap. -/
def NippouObj.Tags (n : Option NippouObj) (h : Heap) : Option TagSlice × Heap :=
  match n with
  | none => (none, h)
  | some n => copyTagsHeap n.tags h

/-- The assignment `s[i] = v` by a holder of the slice `s`. -/
def Heap.setElem (h : Heap) (s : TagSlice) (i : Nat) (v : Tag) : Heap :=
  if i < s.len then { h with arrays := Function.update h.arrays s.array ((h.arrays s.array).set i v) }
  else h

/-- The assignment `*p = l` by a holder of the Location pointer `p`. -/
def Heap.storeLocation (h : Heap) (p : Addr) (l : Location) : Heap :=
  { h with locations := Function.update h.locations p l }

/-- The assignment `*p = v` by a holder of the VoiceConfig pointer `p`. -/
def Heap.storeVoice (h : Heap) (p : Addr) (v : VoiceConfig) : Heap :=
  { h with voices := Function.update h.voices p v }

/-- A heap with the tags `t0`, `t1` in array 0, a Location at address 1 and a
VoiceConfig at address 2. -/
def sampleHeap : Heap :=
  { locations := fun _ => { latitude := 35, longitude := 139, address := "Tokyo".toList },
    voices := fun _ => { enabled := true, modelName := "gpt-4o".toList },
    arrays := fun _ => sampleTags 2, next := 3 }

/-- An entity in `sampleHeap`. -/
def sampleObj : NippouObj :=
  { id := { value := sampleID }, date := timeDate 2026 1 8, content := "content".toList,
    location := some 1, voice := some 2, tags := some { array := 0, len := 2 },
    createdAt := 5, updatedAt := 5 }

/-! ## Standard library: `Time.Format` with the layout `2006-01-02` -/

/-- Embedding of `isLeap` of package `time` at a year of any sign. -/
def isLeapYear (year : Int) : Bool := year % 4 == 0 && (year % 100 != 0 || year % 400 == 0)

/-- Embedding of the year part of `absDate` of package `time`: the days from
`0001-01-01` are cut into cycles of 400, 100, 4 and 1 years; the result is the
year and the day within the year, from 0. -/
def yearDay (days : Int) : Int × Int :=
  let n400 := days / 146097
  let d1 := days - 146097 * n400
  let n100 := d1 / 36524
  let n100 := n100 - n100 / 4
  let d2 := d1 - 36524 * n100
  let n4 := d2 / 1461
  let d3 := d2 - 1461 * n4
  let n1 := d3 / 365
  let n1 := n1 - n1 / 4
  (400 * n400 + 100 * n100 + 4 * n4 + n1 + 1, d3 - 365 * n1)

/-- The table `daysBefore` of package `time`: the days of a non-leap year before
each month. -/
def daysBeforeTable : List Nat := [0, 31, 59, 90, 120, 151, 181, 212, 243, 273, 304, 334, 365]

/-- Embedding of the month part of `absDate`: the month and the day of the month
of the day `yday` (from 0) of a year. -/
def monthDay (leap : Bool) (yday : Nat) : Nat × Nat :=
  if leap && yday == 59 then (2, 29)
  else
    let day := if leap && yday > 59 then yday - 1 else yday
    let month := day / 31
    let stop := daysBeforeTable.getD (month + 1) 0
    if day ≥ stop then (month + 2, day - stop + 1)
    else (month + 1, day - daysBeforeTable.getD month 0 + 1)

/-- The decimal digits of `u`, most significant first; `fuel` bounds their number. -/
def decimalDigits : Nat → Nat → GoString
  | 0, _ => []
  | fuel + 1, u =>
    if u < 10 then [digitChar u] else decimalDigits fuel (u / 10) ++ [digitChar (u % 10)]

/-- Embedding of `appendInt` of package `time`: the decimal form of `x`, padded
with zeros to `width` digits, after a `-` when `x` is negative.  Twenty digits
cover a 64-bit integer. -/
def appendInt (x : Int) (width : Nat) : GoString :=
  let u := x.natAbs
  let sign : GoString := if x < 0 then ['-'] else []
  if width = 2 ∧ u < 100 then sign ++ [digitChar (u / 10), digitChar (u % 10)]
  else if width = 4 ∧ u < 10000 then
    sign ++ [digitChar (u / 100 / 10), digitChar (u / 100 % 10), digitChar (u % 100 / 10),
      digitChar (u % 100 % 10)]
  else
    let digits := decimalDigits 20 u
    sign ++ List.replicate (width - digits.length) '0' ++ digits

/-- Embedding of `t.Format("2006-01-02")` for a time in UTC. -/
def timeFormatDate (t : Time) : GoString :=
  let days := t / (86400 * 1000000000)
  let yd := yearDay days
  let md := monthDay (isLeapYear yd.1) yd.2.toNat
  appendInt yd.1 4 ++ '-' :: (appendInt md.1 2 ++ '-' :: appendInt md.2 2)

/-! ## Package `salesforce`: the storage mapping -/

/-- Embedding of `strings.Join`. -/
def Join (elems : List GoString) (sep : GoString) : GoString := sep.intercalate elems

/-- Embedding of `strings.Split` for a separator of one code point. -/
def Split (s : GoString) (sep : Char) : List GoString := s.splitOn sep

/-- The layouts of `time.Parse`, other than `2006-01-02`, that the storage mapping
tries: `time.RFC3339` and `2006-01-02T15:04:05.000+0000`; `none` is a parse
error. -/
structure TimeLayouts where
  parseRFC3339 : GoString → Option Time
  parseMillis : GoString → Option Time

/-- Layouts that accept nothing. -/
def noLayouts : TimeLayouts := { parseRFC3339 := fun _ => none, parseMillis := fun _ => none }

namespace salesforce

/-- The record `Nippou__c` of the storage. -/
structure NippouSF where
  ID : GoString
  Date : GoString
  Content : GoString
  Latitude : Float64
  Longitude : Float64
  Address : GoString
  VoiceOn : Bool
  VoiceModel : GoString
  Tags : GoString
  CreatedDate : GoString
  LastModifiedDate : GoString
deriving DecidableEq

/-- The error of `ToDomain`: a date that does not parse, or the error of
`Reconstruct`. -/
inductive MappingError where
  | parse
  | domain (err : DomainError)
deriving DecidableEq

/-- Embedding of `FromDomain`. -/
def FromDomain (n : Option Nippou) : Option NippouSF :=
  match n with
  | none => none
  | some _ =>
    let sf : NippouSF :=
      { ID := (Nippou.ID n).String, Date := timeFormatDate (Nippou.Date n),
        Content := Nippou.Content n, Latitude := 0, Longitude := 0, Address := [],
        VoiceOn := false, VoiceModel := [], Tags := [], CreatedDate := [],
        LastModifiedDate := [] }
    let sf : NippouSF :=
      match Nippou.Location n with
      | none => sf
      | some loc =>
        { sf with Latitude := Location.Latitude (some loc),
                  Longitude := Location.Longitude (some loc),
                  Address := Location.Address (some loc) }
    let sf : NippouSF :=
      match Nippou.Voice n with
      | none => sf
      | some voice =>
        { sf with VoiceOn := VoiceConfig.Enabled (some voice),
                  VoiceModel := VoiceConfig.ModelName (some voice) }
    let tags := Nippou.TagStrings n
    let sf : NippouSF := if tags.length > 0 then { sf with Tags := Join tags [','] } else sf
    some sf

/-- Embedding of `parseTimestamp`; the zero instant stands for `time.Time{}`. -/
def parseTimestamp (lib : TimeLayouts) (s : GoString) : Time :=
  if s = [] then 0
  else
    match lib.parseRFC3339 s with
    | some t => t
    | none =>
      match lib.parseMillis s with
      | some t => t
      | none =>
        match timeParseDate s with
        | some t => t
        | none => 0

/-- The tag loop of `ToDomain`: the trimmed, non-empty parts between commas. -/
def splitTags (s : GoString) : List GoString :=
  if s ≠ [] then ((Split s ',').map TrimSpace).filter (fun t => t ≠ []) else []

/-- Embedding of `NippouSF.ToDomain`; `now` is the value of `time.Now()`. -/
def ToDomain (sf : Option NippouSF) (lib : TimeLayouts) (now : Time) :
    Except MappingError (Option Nippou) :=
  match sf with
  | none => .ok none
  | some sf =>
    let parsed :=
      match timeParseDate sf.Date with
      | some date => some date
      | none => lib.parseRFC3339 sf.Date
    match parsed with
    | none => .error .parse
    | some date =>
      let createdAt := parseTimestamp lib sf.CreatedDate
      let updatedAt := parseTimestamp lib sf.LastModifiedDate
      let createdAt := if createdAt = 0 then now else createdAt
      let updatedAt := if updatedAt = 0 then createdAt else updatedAt
      let location : Option Location :=
        if Float64.ne sf.Latitude 0 = true ∨ Float64.ne sf.Longitude 0 = true ∨
            sf.Address ≠ [] then
          (NewLocation sf.Latitude sf.Longitude sf.Address).toOption
        else none
      let voice : Option VoiceConfig :=
        if sf.VoiceOn = true ∨ sf.VoiceModel ≠ [] then
          (NewVoiceConfig sf.VoiceOn sf.VoiceModel).toOption
        else none
      let tags := splitTags sf.Tags
      match Reconstruct { ID := sf.ID, Date := date, Content := sf.Content, Location := location,
                          Voice := voice, Tags := tags, CreatedAt := createdAt,
                          UpdatedAt := updatedAt } with
      | .error err => .error (.domain err)
      | .ok n => .ok (some n)

end salesforce

/-- The sample builder with the location `(0, 0, "")` and the voice config
`(false, "")`, two values `NewLocation` and `NewVoiceConfig` return. -/
def zeroValuedBuilder : NippouBuilder :=
  (sampleBuilder.WithLocation (some { latitude := 0, longitude := 0, address := [] })).WithVoice
    (some { enabled := false, modelName := [] })

/-- The sample builder with a location in Tokyo, an enabled voice config and the
tags `t0`, `t1`. -/
def fullBuilder : NippouBuilder :=
  ((sampleBuilder.WithLocation
      (some { latitude := 35, longitude := 139, address := "Tokyo".toList })).WithVoice
    (some { enabled := true, modelName := "gpt-4o".toList })).WithTags (sampleTags 2)

/-- The entity `fullBuilder` builds. -/
def fullBuilt : Nippou :=
  { sampleBuilt (sampleTags 2) with
    location := some { latitude := 35, longitude := 139, address := "Tokyo".toList },
    voice := some { enabled := true, modelName := "gpt-4o".toList } }

/-- The entity `zeroValuedBuilder` builds. -/
def zeroValuedBuilt : Nippou :=
  { sampleBuilt [] with
    location := some { latitude := 0, longitude := 0, address := [] },
    voice := some { enabled := false, modelName := [] } }

/-- The entity the sample builder builds with the location that `NewLocation`
returns for the latitude NaN. -/
def nanBuilt : Nippou :=
  { sampleBuilt [] with
    location := some { latitude := .nan, longitude := 139, address := "Tokyo".toList } }

/-- The entity the sample builder builds with the location that `NewLocation`
returns for the address `"\x00 Tokyo"`: the address keeps a leading space. -/
def spacedBuilt : Nippou :=
  { sampleBuilt [] with
    location := some { latitude := 35, longitude := 139, address := " Tokyo".toList } }

/-! ## Package `usecase/nippou`: the create use case -/

/-- A Go `error` held as a cause: a domain error, or another error given by its
text. -/
inductive GoError where
  | domain (err : DomainError)
  | other (text : String)
deriving DecidableEq

namespace usecase

/-- An application-level error. -/
structure UseCaseError where
  Code : String
  Message : String
  Cause : Option GoError
deriving DecidableEq

def ErrCodeInvalidInput : String := "INVALID_INPUT"
def ErrCodeRepositoryError : String := "REPOSITORY_ERROR"
def ErrCodeDomainViolation : String := "DOMAIN_VIOLATION"
def ErrCodeContextCancelled : String := "CONTEXT_CANCELLED"

def ErrNilInput : UseCaseError :=
  { Code := ErrCodeInvalidInput, Message := "input cannot be nil", Cause := none }
def ErrContextNil : UseCaseError :=
  { Code := ErrCodeInvalidInput, Message := "context cannot be nil", Cause := none }
def ErrRepositoryNil : UseCaseError :=
  { Code := ErrCodeInvalidInput, Message := "repository cannot be nil", Cause := none }

/-- Embedding of `NewInvalidInputError`. -/
def NewInvalidInputError (field message : String) : UseCaseError :=
  { Code := ErrCodeInvalidInput, Message := field ++ ": " ++ message, Cause := none }

/-- Embedding of `NewRepositoryError`. -/
def NewRepositoryError (cause : GoError) : UseCaseError :=
  { Code := ErrCodeRepositoryError, Message := "failed to persist nippou", Cause := some cause }

/-- Embedding of `NewDomainViolationError`. -/
def NewDomainViolationError (cause : GoError) : UseCaseError :=
  { Code := ErrCodeDomainViolation, Message := "domain validation failed", Cause := some cause }

/-- Location data in the request. -/
structure LocationInput where
  Latitude : Float64
  Longitude : Float64
  Address : GoString
deriving DecidableEq

/-- Voice configuration in the request. -/
structure VoiceInput where
  Enabled : Bool
  ModelName : GoString
deriving DecidableEq

/-- The input of the create use case. -/
structure CreateInput where
  Date : GoString
  Content : GoString
  Location : Option LocationInput
  Voice : Option VoiceInput
  Tags : List GoString
deriving DecidableEq

/-- The loop of `Validate` over the tags, from index `idx`. -/
def validateTags : Nat → List GoString → Option UseCaseError
  | _, [] => none
  | idx, tag :: rest =>
    if RuneCountInString tag > MaxTagLength then
      some (NewInvalidInputError "tags"
        ("tag at index " ++ toString idx ++ " exceeds maximum length of " ++
          toString MaxTagLength))
    else validateTags (idx + 1) rest

/-- The location block of `Validate`. -/
def validateLocation (location : Option LocationInput) : Option UseCaseError :=
  match location with
  | none => none
  | some l =>
    if l.Latitude < MinLatitude ∨ l.Latitude > MaxLatitude then
      some (NewInvalidInputError "location.latitude" "must be between -90 and 90")
    else if l.Longitude < MinLongitude ∨ l.Longitude > MaxLongitude then
      some (NewInvalidInputError "location.longitude" "must be between -180 and 180")
    else if RuneCountInString l.Address > MaxAddressLength then
      some (NewInvalidInputError "location.address"
        ("exceeds maximum length of " ++ toString MaxAddressLength))
    else none

/-- The voice block of `Validate`. -/
def validateVoice (voice : Option VoiceInput) : Option UseCaseError :=
  match voice with
  | none => none
  | some v =>
    if v.Enabled = true ∧ TrimSpace v.ModelName = [] then
      some (NewInvalidInputError "voice.modelName" "cannot be empty when voice is enabled")
    else if RuneCountInString v.ModelName > MaxModelNameLength then
      some (NewInvalidInputError "voice.modelName"
        ("exceeds maximum length of " ++ toString MaxModelNameLength))
    else none

/-- Embedding of `CreateInput.Validate`; `none` is the nil error. -/
def CreateInput.Validate (i : Option CreateInput) : Option UseCaseError :=
  match i with
  | none => some ErrNilInput
  | some i =>
    if TrimSpace i.Date = [] then some (NewInvalidInputError "date" "cannot be empty")
    else if TrimSpace i.Content = [] then
      some (NewInvalidInputError "content" "cannot be empty")
    else if RuneCountInString i.Content > MaxContentLength then
      some (NewInvalidInputError "content"
        ("exceeds maximum length of " ++ toString MaxContentLength ++ " characters"))
    else if i.Tags.length > MaxTagCount then
      some (NewInvalidInputError "tags" ("exceeds maximum count of " ++ toString MaxTagCount))
    else
      match validateTags 0 i.Tags with
      | some err => some err
      | none =>
        match validateLocation i.Location with
        | some err => some err
        | none => validateVoice i.Voice

/-- Location data in the response. -/
structure LocationOutput where
  Latitude : Float64
  Longitude : Float64
  Address : GoString
deriving DecidableEq

/-- Voice configuration in the response. -/
structure VoiceOutput where
  Enabled : Bool
  ModelName : GoString
deriving DecidableEq

/-- The output of the create use case. -/
structure CreateOutput where
  ID : GoString
  Date : GoString
  Content : GoString
  Location : Option LocationOutput
  Voice : Option VoiceOutput
  Tags : List GoString
  CreatedAt : GoString
  UpdatedAt : GoString
deriving DecidableEq

/-- A `context.Context` as `Execute` sees it: whether `Done()` is ready at the
check on entry and at the check before persistence, and the value of `Err()`. -/
structure Context where
  doneOnEntry : Bool
  doneBeforeSave : Bool
  Err : GoError

/-- The repository as `Execute` uses it.  `Save` receives a pointer to the
entity: its result is the state of the entity after the call and the error,
`none` for nil. -/
structure Repository where
  Save : Nippou → Nippou × Option GoError

/-- The create use case. -/
structure CreateUseCase where
  repo : Repository

/-- What `Execute` takes from its surroundings: the package-level identifier
generator and clock of the domain package, and `Time.Format` with the layout
`2006-01-02T15:04:05Z07:00`. -/
structure Runtime where
  defaultIDGenerator : IDGenerator
  timeNow : TimeFunc
  formatRFC3339 : Time → GoString

/-- Embedding of `mapToOutput`. -/
def mapToOutput (rt : Runtime) (n : Option Nippou) : Option CreateOutput :=
  match n with
  | none => none
  | some _ =>
    some
      { ID := (Nippou.ID n).String, Date := timeFormatDate (Nippou.Date n),
        Content := Nippou.Content n,
        Location := (Nippou.Location n).map (fun loc =>
          { Latitude := Location.Latitude (some loc), Longitude := Location.Longitude (some loc),
            Address := Location.Address (some loc) }),
        Voice := (Nippou.Voice n).map (fun voice =>
          { Enabled := VoiceConfig.Enabled (some voice),
            ModelName := VoiceConfig.ModelName (some voice) }),
        Tags := Nippou.TagStrings n,
        CreatedAt := rt.formatRFC3339 (Nippou.CreatedAt n),
        UpdatedAt := rt.formatRFC3339 (Nippou.UpdatedAt n) }

/-- The tag loop of `Execute`: each string goes through `NewTag` and is compared
with the tags collected so far. -/
def collectTags : List GoString → List Tag → Except DomainError (List Tag)
  | [], tags => .ok tags
  | tagStr :: rest, tags =>
    match NewTag tagStr with
    | .error err => .error err
    | .ok tag =>
      if tags.any (fun existingTag => existingTag.Equals tag) then .error ErrDuplicateTag
      else collectTags rest (tags ++ [tag])

/-- Step 3 of `Execute`: the optional location. -/
def addLocation (builder : NippouBuilder) (input : CreateInput) :
    Except UseCaseError NippouBuilder :=
  match input.Location with
  | none => .ok builder
  | some l =>
    match NewLocation l.Latitude l.Longitude l.Address with
    | .error err => .error (NewDomainViolationError (.domain err))
    | .ok loc => .ok (builder.WithLocation (some loc))

/-- Step 4 of `Execute`: the optional voice configuration. -/
def addVoice (builder : NippouBuilder) (input : CreateInput) :
    Except UseCaseError NippouBuilder :=
  match input.Voice with
  | none => .ok builder
  | some v =>
    match NewVoiceConfig v.Enabled v.ModelName with
    | .error err => .error (NewDomainViolationError (.domain err))
    | .ok voice => .ok (builder.WithVoice (some voice))

/-- Step 5 of `Execute`: the tags. -/
def addTags (builder : NippouBuilder) (input : CreateInput) :
    Except UseCaseError NippouBuilder :=
  if input.Tags.length > 0 then
    match collectTags input.Tags [] with
    | .error err => .error (NewDomainViolationError (.domain err))
    | .ok tags => .ok (builder.WithTags tags)
  else .ok builder

/-- Steps 2 to 6 of `Execute`: the construction of the domain entity. -/
def construct (rt : Runtime) (input : CreateInput) : Except UseCaseError Nippou :=
  match addLocation (NewNippouBuilder rt.defaultIDGenerator rt.timeNow input.Date input.Content)
      input with
  | .error err => .error err
  | .ok builder =>
    match addVoice builder input with
    | .error err => .error err
    | .ok builder =>
      match addTags builder input with
      | .error err => .error err
      | .ok builder =>
        match builder.Build with
        | .error err => .error (NewDomainViolationError (.domain err))
        | .ok nippou => .ok nippou

/-- The result of one call of `Execute`: the two return values, and the
arguments of the calls of `repo.Save` it made, in order. -/
structure Outcome where
  output : Option CreateOutput
  err : Option UseCaseError
  saved : List Nippou

/-- Embedding of `CreateUseCase.Execute`. -/
def Execute (uc : CreateUseCase) (rt : Runtime) (ctx : Option Context)
    (input : Option CreateInput) : Outcome :=
  match ctx with
  | none => { output := none, err := some ErrContextNil, saved := [] }
  | some ctx =>
    if ctx.doneOnEntry then
      { output := none,
        err := some { Code := ErrCodeContextCancelled, Message := "operation cancelled",
                      Cause := some ctx.Err },
        saved := [] }
    else
      match CreateInput.Validate input, input with
      | some err, _ => { output := none, err := some err, saved := [] }
      | none, none => { output := none, err := some ErrNilInput, saved := [] }
      | none, some input =>
        match construct rt input with
        | .error err => { output := none, err := some err, saved := [] }
        | .ok nippou =>
          if ctx.doneBeforeSave then
            { output := none,
              err := some { Code := ErrCodeContextCancelled,
                            Message := "operation cancelled before persistence",
                            Cause := some ctx.Err },
              saved := [] }
          else
            match uc.repo.Save nippou with
            | (_, some err) =>
              { output := none, err := some (NewRepositoryError err), saved := [nippou] }
            | (after, none) =>
              { output := mapToOutput rt (some after), err := none, saved := [nippou] }

end usecase

/-- The offending condition of a field of the input, in the words of the
specification of `Validate`. -/
def Offends (x : usecase.CreateInput) (field : String) : Prop :=
  if field = "date" then TrimSpace x.Date = []
  else if field = "content" then TrimSpace x.Content = [] ∨ 65536 < x.Content.length
  else if field = "tags" then 20 < x.Tags.length ∨ ∃ t ∈ x.Tags, 50 < t.length
  else if field = "location.latitude" then ∃ l ∈ x.Location, l.Latitude < -90 ∨ 90 < l.Latitude
  else if field = "location.longitude" then
    ∃ l ∈ x.Location, l.Longitude < -180 ∨ 180 < l.Longitude
  else if field = "location.address" then ∃ l ∈ x.Location, 500 < l.Address.length
  else if field = "voice.modelName" then
    ∃ v ∈ x.Voice, (v.Enabled = true ∧ TrimSpace v.ModelName = []) ∨ 100 < v.ModelName.length
  else False

instance (x : usecase.CreateInput) (field : String) : Decidable (Offends x field) := by
  unfold Offends; infer_instance

/-- The input the specification of `Validate` accepts. -/
def Acceptable (x : usecase.CreateInput) : Prop :=
  TrimSpace x.Date ≠ [] ∧ TrimSpace x.Content ≠ [] ∧ x.Content.length ≤ 65536 ∧
  x.Tags.length ≤ 20 ∧ (∀ t ∈ x.Tags, t.length ≤ 50) ∧
  (∀ l ∈ x.Location,
    -90 ≤ l.Latitude ∧ l.Latitude ≤ 90 ∧ -180 ≤ l.Longitude ∧ l.Longitude ≤ 180 ∧
      l.Address.length ≤ 500) ∧
  (∀ v ∈ x.Voice, v.ModelName.length ≤ 100 ∧ (v.Enabled = true → TrimSpace v.ModelName ≠ []))

instance (x : usecase.CreateInput) : Decidable (Acceptable x) := by
  unfold Acceptable; infer_instance

/-- A runtime with the fixed identifier, a clock fixed at instant 100 and a
formatter that gives the empty string. -/
def sampleRuntime : usecase.Runtime :=
  { defaultIDGenerator := { Generate := fun _ => { value := sampleID } },
    timeNow := fun _ => 100, formatRFC3339 := fun _ => [] }

/-- A minimal input. -/
def sampleInput : usecase.CreateInput :=
  { Date := "2026-01-08".toList, Content := "content".toList, Location := none, Voice := none,
    Tags := [] }

/-- The minimal input with a location whose latitude is NaN. -/
def nanInput : usecase.CreateInput :=
  { sampleInput with
    Location := some { Latitude := .nan, Longitude := 139, Address := "Tokyo".toList } }

/-- A repository whose `Save` succeeds and leaves the entity as it is. -/
def okRepository : usecase.Repository := { Save := fun n => (n, none) }

/-- A context that is never done. -/
def liveContext : usecase.Context :=
  { doneOnEntry := false, doneBeforeSave := false, Err := .other "context canceled" }

/-! # Theorems -/

/-! ## Lemmas on the mutators -/

/-- A mutator called on a non-nil receiver leaves a non-nil receiver. -/
theorem call_some (m : Mutation) (n : Nippou) (now : Time) :
    ∃ n', (m.call (some n) now).1 = some n' := by
  cases m <;>
    simp only [Mutation.call, Nippou.UpdateContent, Nippou.AttachLocation, Nippou.SetLocation,
      Nippou.RemoveLocation, Nippou.SetVoiceConfig, Nippou.SetVoice, Nippou.RemoveVoice,
      Nippou.AddTag, Nippou.AddValidatedTag, Nippou.RemoveTag] <;>
    (repeat' split) <;> exact ⟨_, rfl⟩

/-- Cutting one index out of a tag list keeps the list within the limit and unique. -/
theorem cut_preserves (tags : List Tag) (i k : Nat) (hlen : tags.length ≤ k)
    (huniq : TagsUnique tags) :
    (tags.take i ++ tags.drop (i + 1)).length ≤ k ∧
      TagsUnique (tags.take i ++ tags.drop (i + 1)) := by
  rw [← List.eraseIdx_eq_take_drop_succ]
  exact ⟨le_trans (List.eraseIdx_sublist tags i).length_le hlen,
    List.Pairwise.sublist (List.eraseIdx_sublist tags i) huniq⟩

/-- Appending a tag that equals no entry keeps a tag list unique. -/
theorem append_preserves (tags : List Tag) (tag : Tag)
    (hnew : tags.any (fun t => t.Equals tag) = false) (huniq : TagsUnique tags) :
    TagsUnique (tags ++ [tag]) := by
  unfold TagsUnique at *
  rw [List.pairwise_append]
  refine ⟨huniq, List.pairwise_singleton _ _, ?_⟩
  intro a ha b hb
  rw [List.mem_singleton] at hb
  subst hb
  rw [List.any_eq_false] at hnew
  simpa using hnew a ha

/-- The tag list after `AddValidatedTag`. -/
theorem AddValidatedTag_tags (n : Nippou) (tag : Tag) (now : Time) (k : Nat)
    (hk : MaxTagCount ≤ k) (hlen : n.tags.length ≤ k) (huniq : TagsUnique n.tags) :
    ∃ n', (Nippou.AddValidatedTag (some n) tag now).1 = some n' ∧
      n'.tags.length ≤ k ∧ TagsUnique n'.tags := by
  unfold Nippou.AddValidatedTag
  by_cases h1 : n.tags.length ≥ MaxTagCount
  · simp only [h1, if_true]; exact ⟨n, rfl, hlen, huniq⟩
  · by_cases h2 : n.tags.any (fun t => t.Equals tag) = true
    · simp only [h1, h2, if_true, if_false]; exact ⟨n, rfl, hlen, huniq⟩
    · simp only [h1, h2, if_false]
      refine ⟨_, rfl, ?_, append_preserves _ _ (by simpa using h2) huniq⟩
      simp only [List.length_append, List.length_singleton]
      omega

/-- C1: on a non-nil report whose tag list has at most 20 entries, no two of them
equal, every mutator call, with any arguments and whether it succeeds or fails,
leaves a tag list with at most 20 entries, no two of them equal. -/
theorem mutators_preserve_tag_invariant (n : Nippou) (m : Mutation) (now : Time)
    (hlen : n.tags.length ≤ 20) (huniq : TagsUnique n.tags) :
    ∃ n', (m.call (some n) now).1 = some n' ∧ n'.tags.length ≤ 20 ∧ TagsUnique n'.tags := by
  cases m with
  | AddValidatedTag tag =>
    exact AddValidatedTag_tags n tag now 20 (by decide) hlen huniq
  | AddTag tagStr =>
    simp only [Mutation.call, Nippou.AddTag]
    split
    · exact ⟨n, rfl, hlen, huniq⟩
    · exact AddValidatedTag_tags n _ now 20 (by decide) hlen huniq
  | RemoveTag tagStr =>
    simp only [Mutation.call, Nippou.RemoveTag]
    split
    · exact ⟨n, rfl, hlen, huniq⟩
    · split
      · exact ⟨_, rfl, cut_preserves n.tags _ 20 hlen huniq⟩
      · exact ⟨n, rfl, hlen, huniq⟩
  | UpdateContent content =>
    simp only [Mutation.call, Nippou.UpdateContent]
    split
    · exact ⟨n, rfl, hlen, huniq⟩
    · split
      · exact ⟨n, rfl, hlen, huniq⟩
      · exact ⟨_, rfl, hlen, huniq⟩
  | AttachLocation lat lng address =>
    simp only [Mutation.call, Nippou.AttachLocation]
    split
    · exact ⟨n, rfl, hlen, huniq⟩
    · exact ⟨_, rfl, hlen, huniq⟩
  | SetVoiceConfig enabled modelName =>
    simp only [Mutation.call, Nippou.SetVoiceConfig]
    split
    · exact ⟨n, rfl, hlen, huniq⟩
    · exact ⟨_, rfl, hlen, huniq⟩
  | SetLocation loc => exact ⟨_, rfl, hlen, huniq⟩
  | RemoveLocation => exact ⟨_, rfl, hlen, huniq⟩
  | SetVoice voice => exact ⟨_, rfl, hlen, huniq⟩
  | RemoveVoice => exact ⟨_, rfl, hlen, huniq⟩

/-- C1 at a report with two tags and a call of `AddTag`. -/
theorem mutators_preserve_tag_invariant_witness :
    ({ sampleNippou with tags := sampleTags 2 } : Nippou).tags.length ≤ 20 ∧
    TagsUnique ({ sampleNippou with tags := sampleTags 2 } : Nippou).tags ∧
    ∃ n', ((Mutation.AddTag "Sales".toList).call
        (some { sampleNippou with tags := sampleTags 2 }) 9).1 = some n' ∧
      n'.tags.length ≤ 20 ∧ TagsUnique n'.tags :=
  ⟨by decide, by decide,
    mutators_preserve_tag_invariant { sampleNippou with tags := sampleTags 2 }
      (Mutation.AddTag "Sales".toList) 9 (by decide) (by decide)⟩


/-- C2: `Build` does not keep the tag list free of duplicates.  A builder given
the same Tag twice through `WithTags` builds an entity that holds it twice. -/
theorem Build_keeps_duplicate_tags :
    ∃ n, (sampleBuilder.WithTags [⟨"a".toList⟩, ⟨"a".toList⟩]).Build = .ok n ∧
      n.tags = [⟨"a".toList⟩, ⟨"a".toList⟩] ∧ n.tags.length ≤ 20 ∧ ¬ TagsUnique n.tags :=
  ⟨{ sampleNippou with tags := [⟨"a".toList⟩, ⟨"a".toList⟩], createdAt := 100, updatedAt := 100 },
    by decide, by decide, by decide, by decide⟩

/-! ## Lemmas on `Reconstruct` -/

/-- `Reconstruct` succeeds with the tags `reconstructTags` returns. -/
theorem Reconstruct_tags (data : ReconstructedNippou) (n : Nippou)
    (h : Reconstruct data = .ok n) : n.tags = reconstructTags data.Tags := by
  unfold Reconstruct at h
  split at h
  · cases h
  · cases h; rfl

/-- The reconstructed tag list is no longer than the raw list. -/
theorem reconstructTags_length_le (raw : List GoString) :
    (reconstructTags raw).length ≤ raw.length := by
  induction raw with
  | nil => simp [reconstructTags]
  | cons s rest ih =>
    unfold reconstructTags
    split
    · exact Nat.le_succ_of_le ih
    · simpa using ih

/-- Every reconstructed tag is `NewTag` of one of the raw strings. -/
theorem mem_reconstructTags (raw : List GoString) (t : Tag) (ht : t ∈ reconstructTags raw) :
    ∃ s ∈ raw, NewTag s = .ok t := by
  induction raw with
  | nil => simp [reconstructTags] at ht
  | cons s rest ih =>
    unfold reconstructTags at ht
    split at ht
    · obtain ⟨s', hs', h'⟩ := ih ht
      exact ⟨s', List.mem_cons_of_mem _ hs', h'⟩
    · next tag htag =>
      rcases List.mem_cons.mp ht with h | h
      · exact ⟨s, List.mem_cons_self _ _, by rw [h]; exact htag⟩
      · obtain ⟨s', hs', h'⟩ := ih h
        exact ⟨s', List.mem_cons_of_mem _ hs', h'⟩

/-- Raw strings with distinct normal forms reconstruct to a unique tag list. -/
theorem reconstructTags_unique (raw : List GoString) (h : RawTagsDistinct raw) :
    TagsUnique (reconstructTags raw) := by
  induction raw with
  | nil => simp [reconstructTags, TagsUnique]
  | cons s rest ih =>
    unfold RawTagsDistinct at h
    rw [List.pairwise_cons] at h
    unfold reconstructTags
    split
    · exact ih h.2
    · next tag htag =>
      unfold TagsUnique
      rw [List.pairwise_cons]
      refine ⟨?_, ih h.2⟩
      intro t ht
      obtain ⟨s', hs', h'⟩ := mem_reconstructTags rest t ht
      have hc := h.1 s' hs'
      simpa [rawTagsClash, htag, h'] using hc

/-- C3, as the claim states it, fails: `Reconstruct` succeeds on a raw tag list
that holds the same text twice and returns a tag list with two equal Tags, and
it succeeds on 21 distinct raw tags and returns a tag list of 21 entries. -/
theorem Reconstruct_breaks_tag_invariant :
    (∃ n, Reconstruct (sampleData ["a".toList, "a".toList]) = .ok n ∧ ¬ TagsUnique n.tags) ∧
    (∃ n, Reconstruct (sampleData ((sampleTags 21).map Tag.String)) = .ok n ∧
      ¬ n.tags.length ≤ 20) :=
  ⟨⟨{ sampleNippou with tags := [⟨"a".toList⟩, ⟨"a".toList⟩] }, by decide, by decide⟩,
    ⟨{ sampleNippou with tags := sampleTags 21 }, by decide, by decide⟩⟩

/-- C3, amended: when `Reconstruct` succeeds on raw fields whose tag list has at
most 20 entries, no two of them accepted by `NewTag` with equal tags, the
entity's tag list has at most 20 entries and holds no two equal Tags. -/
theorem Reconstruct_tag_invariant (data : ReconstructedNippou) (n : Nippou)
    (h : Reconstruct data = .ok n) (hlen : data.Tags.length ≤ 20)
    (hdist : RawTagsDistinct data.Tags) :
    n.tags.length ≤ 20 ∧ TagsUnique n.tags := by
  rw [Reconstruct_tags data n h]
  exact ⟨le_trans (reconstructTags_length_le _) hlen, reconstructTags_unique _ hdist⟩

/-- C3, amended, at the raw tags `Sales`, `a b` (skipped) and `memo`. -/
theorem Reconstruct_tag_invariant_witness :
    Reconstruct (sampleData ["Sales".toList, "a b".toList, "memo".toList]) =
      .ok { sampleNippou with tags := [⟨"sales".toList⟩, ⟨"memo".toList⟩] } ∧
    (sampleData ["Sales".toList, "a b".toList, "memo".toList]).Tags.length ≤ 20 ∧
    RawTagsDistinct (sampleData ["Sales".toList, "a b".toList, "memo".toList]).Tags ∧
    ({ sampleNippou with tags := [⟨"sales".toList⟩, ⟨"memo".toList⟩] } : Nippou).tags.length ≤ 20 ∧
    TagsUnique ({ sampleNippou with tags := [⟨"sales".toList⟩, ⟨"memo".toList⟩] } : Nippou).tags :=
  ⟨by decide, by decide, by decide,
    Reconstruct_tag_invariant (sampleData ["Sales".toList, "a b".toList, "memo".toList])
      { sampleNippou with tags := [⟨"sales".toList⟩, ⟨"memo".toList⟩] }
      (by decide) (by decide) (by decide)⟩


/-- What a mutator call leaves in place: `createdAt` stays, `updatedAt` stays or
becomes the clock reading, the content stays or becomes a sanitized text that is
not empty and within the limit. -/
theorem call_frame (m : Mutation) (n : Nippou) (now : Time) :
    ∃ n', (m.call (some n) now).1 = some n' ∧ n'.createdAt = n.createdAt ∧
      (n'.updatedAt = n.updatedAt ∨ n'.updatedAt = now) ∧
      (n'.content = n.content ∨
        (n'.content ≠ [] ∧ RuneCountInString n'.content ≤ MaxContentLength)) := by
  cases m with
  | UpdateContent content =>
    simp only [Mutation.call, Nippou.UpdateContent]
    by_cases h1 : sanitizeString content = []
    · simp only [h1, if_true]; exact ⟨n, rfl, rfl, Or.inl rfl, Or.inl rfl⟩
    · by_cases h2 : RuneCountInString (sanitizeString content) > MaxContentLength
      · simp only [h1, h2, if_true, if_false]; exact ⟨n, rfl, rfl, Or.inl rfl, Or.inl rfl⟩
      · simp only [h1, h2, if_false]
        exact ⟨_, rfl, rfl, Or.inr rfl, Or.inr ⟨h1, Nat.le_of_not_gt h2⟩⟩
  | AttachLocation lat lng address =>
    simp only [Mutation.call, Nippou.AttachLocation]
    split
    · exact ⟨n, rfl, rfl, Or.inl rfl, Or.inl rfl⟩
    · exact ⟨_, rfl, rfl, Or.inr rfl, Or.inl rfl⟩
  | SetVoiceConfig enabled modelName =>
    simp only [Mutation.call, Nippou.SetVoiceConfig]
    split
    · exact ⟨n, rfl, rfl, Or.inl rfl, Or.inl rfl⟩
    · exact ⟨_, rfl, rfl, Or.inr rfl, Or.inl rfl⟩
  | AddValidatedTag tag =>
    simp only [Mutation.call, Nippou.AddValidatedTag]
    split
    · exact ⟨n, rfl, rfl, Or.inl rfl, Or.inl rfl⟩
    · split
      · exact ⟨n, rfl, rfl, Or.inl rfl, Or.inl rfl⟩
      · exact ⟨_, rfl, rfl, Or.inr rfl, Or.inl rfl⟩
  | AddTag tagStr =>
    simp only [Mutation.call, Nippou.AddTag, Nippou.AddValidatedTag]
    split
    · exact ⟨n, rfl, rfl, Or.inl rfl, Or.inl rfl⟩
    · split
      · exact ⟨n, rfl, rfl, Or.inl rfl, Or.inl rfl⟩
      · split
        · exact ⟨n, rfl, rfl, Or.inl rfl, Or.inl rfl⟩
        · exact ⟨_, rfl, rfl, Or.inr rfl, Or.inl rfl⟩
  | RemoveTag tagStr =>
    simp only [Mutation.call, Nippou.RemoveTag]
    split
    · exact ⟨n, rfl, rfl, Or.inl rfl, Or.inl rfl⟩
    · split
      · exact ⟨_, rfl, rfl, Or.inr rfl, Or.inl rfl⟩
      · exact ⟨n, rfl, rfl, Or.inl rfl, Or.inl rfl⟩
  | SetLocation loc => exact ⟨_, rfl, rfl, Or.inr rfl, Or.inl rfl⟩
  | RemoveLocation => exact ⟨_, rfl, rfl, Or.inr rfl, Or.inl rfl⟩
  | SetVoice voice => exact ⟨_, rfl, rfl, Or.inr rfl, Or.inl rfl⟩
  | RemoveVoice => exact ⟨_, rfl, rfl, Or.inr rfl, Or.inl rfl⟩

/-- A successful mutator call stamps `updatedAt` with the clock reading, unless it
is a `RemoveTag` whose tag the report does not hold. -/
theorem call_success_stamps (m : Mutation) (n : Nippou) (now : Time)
    (herr : (m.call (some n) now).2 = none)
    (hpresent : ∀ tagStr, m = Mutation.RemoveTag tagStr → Nippou.HasTag (some n) tagStr = true) :
    Nippou.UpdatedAt (m.call (some n) now).1 = now := by
  cases m with
  | RemoveTag tagStr =>
    have hp := hpresent tagStr rfl
    revert herr hp
    simp only [Mutation.call, Nippou.RemoveTag, Nippou.HasTag]
    split
    · simp
    · next tag htag =>
      intro _ hp
      split
      · rfl
      · next hnone =>
        rw [List.findIdx?_eq_none_iff] at hnone
        rw [List.any_eq_true] at hp
        obtain ⟨t, ht, heq⟩ := hp
        rw [hnone t ht] at heq
        cases heq
  | UpdateContent content =>
    revert herr
    simp only [Mutation.call, Nippou.UpdateContent]
    (repeat' split) <;> simp [Nippou.UpdatedAt]
  | AttachLocation lat lng address =>
    revert herr
    simp only [Mutation.call, Nippou.AttachLocation]
    (repeat' split) <;> simp [Nippou.UpdatedAt]
  | SetVoiceConfig enabled modelName =>
    revert herr
    simp only [Mutation.call, Nippou.SetVoiceConfig]
    (repeat' split) <;> simp [Nippou.UpdatedAt]
  | AddValidatedTag tag =>
    revert herr
    simp only [Mutation.call, Nippou.AddValidatedTag]
    (repeat' split) <;> simp [Nippou.UpdatedAt]
  | AddTag tagStr =>
    revert herr
    simp only [Mutation.call, Nippou.AddTag, Nippou.AddValidatedTag]
    (repeat' split) <;> simp [Nippou.UpdatedAt]
  | SetLocation loc => rfl
  | RemoveLocation => rfl
  | SetVoice voice => rfl
  | RemoveVoice => rfl

/-- `Build` stamps both timestamps with the builder's clock and stores a content
that is not empty and within the limit. -/
theorem Build_ok (b : NippouBuilder) (n : Nippou) (h : b.Build = .ok n) :
    n.createdAt = b.timeFunc () ∧ n.updatedAt = b.timeFunc () ∧
      n.content ≠ [] ∧ RuneCountInString n.content ≤ MaxContentLength := by
  unfold NippouBuilder.Build at h
  by_cases h1 : sanitizeString b.content = []
  · simp [h1] at h
  · by_cases h2 : RuneCountInString (sanitizeString b.content) > MaxContentLength
    · simp [h1, h2] at h
    · simp only [h1, h2, if_false] at h
      split at h
      · cases h
      · split at h
        · cases h
        · cases h
          exact ⟨rfl, rfl, h1, Nat.le_of_not_gt h2⟩

/-- The content stays non-empty and within the limit over a sequence of calls. -/
theorem runCalls_content (calls : List (Mutation × Time)) (n : Nippou)
    (h : n.content ≠ [] ∧ RuneCountInString n.content ≤ MaxContentLength) :
    ∃ n', runCalls (some n) calls = some n' ∧
      n'.content ≠ [] ∧ RuneCountInString n'.content ≤ MaxContentLength := by
  induction calls generalizing n with
  | nil => exact ⟨n, rfl, h⟩
  | cons c rest ih =>
    obtain ⟨m, now⟩ := c
    obtain ⟨n1, h1, -, -, hc⟩ := call_frame m n now
    simp only [runCalls, h1]
    apply ih
    rcases hc with hc | hc
    · rw [hc]; exact h
    · exact hc

/-- Over a sequence of calls whose clock readings are not before `createdAt`,
`createdAt` stays and `updatedAt` is not before it. -/
theorem runCalls_timestamps (calls : List (Mutation × Time)) (n : Nippou)
    (h : n.createdAt ≤ n.updatedAt) (hr : ∀ c ∈ calls, n.createdAt ≤ c.2) :
    ∃ n', runCalls (some n) calls = some n' ∧ n'.createdAt = n.createdAt ∧
      n'.createdAt ≤ n'.updatedAt := by
  induction calls generalizing n with
  | nil => exact ⟨n, rfl, rfl, h⟩
  | cons c rest ih =>
    obtain ⟨m, now⟩ := c
    obtain ⟨n1, h1, hcr, hu, -⟩ := call_frame m n now
    simp only [runCalls, h1]
    have hnow : n.createdAt ≤ now := hr (m, now) (List.mem_cons_self _ _)
    have h1' : n1.createdAt ≤ n1.updatedAt := by
      rcases hu with hu | hu
      · rw [hcr, hu]; exact h
      · rw [hcr, hu]; exact hnow
    obtain ⟨n', hn', hc', hle'⟩ := ih n1 h1' (fun c hc => by
      rw [hcr]; exact hr c (List.mem_cons_of_mem _ hc))
    exact ⟨n', hn', by rw [hc', hcr], hle'⟩


/-- C4: after `Build` and any finite sequence of mutator calls, each succeeding
or failing, `Content()` is not empty and has at most 65536 code points. -/
theorem content_invariant (b : NippouBuilder) (n : Nippou) (calls : List (Mutation × Time))
    (h : b.Build = .ok n) :
    Nippou.Content (runCalls (some n) calls) ≠ [] ∧
      RuneCountInString (Nippou.Content (runCalls (some n) calls)) ≤ 65536 := by
  obtain ⟨-, -, hc⟩ := Build_ok b n h
  obtain ⟨n', hn', hne, hlen⟩ := runCalls_content calls n hc
  rw [hn']
  exact ⟨hne, hlen⟩

/-- C4 at the sample builder, followed by a failing and a successful
`UpdateContent`. -/
theorem content_invariant_witness :
    sampleBuilder.Build = .ok { sampleNippou with createdAt := 100, updatedAt := 100 } ∧
    Nippou.Content (runCalls (some { sampleNippou with createdAt := 100, updatedAt := 100 })
      [(Mutation.UpdateContent " \x00 ".toList, 101),
       (Mutation.UpdateContent "new".toList, 102)]) ≠ [] ∧
    RuneCountInString (Nippou.Content
      (runCalls (some { sampleNippou with createdAt := 100, updatedAt := 100 })
      [(Mutation.UpdateContent " \x00 ".toList, 101),
       (Mutation.UpdateContent "new".toList, 102)])) ≤ 65536 :=
  ⟨by decide,
    content_invariant sampleBuilder { sampleNippou with createdAt := 100, updatedAt := 100 }
      [(Mutation.UpdateContent " \x00 ".toList, 101), (Mutation.UpdateContent "new".toList, 102)]
      (by decide)⟩

/-- C5: a mutator call on a non-nil report that returns an error leaves every
field of the report as it was before the call. -/
theorem failed_mutation_changes_nothing (n : Nippou) (m : Mutation) (now : Time)
    (herr : (m.call (some n) now).2 ≠ none) : (m.call (some n) now).1 = some n := by
  revert herr
  cases m <;>
    simp only [Mutation.call, Nippou.UpdateContent, Nippou.AttachLocation, Nippou.SetLocation,
      Nippou.RemoveLocation, Nippou.SetVoiceConfig, Nippou.SetVoice, Nippou.RemoveVoice,
      Nippou.AddTag, Nippou.AddValidatedTag, Nippou.RemoveTag] <;>
    (repeat' split) <;> simp

/-- C5 at `UpdateContent("")` on the sample report. -/
theorem failed_mutation_changes_nothing_witness :
    ((Mutation.UpdateContent []).call (some sampleNippou) 9).2 ≠ none ∧
    ((Mutation.UpdateContent []).call (some sampleNippou) 9).1 = some sampleNippou :=
  ⟨by decide, failed_mutation_changes_nothing sampleNippou (Mutation.UpdateContent []) 9
    (by decide)⟩

/-- C6, as the claim states it, fails: `RemoveTag` with the well-formed text
`memo` on a report without that tag returns no error and leaves `UpdatedAt()` at
its prior value 5, although the clock reads 9. -/
theorem RemoveTag_absent_keeps_updatedAt :
    NewTag "memo".toList = .ok ⟨"memo".toList⟩ ∧
    ((Mutation.RemoveTag "memo".toList).call (some sampleNippou) 9).2 = none ∧
    Nippou.UpdatedAt (some sampleNippou) = 5 ∧
    Nippou.UpdatedAt ((Mutation.RemoveTag "memo".toList).call (some sampleNippou) 9).1 = 5 ∧
    Nippou.UpdatedAt ((Mutation.RemoveTag "memo".toList).call (some sampleNippou) 9).1 ≠ 9 := by
  decide

/-- C6, amended: a mutator call on a non-nil report that returns no error, other
than a `RemoveTag` whose tag the report does not hold, leaves `UpdatedAt()` equal
to the clock reading of the call, hence strictly after the prior `UpdatedAt()`
whenever that reading is strictly after it. -/
theorem successful_mutation_stamps_clock (n : Nippou) (m : Mutation) (now : Time)
    (herr : (m.call (some n) now).2 = none)
    (hpresent : ∀ tagStr, m = Mutation.RemoveTag tagStr → Nippou.HasTag (some n) tagStr = true) :
    Nippou.UpdatedAt (m.call (some n) now).1 = now ∧
      (Nippou.UpdatedAt (some n) < now →
        Nippou.UpdatedAt (some n) < Nippou.UpdatedAt (m.call (some n) now).1) := by
  have h := call_success_stamps m n now herr hpresent
  exact ⟨h, fun hlt => by rw [h]; exact hlt⟩

/-- C6, amended, at `RemoveTag("T1")` on a report that holds the tags `t0`, `t1`. -/
theorem successful_mutation_stamps_clock_witness :
    ((Mutation.RemoveTag "T1".toList).call (some { sampleNippou with tags := sampleTags 2 }) 9).2
      = none ∧
    (∀ tagStr, Mutation.RemoveTag "T1".toList = Mutation.RemoveTag tagStr →
      Nippou.HasTag (some { sampleNippou with tags := sampleTags 2 }) tagStr = true) ∧
    Nippou.UpdatedAt
      ((Mutation.RemoveTag "T1".toList).call (some { sampleNippou with tags := sampleTags 2 }) 9).1
      = 9 ∧
    (Nippou.UpdatedAt (some { sampleNippou with tags := sampleTags 2 }) < 9 →
      Nippou.UpdatedAt (some { sampleNippou with tags := sampleTags 2 }) < Nippou.UpdatedAt
        ((Mutation.RemoveTag "T1".toList).call
          (some { sampleNippou with tags := sampleTags 2 }) 9).1) :=
  ⟨by decide, fun tagStr h => by cases h; decide,
    successful_mutation_stamps_clock { sampleNippou with tags := sampleTags 2 }
      (Mutation.RemoveTag "T1".toList) 9 (by decide) (fun tagStr h => by cases h; decide)⟩

/-- C7, as the claim states it, fails: a report built with the clock `f` fixed at
instant 100 is stamped 100 by `Build`, and a successful `UpdateContent` at
process clock reading 7 sets `UpdatedAt()` to 7, not to the instant `f` returns. -/
theorem mutator_ignores_injected_clock :
    ∃ n, (sampleBuilder.WithTimeFunc (fun _ => 100)).Build = .ok n ∧
      Nippou.CreatedAt (some n) = 100 ∧
      (Nippou.UpdateContent (some n) "new".toList 7).2 = none ∧
      Nippou.UpdatedAt (Nippou.UpdateContent (some n) "new".toList 7).1 = 7 ∧
      Nippou.UpdatedAt (Nippou.UpdateContent (some n) "new".toList 7).1 ≠
        (fun _ => 100 : TimeFunc) () :=
  ⟨{ sampleNippou with createdAt := 100, updatedAt := 100 },
    by decide, by decide, by decide, by decide, by decide⟩

/-- C7, amended: `Build` of a builder configured with `WithTimeFunc(f)` stamps
`createdAt` and `updatedAt` with the instant `f` returns; every successful mutator
call on the built report, other than a `RemoveTag` whose tag the report does not
hold, sets `updatedAt` to the reading of the process clock `time.Now()`, whatever
`f` is. -/
theorem mutators_stamp_process_clock (b : NippouBuilder) (f : TimeFunc) (n : Nippou)
    (m : Mutation) (now : Time) (hb : (b.WithTimeFunc f).Build = .ok n)
    (herr : (m.call (some n) now).2 = none)
    (hpresent : ∀ tagStr, m = Mutation.RemoveTag tagStr → Nippou.HasTag (some n) tagStr = true) :
    Nippou.CreatedAt (some n) = f () ∧ Nippou.UpdatedAt (some n) = f () ∧
      Nippou.UpdatedAt (m.call (some n) now).1 = now := by
  obtain ⟨hc, hu, -⟩ := Build_ok _ n hb
  exact ⟨hc, hu, call_success_stamps m n now herr hpresent⟩

/-- C7, amended, at the sample builder with a clock fixed at 100 and a call of
`SetVoiceConfig(false, "")` at process clock reading 7. -/
theorem mutators_stamp_process_clock_witness :
    (sampleBuilder.WithTimeFunc (fun _ => 100)).Build =
      .ok { sampleNippou with createdAt := 100, updatedAt := 100 } ∧
    ((Mutation.SetVoiceConfig false []).call
      (some { sampleNippou with createdAt := 100, updatedAt := 100 }) 7).2 = none ∧
    Nippou.CreatedAt (some { sampleNippou with createdAt := 100, updatedAt := 100 }) =
      (fun _ => 100 : TimeFunc) () ∧
    Nippou.UpdatedAt (some { sampleNippou with createdAt := 100, updatedAt := 100 }) =
      (fun _ => 100 : TimeFunc) () ∧
    Nippou.UpdatedAt ((Mutation.SetVoiceConfig false []).call
      (some { sampleNippou with createdAt := 100, updatedAt := 100 }) 7).1 = 7 :=
  ⟨by decide, by decide,
    mutators_stamp_process_clock sampleBuilder (fun _ => 100)
      { sampleNippou with createdAt := 100, updatedAt := 100 } (Mutation.SetVoiceConfig false []) 7
      (by decide) (by decide) (fun tagStr h => by cases h)⟩

/-- C8: after `Build` and any finite sequence of mutator calls the report is
still there and its `UpdatedAt()` is not before its `CreatedAt()`, provided no
clock reading (the builder's clock at `Build`, then the process clock at each
call) is earlier than the one before. -/
theorem updatedAt_not_before_createdAt (b : NippouBuilder) (n : Nippou)
    (calls : List (Mutation × Time)) (hb : b.Build = .ok n)
    (hmono : List.Chain (fun r s : Time => r ≤ s) (b.timeFunc ()) (calls.map Prod.snd)) :
    ∃ n', runCalls (some n) calls = some n' ∧
      Nippou.CreatedAt (some n') ≤ Nippou.UpdatedAt (some n') := by
  obtain ⟨hc, hu, -⟩ := Build_ok b n hb
  have hpw := (List.chain_iff_pairwise.mp hmono)
  rw [List.pairwise_cons] at hpw
  obtain ⟨n', hn', -, hle⟩ := runCalls_timestamps calls n (by rw [hc, hu]) (fun c hcm => by
    rw [hc]; exact hpw.1 c.2 (List.mem_map_of_mem _ hcm))
  exact ⟨n', hn', hle⟩

/-- C8 at the sample builder, clock fixed at 100, and calls at readings 100 and
103. -/
theorem updatedAt_not_before_createdAt_witness :
    sampleBuilder.Build = .ok { sampleNippou with createdAt := 100, updatedAt := 100 } ∧
    List.Chain (fun r s : Time => r ≤ s) (sampleBuilder.timeFunc ())
      ([(Mutation.AddTag "memo".toList, (100 : Time)), (Mutation.RemoveLocation, 103)].map
        Prod.snd) ∧
    ∃ n', runCalls (some { sampleNippou with createdAt := 100, updatedAt := 100 })
        [(Mutation.AddTag "memo".toList, 100), (Mutation.RemoveLocation, 103)] = some n' ∧
      Nippou.CreatedAt (some n') ≤ Nippou.UpdatedAt (some n') :=
  ⟨by decide, by simp [sampleBuilder],
    updatedAt_not_before_createdAt sampleBuilder
      { sampleNippou with createdAt := 100, updatedAt := 100 }
      [(Mutation.AddTag "memo".toList, 100), (Mutation.RemoveLocation, 103)]
      (by decide) (by simp [sampleBuilder])⟩


/-- `strings.ToLower` keeps the number of code points. -/
theorem ToLower_length (s : GoString) : (ToLower s).length = s.length := by
  simp [ToLower]

/-- Two texts with the same lower-cased trimmed form get the same answer from
`NewTag` when the first is accepted. -/
theorem NewTag_congr (x y : GoString) (t : Tag)
    (hxy : ToLower (TrimSpace y) = ToLower (TrimSpace x)) (hx : NewTag x = .ok t) :
    NewTag y = .ok t := by
  have hlen : (TrimSpace y).length = (TrimSpace x).length := by
    rw [← ToLower_length (TrimSpace y), hxy, ToLower_length]
  unfold NewTag at hx ⊢
  simp only [RuneCountInString] at hx ⊢
  by_cases h1 : TrimSpace x = []
  · simp [h1] at hx
  · have h1' : TrimSpace y ≠ [] := by
      intro h
      apply h1
      apply List.eq_nil_of_length_eq_zero
      rw [← hlen, h]
      rfl
    by_cases h2 : (TrimSpace x).length > MaxTagLength
    · simp [h1, h2] at hx
    · have h2' : ¬ (TrimSpace y).length > MaxTagLength := by rw [hlen]; exact h2
      simp only [h1, h2, if_false] at hx
      simp only [h1', h2', if_false, hxy]
      exact hx

/-- What a successful `AddTag` tells: the text is accepted and the tag list grows
by the accepted tag, from fewer than 20 entries. -/
theorem AddTag_ok (n n1 : Nippou) (x : GoString) (now : Time)
    (h : Nippou.AddTag (some n) x now = (some n1, none)) :
    ∃ t, NewTag x = .ok t ∧ n.tags.length < MaxTagCount ∧
      n.tags.any (fun u => u.Equals t) = false ∧ n1.tags = n.tags ++ [t] := by
  simp only [Nippou.AddTag] at h
  cases hx : NewTag x with
  | error err => simp [hx] at h
  | ok t =>
    simp only [hx, Nippou.AddValidatedTag] at h
    by_cases h1 : n.tags.length ≥ MaxTagCount
    · simp [h1] at h
    · by_cases h2 : n.tags.any (fun u => u.Equals t) = true
      · simp only [h1, h2, if_true, if_false] at h
        simp at h
      · simp only [h1, h2, if_false] at h
        refine ⟨t, rfl, Nat.lt_of_not_ge h1, by simpa using h2, ?_⟩
        simp only [Bool.false_eq_true, if_false, Prod.mk.injEq, Option.some.injEq,
          and_true] at h
        rw [← h]

/-- C9, as the claim states it, fails: on a report that holds 19 tags `AddTag`
of `sales` succeeds, and the following `AddTag` of `SALES` fails with
`ErrMaxTagsExceeded` (code `LIMIT_EXCEEDED`), not with `ErrDuplicateTag`. -/
theorem second_AddTag_at_limit_not_duplicate :
    ∃ n1, Nippou.AddTag (some { sampleNippou with tags := sampleTags 19 }) "sales".toList 9 =
        (some n1, none) ∧
      Nippou.AddTag (some n1) "SALES".toList 10 = (some n1, some ErrMaxTagsExceeded) ∧
      ErrMaxTagsExceeded ≠ ErrDuplicateTag ∧ ErrMaxTagsExceeded.Code ≠ "DUPLICATE_ERROR" :=
  ⟨{ sampleNippou with tags := sampleTags 19 ++ [⟨"sales".toList⟩], updatedAt := 9 },
    by decide, by decide, by decide, by decide⟩

/-- C9, amended: if `AddTag(x)` succeeds on a non-nil report, an immediately
following `AddTag(y)`, for `y` equal to `x` up to letter case and surrounding
white space, fails and leaves the report, its tag list included, unchanged; the
error is `ErrDuplicateTag` (code `DUPLICATE_ERROR`) when the report then holds
fewer than 20 tags and `ErrMaxTagsExceeded` when it holds 20. -/
theorem second_AddTag_rejected (n n1 : Nippou) (x y : GoString) (now1 now2 : Time)
    (h1 : Nippou.AddTag (some n) x now1 = (some n1, none))
    (hxy : ToLower (TrimSpace y) = ToLower (TrimSpace x)) :
    Nippou.AddTag (some n1) y now2 =
        (some n1, some (if n1.tags.length < 20 then ErrDuplicateTag else ErrMaxTagsExceeded)) ∧
      ErrDuplicateTag.Code = "DUPLICATE_ERROR" ∧ n1.tags.length ≤ 20 := by
  obtain ⟨t, ht, hlt, -, htags⟩ := AddTag_ok n n1 x now1 h1
  have hy := NewTag_congr x y t hxy ht
  have hany : n1.tags.any (fun u => u.Equals t) = true := by
    rw [htags]
    simp [Tag.Equals]
  have hle : n1.tags.length ≤ 20 := by
    rw [htags]
    simp only [List.length_append, List.length_singleton]
    exact hlt
  refine ⟨?_, by decide, hle⟩
  simp only [Nippou.AddTag, hy, Nippou.AddValidatedTag]
  by_cases h20 : n1.tags.length < 20
  · have : ¬ n1.tags.length ≥ MaxTagCount := by simpa [MaxTagCount] using h20
    simp only [this, hany, h20, if_true, if_false]
  · have : n1.tags.length ≥ MaxTagCount := by simpa [MaxTagCount] using h20
    simp only [this, h20, if_true, if_false]

/-- C9, amended, at `AddTag("sales")` then `AddTag(" Sales ")` on the sample
report. -/
theorem second_AddTag_rejected_witness :
    Nippou.AddTag (some sampleNippou) "sales".toList 9 =
      (some { sampleNippou with tags := [⟨"sales".toList⟩], updatedAt := 9 }, none) ∧
    ToLower (TrimSpace " Sales ".toList) = ToLower (TrimSpace "sales".toList) ∧
    Nippou.AddTag (some { sampleNippou with tags := [⟨"sales".toList⟩], updatedAt := 9 })
        " Sales ".toList 10 =
      (some { sampleNippou with tags := [⟨"sales".toList⟩], updatedAt := 9 },
        some (if ({ sampleNippou with tags := [⟨"sales".toList⟩], updatedAt := 9 } :
          Nippou).tags.length < 20 then ErrDuplicateTag else ErrMaxTagsExceeded)) ∧
    ErrDuplicateTag.Code = "DUPLICATE_ERROR" ∧
    ({ sampleNippou with tags := [⟨"sales".toList⟩], updatedAt := 9 } : Nippou).tags.length ≤ 20 :=
  ⟨by decide, by decide,
    second_AddTag_rejected sampleNippou
      { sampleNippou with tags := [⟨"sales".toList⟩], updatedAt := 9 }
      "sales".toList " Sales ".toList 9 10 (by decide) (by decide)⟩

/-- C10: on a non-nil report that holds 20 tags, `AddTag` of any text that
`NewTag` accepts fails with `ErrMaxTagsExceeded` (code `LIMIT_EXCEEDED`, field
`tags`) and leaves the report unchanged, so the tag list stays at 20 entries;
this is so whether or not the text equals one of the tags. -/
theorem AddTag_at_limit (n : Nippou) (text : GoString) (tag : Tag) (now : Time)
    (h20 : n.tags.length = 20) (hacc : NewTag text = .ok tag) :
    Nippou.AddTag (some n) text now = (some n, some ErrMaxTagsExceeded) ∧
      ErrMaxTagsExceeded.Code = "LIMIT_EXCEEDED" ∧ ErrMaxTagsExceeded.Field = "tags" ∧
      Nippou.TagCount (Nippou.AddTag (some n) text now).1 = 20 := by
  have h : Nippou.AddTag (some n) text now = (some n, some ErrMaxTagsExceeded) := by
    simp only [Nippou.AddTag, hacc, Nippou.AddValidatedTag]
    have : n.tags.length ≥ MaxTagCount := by rw [h20]; decide
    simp only [this, if_true]
  refine ⟨h, by decide, by decide, ?_⟩
  rw [h]
  exact h20

/-- C10 at a report with the 20 tags `t0` ... `t19` and the text `T3`, equal to
one of them up to case. -/
theorem AddTag_at_limit_witness :
    ({ sampleNippou with tags := sampleTags 20 } : Nippou).tags.length = 20 ∧
    NewTag "T3".toList = .ok ⟨"t3".toList⟩ ∧
    Nippou.AddTag (some { sampleNippou with tags := sampleTags 20 }) "T3".toList 9 =
      (some { sampleNippou with tags := sampleTags 20 }, some ErrMaxTagsExceeded) ∧
    ErrMaxTagsExceeded.Code = "LIMIT_EXCEEDED" ∧ ErrMaxTagsExceeded.Field = "tags" ∧
    Nippou.TagCount
      (Nippou.AddTag (some { sampleNippou with tags := sampleTags 20 }) "T3".toList 9).1 = 20 :=
  ⟨by decide, by decide,
    AddTag_at_limit { sampleNippou with tags := sampleTags 20 } "T3".toList ⟨"t3".toList⟩ 9
      (by decide) (by decide)⟩


/-! ## Lemmas on `NewTag`, `RemoveTag` and `HasTag` -/

/-- The tag `NewTag` returns holds the lower-cased trimmed text. -/
theorem NewTag_value (x : GoString) (t : Tag) (h : NewTag x = .ok t) :
    t.value = ToLower (TrimSpace x) := by
  simp only [NewTag] at h
  split at h
  · cases h
  · split at h
    · cases h
    · split at h
      · cases h
      · cases h; rfl

/-- The errors of `NewTag`. -/
theorem NewTag_error (x : GoString) (err : DomainError) (h : NewTag x = .error err) :
    err = ErrEmptyTag ∨ err = ErrTagTooLong ∨ err = ErrInvalidTagFormat := by
  simp only [NewTag] at h
  split at h
  · cases h; exact Or.inl rfl
  · split at h
    · cases h; exact Or.inr (Or.inl rfl)
    · split at h
      · cases h; exact Or.inr (Or.inr rfl)
      · cases h

/-- After the first tag equal to `tag` is cut out of a unique tag list, no entry
equals `tag`. -/
theorem cut_removes (tags : List Tag) (tag : Tag) (i : Nat) (hu : TagsUnique tags)
    (hi : tags.findIdx? (fun t => t.Equals tag) = some i) :
    (tags.take i ++ tags.drop (i + 1)).any (fun t => t.Equals tag) = false := by
  rw [← List.eraseIdx_eq_take_drop_succ, List.any_eq_false]
  intro u hmem
  rw [List.mem_eraseIdx_iff_getElem] at hmem
  obtain ⟨j, hj, hne, hju⟩ := hmem
  rw [List.findIdx?_eq_some_iff_getElem] at hi
  obtain ⟨hil, hpi, -⟩ := hi
  unfold TagsUnique at hu
  rw [List.pairwise_iff_getElem] at hu
  intro hcon
  have hval : tags[j].value = tags[i].value := by
    have h1 : tags[j].Equals tag = true := by rw [hju]; exact hcon
    simp only [Tag.Equals, beq_iff_eq] at h1 hpi
    rw [h1, hpi]
  rcases Nat.lt_or_gt_of_ne hne with hlt | hgt
  · have := hu j i hj hil hlt
    simp [Tag.Equals, hval] at this
  · have := hu i j hil hj hgt
    simp [Tag.Equals, hval] at this

/-- Cutting the first tag equal to `tag` out of a tag list does not change
whether the list holds a tag with another value. -/
theorem cut_keeps_other (tags : List Tag) (tag other : Tag) (i : Nat)
    (hi : tags.findIdx? (fun t => t.Equals tag) = some i) (hne : other.value ≠ tag.value) :
    (tags.take i ++ tags.drop (i + 1)).any (fun t => t.Equals other) =
      tags.any (fun t => t.Equals other) := by
  rw [← List.eraseIdx_eq_take_drop_succ]
  rw [List.findIdx?_eq_some_iff_getElem] at hi
  obtain ⟨hil, hpi, -⟩ := hi
  rw [Bool.eq_iff_iff, List.any_eq_true, List.any_eq_true]
  constructor
  · rintro ⟨u, hmem, hu⟩
    exact ⟨u, (List.eraseIdx_sublist tags i).subset hmem, hu⟩
  · rintro ⟨u, hmem, hu⟩
    refine ⟨u, ?_, hu⟩
    rw [List.mem_iff_getElem] at hmem
    obtain ⟨j, hj, hju⟩ := hmem
    rw [List.mem_eraseIdx_iff_getElem]
    refine ⟨j, hj, ?_, hju⟩
    intro hji
    subst hji
    apply hne
    rw [← hju] at hu
    simp only [Tag.Equals, beq_iff_eq] at hu hpi
    rw [← hu, hpi]

/-- `RemoveTag` with a text that `NewTag` accepts. -/
theorem RemoveTag_accepted (n : Nippou) (x : GoString) (t : Tag) (now : Time)
    (hx : NewTag x = .ok t) :
    Nippou.RemoveTag (some n) x now =
      match n.tags.findIdx? (fun u => u.Equals t) with
      | some i =>
        (some { n with tags := n.tags.take i ++ n.tags.drop (i + 1), updatedAt := now }, none)
      | none => (some n, none) := by
  simp only [Nippou.RemoveTag, hx]

/-- C11: on a non-nil report, whatever its tags, `AddTag` and `RemoveTag` with a
text that `NewTag` rejects each return the error of `NewTag` (`ErrEmptyTag`,
`ErrTagTooLong` or `ErrInvalidTagFormat`) and leave the report as it was: the
format check comes before the count limit and the duplicate check. -/
theorem malformed_tag_error_first (n : Nippou) (text : GoString) (err : DomainError)
    (now : Time) (hrej : NewTag text = .error err) :
    Nippou.AddTag (some n) text now = (some n, some err) ∧
      Nippou.RemoveTag (some n) text now = (some n, some err) ∧
      (err = ErrEmptyTag ∨ err = ErrTagTooLong ∨ err = ErrInvalidTagFormat) := by
  refine ⟨?_, ?_, NewTag_error text err hrej⟩
  · simp only [Nippou.AddTag, hrej]
  · simp only [Nippou.RemoveTag, hrej]

/-- C11 at a report that holds 20 tags and the text `a b`. -/
theorem malformed_tag_error_first_witness :
    NewTag "a b".toList = .error ErrInvalidTagFormat ∧
    Nippou.AddTag (some { sampleNippou with tags := sampleTags 20 }) "a b".toList 9 =
      (some { sampleNippou with tags := sampleTags 20 }, some ErrInvalidTagFormat) ∧
    Nippou.RemoveTag (some { sampleNippou with tags := sampleTags 20 }) "a b".toList 9 =
      (some { sampleNippou with tags := sampleTags 20 }, some ErrInvalidTagFormat) ∧
    (ErrInvalidTagFormat = ErrEmptyTag ∨ ErrInvalidTagFormat = ErrTagTooLong ∨
      ErrInvalidTagFormat = ErrInvalidTagFormat) :=
  ⟨by decide,
    malformed_tag_error_first { sampleNippou with tags := sampleTags 20 } "a b".toList
      ErrInvalidTagFormat 9 (by decide)⟩

/-- C12: on a non-nil report with fewer than 20 tags, `AddTag` of a text that
`NewTag` accepts with a tag equal to none of the report's tags succeeds; the tag
list afterwards is the previous list followed by that tag, the lower-cased
trimmed text, so `TagStrings()` is the previous `TagStrings()` followed by it. -/
theorem AddTag_appends (n : Nippou) (x : GoString) (t : Tag) (now : Time)
    (hlt : n.tags.length < 20) (hx : NewTag x = .ok t)
    (hnew : ∀ u ∈ n.tags, u.Equals t = false) :
    Nippou.AddTag (some n) x now =
        (some { n with tags := n.tags ++ [t], updatedAt := now }, none) ∧
      Nippou.TagStrings (Nippou.AddTag (some n) x now).1 =
        Nippou.TagStrings (some n) ++ [ToLower (TrimSpace x)] := by
  have h : Nippou.AddTag (some n) x now =
      (some { n with tags := n.tags ++ [t], updatedAt := now }, none) := by
    simp only [Nippou.AddTag, hx, Nippou.AddValidatedTag]
    have h1 : ¬ n.tags.length ≥ MaxTagCount := by simpa [MaxTagCount] using hlt
    have h2 : n.tags.any (fun u => u.Equals t) = false := by
      rw [List.any_eq_false]
      intro u hu
      simp [hnew u hu]
    simp only [h1, h2, if_false, Bool.false_eq_true]
  refine ⟨h, ?_⟩
  rw [h]
  simp only [Nippou.TagStrings, List.map_append, List.map_cons, List.map_nil, Tag.String,
    NewTag_value x t hx]

/-- C12 at a report with the tags `t0`, `t1` and the text ` Sales `. -/
theorem AddTag_appends_witness :
    ({ sampleNippou with tags := sampleTags 2 } : Nippou).tags.length < 20 ∧
    NewTag " Sales ".toList = .ok ⟨"sales".toList⟩ ∧
    (∀ u ∈ ({ sampleNippou with tags := sampleTags 2 } : Nippou).tags,
      u.Equals ⟨"sales".toList⟩ = false) ∧
    Nippou.AddTag (some { sampleNippou with tags := sampleTags 2 }) " Sales ".toList 9 =
      (some { sampleNippou with tags := sampleTags 2 ++ [⟨"sales".toList⟩], updatedAt := 9 },
        none) ∧
    Nippou.TagStrings
        (Nippou.AddTag (some { sampleNippou with tags := sampleTags 2 }) " Sales ".toList 9).1 =
      Nippou.TagStrings (some { sampleNippou with tags := sampleTags 2 }) ++
        [ToLower (TrimSpace " Sales ".toList)] :=
  ⟨by decide, by decide, by decide,
    AddTag_appends { sampleNippou with tags := sampleTags 2 } " Sales ".toList
      ⟨"sales".toList⟩ 9 (by decide) (by decide) (by decide)⟩

/-- C13: on a non-nil report, `RemoveTag` of a well-formed text whose tag equals
none of the report's tags returns no error and leaves every field of the report,
the tag list and `updatedAt` included, as it was. -/
theorem RemoveTag_absent_is_noop (n : Nippou) (x : GoString) (t : Tag) (now : Time)
    (hx : NewTag x = .ok t) (habs : ∀ u ∈ n.tags, u.Equals t = false) :
    Nippou.RemoveTag (some n) x now = (some n, none) := by
  rw [RemoveTag_accepted n x t now hx]
  have hnone : n.tags.findIdx? (fun u => u.Equals t) = none := by
    rw [List.findIdx?_eq_none_iff]
    exact habs
  rw [hnone]

/-- C13 at a report with the tags `t0`, `t1` and the text `memo`. -/
theorem RemoveTag_absent_is_noop_witness :
    NewTag "memo".toList = .ok ⟨"memo".toList⟩ ∧
    (∀ u ∈ ({ sampleNippou with tags := sampleTags 2 } : Nippou).tags,
      u.Equals ⟨"memo".toList⟩ = false) ∧
    Nippou.RemoveTag (some { sampleNippou with tags := sampleTags 2 }) "memo".toList 9 =
      (some { sampleNippou with tags := sampleTags 2 }, none) :=
  ⟨by decide, by decide,
    RemoveTag_absent_is_noop { sampleNippou with tags := sampleTags 2 } "memo".toList
      ⟨"memo".toList⟩ 9 (by decide) (by decide)⟩

/-- C14, as the claim states it, fails: `Reconstruct` of raw tags that hold `a`
twice gives a report on which `RemoveTag` of `a` returns no error and `HasTag` of
`a` is still true afterwards, as only the first of the two equal tags is cut out. -/
theorem RemoveTag_leaves_duplicate :
    ∃ n, Reconstruct (sampleData ["a".toList, "a".toList]) = .ok n ∧
      (Nippou.RemoveTag (some n) "a".toList 9).2 = none ∧
      Nippou.Tags (Nippou.RemoveTag (some n) "a".toList 9).1 = [⟨"a".toList⟩] ∧
      Nippou.HasTag (Nippou.RemoveTag (some n) "a".toList 9).1 "a".toList = true :=
  ⟨{ sampleNippou with tags := [⟨"a".toList⟩, ⟨"a".toList⟩] },
    by decide, by decide, by decide, by decide⟩

/-- C14, amended: after `RemoveTag(x)` returns no error on a non-nil report,
`HasTag(x)` is false provided the report's tag list held no two equal Tags, and
`HasTag(y)` is as before for every text `y` whose lower-cased trimmed form
differs from that of `x`. -/
theorem RemoveTag_then_HasTag (n : Nippou) (x : GoString) (now : Time)
    (herr : (Nippou.RemoveTag (some n) x now).2 = none) :
    (TagsUnique n.tags → Nippou.HasTag (Nippou.RemoveTag (some n) x now).1 x = false) ∧
      ∀ y, ToLower (TrimSpace y) ≠ ToLower (TrimSpace x) →
        Nippou.HasTag (Nippou.RemoveTag (some n) x now).1 y = Nippou.HasTag (some n) y := by
  cases hx : NewTag x with
  | error err => simp [Nippou.RemoveTag, hx] at herr
  | ok t =>
    rw [RemoveTag_accepted n x t now hx]
    cases hi : n.tags.findIdx? (fun u => u.Equals t) with
    | none =>
      refine ⟨fun _ => ?_, fun y _ => rfl⟩
      simp only [Nippou.HasTag, hx]
      rw [List.findIdx?_eq_none_iff] at hi
      rw [List.any_eq_false]
      intro u hu
      simp [hi u hu]
    | some i =>
      refine ⟨fun hu => ?_, fun y hy => ?_⟩
      · simp only [Nippou.HasTag, hx]
        exact cut_removes n.tags t i hu hi
      · simp only [Nippou.HasTag]
        cases hy' : NewTag y with
        | error err => rfl
        | ok ty =>
          simp only
          apply cut_keeps_other n.tags t ty i hi
          rw [NewTag_value y ty hy', NewTag_value x t hx]
          exact hy

/-- C14, amended, at a report with the tags `t0`, `t1`, `t2` and `RemoveTag("T1")`. -/
theorem RemoveTag_then_HasTag_witness :
    (Nippou.RemoveTag (some { sampleNippou with tags := sampleTags 3 }) "T1".toList 9).2 = none ∧
    TagsUnique ({ sampleNippou with tags := sampleTags 3 } : Nippou).tags ∧
    Nippou.HasTag (Nippou.RemoveTag (some { sampleNippou with tags := sampleTags 3 })
      "T1".toList 9).1 "T1".toList = false ∧
    Nippou.HasTag (Nippou.RemoveTag (some { sampleNippou with tags := sampleTags 3 })
      "T1".toList 9).1 "t2".toList =
      Nippou.HasTag (some { sampleNippou with tags := sampleTags 3 }) "t2".toList :=
  ⟨by decide, by decide,
    (RemoveTag_then_HasTag { sampleNippou with tags := sampleTags 3 } "T1".toList 9
      (by decide)).1 (by decide),
    (RemoveTag_then_HasTag { sampleNippou with tags := sampleTags 3 } "T1".toList 9
      (by decide)).2 "t2".toList (by decide)⟩

/-- C15: `HasTag(text)` is true exactly when the receiver is non-nil, `NewTag`
accepts the text and the value of its tag is the value of one of the report's
tags; a text that `NewTag` rejects gives false, and two texts with the same
lower-cased trimmed form give the same answer.  `HasTag` returns a boolean only:
the receiver is not written. -/
theorem HasTag_iff (n : Option Nippou) (text : GoString) :
    (Nippou.HasTag n text = true ↔
      ∃ e t, n = some e ∧ NewTag text = .ok t ∧ ∃ u ∈ e.tags, u.value = t.value) ∧
    (∀ err, NewTag text = .error err → Nippou.HasTag n text = false) ∧
    (∀ y, ToLower (TrimSpace y) = ToLower (TrimSpace text) →
      Nippou.HasTag n y = Nippou.HasTag n text) := by
  refine ⟨?_, ?_, ?_⟩
  · cases n with
    | none => simp [Nippou.HasTag]
    | some e =>
      cases hx : NewTag text with
      | error err => simp [Nippou.HasTag, hx]
      | ok t => simp [Nippou.HasTag, hx, Tag.Equals]
  · intro err herr
    cases n with
    | none => rfl
    | some e => simp [Nippou.HasTag, herr]
  · intro y hy
    cases n with
    | none => rfl
    | some e =>
      cases hx : NewTag text with
      | ok t => simp only [Nippou.HasTag, hx, NewTag_congr text y t hy hx]
      | error err =>
        cases hy' : NewTag y with
        | error err' => simp only [Nippou.HasTag, hx, hy']
        | ok ty =>
          have := NewTag_congr y text ty hy.symm hy'
          rw [hx] at this
          cases this

/-! ## `NewLocation` and `NewVoiceConfig` -/

/-- The comparisons of finite `float64` values are those of the rationals. -/
theorem Float64_finite_order (a b : ℚ) :
    ((Float64.finite a < Float64.finite b) ↔ a < b) ∧
    ((Float64.finite a ≤ Float64.finite b) ↔ a ≤ b) := by
  constructor
  · show (Float64.lt (.finite a) (.finite b) = true) ↔ a < b
    simp [Float64.lt]
  · show (Float64.le (.finite a) (.finite b) = true) ↔ a ≤ b
    simp [Float64.le]

/-- A `float64` that is at most another is not above it. -/
theorem Float64_not_lt_of_le (a b : Float64) (h : a ≤ b) : ¬ b < a := by
  intro hlt
  have h' : Float64.le a b = true := h
  have hlt' : Float64.lt b a = true := hlt
  cases a <;> cases b <;> simp [Float64.le, Float64.lt] at h' hlt'
  exact absurd h' (not_le.mpr hlt')

/-- Of two `float64` other than NaN, the one that is not above the other is at
most the other. -/
theorem Float64_le_of_not_lt (a b : Float64) (ha : a ≠ .nan) (hb : b ≠ .nan) (h : ¬ b < a) :
    a ≤ b := by
  have h' : ¬ Float64.lt b a = true := h
  show Float64.le a b = true
  cases a <;> cases b <;> simp [Float64.le, Float64.lt] at h' ⊢
  · exact absurd rfl ha
  · exact absurd rfl ha
  · exact absurd rfl ha
  · exact absurd rfl ha
  · exact absurd rfl hb
  · exact absurd rfl hb
  · exact absurd rfl hb
  · exact h'

/-- A `float64` other than NaN is `==` to itself, and is `!=` to zero exactly
when it is not zero. -/
theorem Float64_eq_self (a : Float64) (h : a ≠ .nan) :
    Float64.eq a a = true ∧ (Float64.ne a 0 = true ↔ a ≠ 0) := by
  cases a with
  | nan => exact absurd rfl h
  | negInf => exact ⟨by decide, by decide⟩
  | posInf => exact ⟨by decide, by decide⟩
  | finite q =>
    refine ⟨by simp [Float64.eq], ?_⟩
    show (!Float64.eq (.finite q) (.finite 0)) = true ↔ Float64.finite q ≠ .finite 0
    simp [Float64.eq]

/-- NaN is below nothing, above nothing, `==` to nothing and `!=` to everything. -/
theorem Float64_nan (a : Float64) :
    ¬ Float64.nan < a ∧ ¬ a < Float64.nan ∧ ¬ Float64.nan ≤ a ∧ ¬ a ≤ Float64.nan ∧
    Float64.eq .nan a = false ∧ Float64.ne .nan a = true := by
  refine ⟨?_, ?_, ?_, ?_, by cases a <;> rfl, by cases a <;> rfl⟩
  · show ¬ Float64.lt .nan a = true
    simp [Float64.lt]
  · show ¬ Float64.lt a .nan = true
    cases a <;> simp [Float64.lt]
  · show ¬ Float64.le .nan a = true
    simp [Float64.le]
  · show ¬ Float64.le a .nan = true
    cases a <;> simp [Float64.le]

/-- What `NewLocation` returns, by the first check that fails. -/
theorem NewLocation_cases (lat lng : Float64) (address : GoString) :
    NewLocation lat lng address =
      if lat < -90 ∨ 90 < lat then .error ErrInvalidLatitude
      else if lng < -180 ∨ 180 < lng then .error ErrInvalidLongitude
      else if 500 < RuneCountInString (sanitizeString address) then .error ErrAddressTooLong
      else .ok { latitude := lat, longitude := lng, address := sanitizeString address } := by
  simp only [NewLocation, MinLatitude, MaxLatitude, MinLongitude, MaxLongitude, MaxAddressLength,
    gt_iff_lt]

/-- A Location holds the coordinates `NewLocation` was given. -/
theorem NewLocation_coords (lat lng : Float64) (address : GoString) (loc : Location)
    (h : NewLocation lat lng address = .ok loc) : loc.latitude = lat ∧ loc.longitude = lng := by
  rw [NewLocation_cases] at h
  split at h
  · cases h
  · split at h
    · cases h
    · split at h
      · cases h
      · cases h
        exact ⟨rfl, rfl⟩

/-- The range guards of `NewLocation` at finite coordinates. -/
theorem NewLocation_guards (lat lng : ℚ) :
    ((Float64.finite lat < -90 ∨ 90 < Float64.finite lat) ↔ (lat < -90 ∨ 90 < lat)) ∧
    ((Float64.finite lng < -180 ∨ 180 < Float64.finite lng) ↔ (lng < -180 ∨ 180 < lng)) :=
  ⟨or_congr (Float64_finite_order lat (-90)).1 (Float64_finite_order 90 lat).1,
    or_congr (Float64_finite_order lng (-180)).1 (Float64_finite_order 180 lng).1⟩

/-- C16: with the coordinates taken as exact numbers, `NewLocation` succeeds
exactly when `-90 ≤ lat ≤ 90`, `-180 ≤ lng ≤ 180` and the sanitized address has at
most 500 code points; the Location then holds `lat`, `lng` and the sanitized
address. -/
theorem NewLocation_iff (lat lng : ℚ) (address : GoString) :
    ((∃ loc, NewLocation (.finite lat) (.finite lng) address = .ok loc) ↔
      (-90 ≤ lat ∧ lat ≤ 90 ∧ -180 ≤ lng ∧ lng ≤ 180 ∧
        RuneCountInString (sanitizeString address) ≤ 500)) ∧
    (∀ loc, NewLocation (.finite lat) (.finite lng) address = .ok loc →
      Location.Latitude (some loc) = .finite lat ∧
        Location.Longitude (some loc) = .finite lng ∧
        Location.Address (some loc) = sanitizeString address) := by
  rw [NewLocation_cases]
  obtain ⟨g1, g2⟩ := NewLocation_guards lat lng
  by_cases h1 : lat < -90 ∨ 90 < lat
  · rw [if_pos (g1.mpr h1)]
    refine ⟨⟨fun ⟨_, h⟩ => (by cases h), fun ⟨ha, hb, _⟩ => ?_⟩, fun _ h => by cases h⟩
    rcases h1 with h1 | h1
    · exact absurd ha (not_le.mpr h1)
    · exact absurd hb (not_le.mpr h1)
  · by_cases h2 : lng < -180 ∨ 180 < lng
    · rw [if_neg (fun h => h1 (g1.mp h)), if_pos (g2.mpr h2)]
      refine ⟨⟨fun ⟨_, h⟩ => (by cases h), fun ⟨_, _, ha, hb, _⟩ => ?_⟩, fun _ h => by cases h⟩
      rcases h2 with h2 | h2
      · exact absurd ha (not_le.mpr h2)
      · exact absurd hb (not_le.mpr h2)
    · by_cases h3 : 500 < RuneCountInString (sanitizeString address)
      · rw [if_neg (fun h => h1 (g1.mp h)), if_neg (fun h => h2 (g2.mp h)), if_pos h3]
        exact ⟨⟨fun ⟨_, h⟩ => (by cases h), fun ⟨_, _, _, _, ha⟩ => absurd ha (not_le.mpr h3)⟩,
          fun _ h => by cases h⟩
      · rw [if_neg (fun h => h1 (g1.mp h)), if_neg (fun h => h2 (g2.mp h)), if_neg h3]
        rw [not_or, not_lt, not_lt] at h1 h2
        refine ⟨⟨fun _ => ⟨h1.1, h1.2, h2.1, h2.2, not_lt.mp h3⟩, fun _ => ⟨_, rfl⟩⟩, ?_⟩
        intro loc h
        cases h
        exact ⟨rfl, rfl, rfl⟩

/-- C20: a VoiceConfig returned by `NewVoiceConfig` has a non-empty `ModelName()`
when `Enabled()` is true, and a `ModelName()` of at most 100 code points. -/
theorem NewVoiceConfig_invariant (enabled : Bool) (modelName : GoString) (v : VoiceConfig)
    (h : NewVoiceConfig enabled modelName = .ok v) :
    (VoiceConfig.Enabled (some v) = true → VoiceConfig.ModelName (some v) ≠ []) ∧
      RuneCountInString (VoiceConfig.ModelName (some v)) ≤ 100 := by
  simp only [NewVoiceConfig] at h
  split at h
  · cases h
  · next h1 =>
    split at h
    · cases h
    · next h2 =>
      cases h
      simp only [VoiceConfig.Enabled, VoiceConfig.ModelName]
      refine ⟨fun he => ?_, by simpa [MaxModelNameLength] using h2⟩
      intro hempty
      apply h1
      simp [he, hempty]

/-- C20 at `NewVoiceConfig(true, " gpt-4o ")`. -/
theorem NewVoiceConfig_invariant_witness :
    NewVoiceConfig true " gpt-4o ".toList = .ok ⟨true, "gpt-4o".toList⟩ ∧
    (VoiceConfig.Enabled (some ⟨true, "gpt-4o".toList⟩) = true →
      VoiceConfig.ModelName (some ⟨true, "gpt-4o".toList⟩) ≠ []) ∧
    RuneCountInString (VoiceConfig.ModelName (some ⟨true, "gpt-4o".toList⟩)) ≤ 100 :=
  ⟨by decide, NewVoiceConfig_invariant true " gpt-4o ".toList ⟨true, "gpt-4o".toList⟩ (by decide)⟩

/-! ## Lemmas on `sanitizeString` -/

/-- `ReplaceAll` of a one code point `old` rewrites each occurrence on its own. -/
theorem replaceScan_single (a : Char) (new s : GoString) :
    replaceScan [a] new 0 s = s.flatMap (fun c => if c = a then new else [c]) := by
  induction s with
  | nil => simp [replaceScan]
  | cons c cs ih =>
    by_cases h : c = a
    · subst h
      simp [replaceScan, List.isPrefixOf, ih]
    · have h' : ¬ a = c := fun e => h e.symm
      simp [replaceScan, List.isPrefixOf, ih, h, h']

/-- Replacing NUL by nothing is filtering NUL out. -/
theorem ReplaceAll_NUL (s : GoString) :
    ReplaceAll s ['\x00'] [] = s.filter (fun c => c != '\x00') := by
  simp only [ReplaceAll, List.cons_ne_nil, if_false, replaceScan_single]
  induction s with
  | nil => rfl
  | cons c cs ih =>
    by_cases h : c = '\x00'
    · simp [h, ih]
    · simp [h, ih]

/-- The two line-ending replacements of `sanitizeString`, CRLF to LF and then CR
to LF, do what the specification words say. -/
theorem lineEndings_refine (t : GoString) :
    replaceScan ['\r'] ['\n'] 0 (replaceScan ['\r', '\n'] ['\n'] 0 t) =
      normalizeLineEndings t := by
  induction t using normalizeLineEndings.induct with
  | case1 => simp [replaceScan, normalizeLineEndings]
  | case2 => simp [replaceScan, normalizeLineEndings, List.isPrefixOf]
  | case3 c hc =>
    have hc' : ¬ '\r' = c := fun e => hc e.symm
    simp [replaceScan, normalizeLineEndings, List.isPrefixOf, hc, hc']
  | case4 c d rest h ih =>
    obtain ⟨rfl, rfl⟩ := h
    simp [replaceScan, normalizeLineEndings, List.isPrefixOf, ih]
  | case5 d rest h ih =>
    have hd : ¬ d = '\n' := fun e => h ⟨rfl, e⟩
    have hd' : ¬ '\n' = d := fun e => hd e.symm
    rw [normalizeLineEndings, if_neg h, if_pos rfl, ← ih]
    simp [replaceScan, List.isPrefixOf, hd, hd']
  | case6 c d rest h hc ih =>
    have hc' : ¬ '\r' = c := fun e => hc e.symm
    rw [normalizeLineEndings, if_neg h, if_neg hc, ← ih]
    simp [replaceScan, List.isPrefixOf, hc, hc']

/-- Refinement of `sanitizeString`: trim, drop every NUL, normalise the line
endings. -/
theorem sanitizeString_eq (s : GoString) :
    sanitizeString s = normalizeLineEndings ((TrimSpace s).filter (fun c => c != '\x00')) := by
  simp only [sanitizeString]
  rw [ReplaceAll_NUL]
  simp only [ReplaceAll, List.cons_ne_nil, if_false]
  exact lineEndings_refine _

/-- No carriage return is left after the line endings are normalised. -/
theorem normalizeLineEndings_noCR (t : GoString) : '\r' ∉ normalizeLineEndings t := by
  induction t using normalizeLineEndings.induct with
  | case1 => simp [normalizeLineEndings]
  | case2 => simp [normalizeLineEndings]
  | case3 c hc =>
    have hc' : ¬ '\r' = c := fun e => hc e.symm
    simp [normalizeLineEndings, hc, hc']
  | case4 c d rest h ih =>
    rw [normalizeLineEndings, if_pos h]
    simp [ih]
  | case5 d rest h ih =>
    rw [normalizeLineEndings, if_neg h, if_pos rfl]
    simp [ih]
  | case6 c d rest h hc ih =>
    have hc' : ¬ '\r' = c := fun e => hc e.symm
    rw [normalizeLineEndings, if_neg h, if_neg hc]
    simp [ih, hc']

/-- Normalising the line endings brings in no code point but LF. -/
theorem mem_normalizeLineEndings (t : GoString) (x : Char)
    (hx : x ∈ normalizeLineEndings t) : x ∈ t ∨ x = '\n' := by
  induction t using normalizeLineEndings.induct with
  | case1 => simp [normalizeLineEndings] at hx
  | case2 =>
    simp [normalizeLineEndings] at hx
    exact Or.inr hx
  | case3 c hc =>
    simp [normalizeLineEndings, hc] at hx
    exact Or.inl (by simp [hx])
  | case4 c d rest h ih =>
    rw [normalizeLineEndings, if_pos h] at hx
    rcases List.mem_cons.mp hx with hx | hx
    · exact Or.inr hx
    · rcases ih hx with h' | h'
      · exact Or.inl (List.mem_cons_of_mem _ (List.mem_cons_of_mem _ h'))
      · exact Or.inr h'
  | case5 d rest h ih =>
    rw [normalizeLineEndings, if_neg h, if_pos rfl] at hx
    rcases List.mem_cons.mp hx with hx | hx
    · exact Or.inr hx
    · rcases ih hx with h' | h'
      · exact Or.inl (List.mem_cons_of_mem _ h')
      · exact Or.inr h'
  | case6 c d rest h hc ih =>
    rw [normalizeLineEndings, if_neg h, if_neg hc] at hx
    rcases List.mem_cons.mp hx with hx | hx
    · exact Or.inl (by rw [hx]; exact List.mem_cons_self _ _)
    · rcases ih hx with h' | h'
      · exact Or.inl (List.mem_cons_of_mem _ h')
      · exact Or.inr h'

/-- The result of `sanitizeString` holds no NUL and no carriage return. -/
theorem sanitizeString_NoNULNoCR (s : GoString) : NoNULNoCR (sanitizeString s) := by
  rw [sanitizeString_eq]
  refine ⟨fun h => ?_, normalizeLineEndings_noCR _⟩
  rcases mem_normalizeLineEndings _ _ h with h' | h'
  · simp at h'
  · revert h'; decide

/-- The address of a Location from `NewLocation` is the sanitized argument. -/
theorem NewLocation_address (lat lng : Float64) (address : GoString) (loc : Location)
    (h : NewLocation lat lng address = .ok loc) : loc.address = sanitizeString address := by
  rw [NewLocation_cases] at h
  split at h
  · cases h
  · split at h
    · cases h
    · split at h
      · cases h
      · cases h; rfl

/-- The model name of a VoiceConfig from `NewVoiceConfig` is the sanitized
argument. -/
theorem NewVoiceConfig_modelName (enabled : Bool) (modelName : GoString) (v : VoiceConfig)
    (h : NewVoiceConfig enabled modelName = .ok v) : v.modelName = sanitizeString modelName := by
  simp only [NewVoiceConfig] at h
  split at h
  · cases h
  · split at h
    · cases h
    · cases h; rfl

/-- The content of a report from `Build` is the sanitized content of the builder. -/
theorem Build_content (b : NippouBuilder) (n : Nippou) (h : b.Build = .ok n) :
    n.content = sanitizeString b.content := by
  simp only [NippouBuilder.Build] at h
  split at h
  · cases h
  · split at h
    · cases h
    · split at h
      · cases h
      · split at h
        · cases h
        · cases h; rfl

/-- The content after a successful `UpdateContent` is the sanitized argument. -/
theorem UpdateContent_ok (n : Nippou) (content : GoString) (now : Time)
    (h : (Nippou.UpdateContent (some n) content now).2 = none) :
    Nippou.UpdateContent (some n) content now =
      (some { n with content := sanitizeString content, updatedAt := now }, none) := by
  revert h
  simp only [Nippou.UpdateContent]
  split
  · simp
  · split
    · simp
    · simp

/-- C18: `sanitizeString(s)` is the trimmed input with every NUL dropped and then
every CRLF pair and every lone CR turned into one LF; it holds no NUL and no
carriage return.  Hence the address of a Location from `NewLocation`, the model
name of a VoiceConfig from `NewVoiceConfig` and the content of a report from
`Build` or after a successful `UpdateContent` hold no NUL and no carriage
return. -/
theorem sanitized_text_clean (s : GoString) :
    sanitizeString s = normalizeLineEndings ((TrimSpace s).filter (fun c => c != '\x00')) ∧
    NoNULNoCR (sanitizeString s) ∧
    (∀ lat lng loc, NewLocation lat lng s = .ok loc →
      NoNULNoCR (Location.Address (some loc))) ∧
    (∀ enabled v, NewVoiceConfig enabled s = .ok v →
      NoNULNoCR (VoiceConfig.ModelName (some v))) ∧
    (∀ b n, b.content = s → NippouBuilder.Build b = .ok n →
      NoNULNoCR (Nippou.Content (some n))) ∧
    (∀ n now, (Nippou.UpdateContent (some n) s now).2 = none →
      NoNULNoCR (Nippou.Content (Nippou.UpdateContent (some n) s now).1)) := by
  refine ⟨sanitizeString_eq s, sanitizeString_NoNULNoCR s, ?_, ?_, ?_, ?_⟩
  · intro lat lng loc h
    simp only [Location.Address, NewLocation_address lat lng s loc h]
    exact sanitizeString_NoNULNoCR s
  · intro enabled v h
    simp only [VoiceConfig.ModelName, NewVoiceConfig_modelName enabled s v h]
    exact sanitizeString_NoNULNoCR s
  · intro b n hb h
    simp only [Nippou.Content, Build_content b n h, hb]
    exact sanitizeString_NoNULNoCR s
  · intro n now h
    rw [UpdateContent_ok n s now h]
    exact sanitizeString_NoNULNoCR s

/-- C19: the address of a Location is not always trimmed.  `sanitizeString` trims
before it drops the NULs, so for the address NUL, space, `Tokyo` the call
`NewLocation(0, 0, address)` succeeds with `Address()` equal to space, `Tokyo`,
which differs from its own `strings.TrimSpace`. -/
theorem NewLocation_address_not_trimmed :
    ∃ loc, NewLocation 0 0 "\x00 Tokyo".toList = .ok loc ∧
      Location.Address (some loc) = " Tokyo".toList ∧
      TrimSpace (Location.Address (some loc)) ≠ Location.Address (some loc) :=
  ⟨⟨0, 0, " Tokyo".toList⟩, by decide, by decide, by decide⟩


/-! ## Order of the checks in the constructors -/

/-- What `NewVoiceConfig` returns, by the first check that fails. -/
theorem NewVoiceConfig_cases (enabled : Bool) (modelName : GoString) :
    NewVoiceConfig enabled modelName =
      if enabled = true ∧ sanitizeString modelName = [] then .error ErrEmptyModelName
      else if 100 < RuneCountInString (sanitizeString modelName) then .error ErrModelNameTooLong
      else .ok { enabled := enabled, modelName := sanitizeString modelName } := by
  simp only [NewVoiceConfig, MaxModelNameLength, gt_iff_lt, Bool.and_eq_true, beq_iff_eq]

/-- C21: with `m = sanitizeString(name)`, `NewVoiceConfig(enabled, name)` fails
with `ErrEmptyModelName` (`VALIDATION_ERROR`, field `modelName`) when `enabled` is
true and `m` is empty; otherwise with `ErrModelNameTooLong` (`LIMIT_EXCEEDED`)
when `m` has more than 100 code points, whatever `enabled` is; otherwise it
succeeds with `Enabled() = enabled` and `ModelName() = m`.  In particular
`NewVoiceConfig(false, "")` succeeds, and `SetVoiceConfig` on a non-nil report
returns the error of `NewVoiceConfig`, or none when it succeeds. -/
theorem NewVoiceConfig_order (enabled : Bool) (name : GoString) :
    (enabled = true ∧ sanitizeString name = [] →
      NewVoiceConfig enabled name = .error ErrEmptyModelName) ∧
    (¬ (enabled = true ∧ sanitizeString name = []) →
      100 < RuneCountInString (sanitizeString name) →
      NewVoiceConfig enabled name = .error ErrModelNameTooLong) ∧
    (¬ (enabled = true ∧ sanitizeString name = []) →
      RuneCountInString (sanitizeString name) ≤ 100 →
      ∃ v, NewVoiceConfig enabled name = .ok v ∧ VoiceConfig.Enabled (some v) = enabled ∧
        VoiceConfig.ModelName (some v) = sanitizeString name) ∧
    (ErrEmptyModelName.Code = "VALIDATION_ERROR" ∧ ErrEmptyModelName.Field = "modelName") ∧
    ErrModelNameTooLong.Code = "LIMIT_EXCEEDED" ∧
    NewVoiceConfig false [] = .ok { enabled := false, modelName := [] } ∧
    (∀ (n : Nippou) (now : Time),
      (Nippou.SetVoiceConfig (some n) enabled name now).2 =
        match NewVoiceConfig enabled name with
        | .error err => some err
        | .ok _ => none) := by
  refine ⟨?_, ?_, ?_, by decide, by decide, by decide, ?_⟩
  · intro h
    rw [NewVoiceConfig_cases, if_pos h]
  · intro h1 h2
    rw [NewVoiceConfig_cases, if_neg h1, if_pos h2]
  · intro h1 h2
    rw [NewVoiceConfig_cases, if_neg h1, if_neg (not_lt.mpr h2)]
    exact ⟨_, rfl, rfl, rfl⟩
  · intro n now
    simp only [Nippou.SetVoiceConfig]
    cases NewVoiceConfig enabled name <;> rfl

/-- What `NewTag` returns, by the first check that fails. -/
theorem NewTag_cases (text : GoString) :
    NewTag text =
      if TrimSpace text = [] then .error ErrEmptyTag
      else if 50 < RuneCountInString (TrimSpace text) then .error ErrTagTooLong
      else if tagPatternMatchString (ToLower (TrimSpace text)) = false then
        .error ErrInvalidTagFormat
      else .ok { value := ToLower (TrimSpace text) } := by
  simp only [NewTag, MaxTagLength, gt_iff_lt, Bool.not_eq_true', Bool.not_eq_true]

/-- C23: with `t = strings.TrimSpace(text)`, `NewTag(text)` reports the first
failing check in this order: `ErrEmptyTag` (`VALIDATION_ERROR`) when `t` is empty;
else `ErrTagTooLong` (`LIMIT_EXCEEDED`) when `t` has more than 50 code points,
whatever characters it holds; else `ErrInvalidTagFormat` (`INVALID_FORMAT`) when
the lower-cased `t` does not match the tag pattern; else it succeeds. -/
theorem NewTag_order (text : GoString) :
    (TrimSpace text = [] → NewTag text = .error ErrEmptyTag) ∧
    (TrimSpace text ≠ [] → 50 < RuneCountInString (TrimSpace text) →
      NewTag text = .error ErrTagTooLong) ∧
    (TrimSpace text ≠ [] → RuneCountInString (TrimSpace text) ≤ 50 →
      tagPatternMatchString (ToLower (TrimSpace text)) = false →
      NewTag text = .error ErrInvalidTagFormat) ∧
    (TrimSpace text ≠ [] → RuneCountInString (TrimSpace text) ≤ 50 →
      tagPatternMatchString (ToLower (TrimSpace text)) = true →
      NewTag text = .ok { value := ToLower (TrimSpace text) }) ∧
    ErrEmptyTag.Code = "VALIDATION_ERROR" ∧ ErrTagTooLong.Code = "LIMIT_EXCEEDED" ∧
    ErrInvalidTagFormat.Code = "INVALID_FORMAT" ∧
    NewTag (List.replicate 51 '!') = .error ErrTagTooLong := by
  refine ⟨?_, ?_, ?_, ?_, by decide, by decide, by decide, by decide⟩
  · intro h
    rw [NewTag_cases, if_pos h]
  · intro h1 h2
    rw [NewTag_cases, if_neg h1, if_pos h2]
  · intro h1 h2 h3
    rw [NewTag_cases, if_neg h1, if_neg (not_lt.mpr h2), if_pos h3]
  · intro h1 h2 h3
    rw [NewTag_cases, if_neg h1, if_neg (not_lt.mpr h2), if_neg (by simp [h3])]

/-- C25, as the claim states it, fails: for the empty text `IDFromString` returns
an error of kind `VALIDATION_ERROR`, not `INVALID_FORMAT`. -/
theorem IDFromString_empty_is_validation_error :
    IDFromString [] =
      .error { Code := "VALIDATION_ERROR", Field := "id", Message := "ID cannot be empty" } ∧
    ({ Code := "VALIDATION_ERROR", Field := "id", Message := "ID cannot be empty" } :
      DomainError).Code ≠ "INVALID_FORMAT" := by
  decide

/-- C25, amended: `IDFromString(text)` fails with an error of kind
`VALIDATION_ERROR` when the text is empty, and with an error of kind
`INVALID_FORMAT` when the text is not empty and `uuid.Parse` rejects it; no ID is
returned then.  Otherwise it returns an ID whose `String()` is the input text.
Two IDs are `Equals` exactly when their strings are equal. -/
theorem IDFromString_cases (text : GoString) :
    (text = [] → ∃ err, IDFromString text = .error err ∧ err.Code = "VALIDATION_ERROR") ∧
    (text ≠ [] → uuidParse text = false →
      ∃ err, IDFromString text = .error err ∧ err.Code = "INVALID_FORMAT") ∧
    (text ≠ [] → uuidParse text = true →
      ∃ id, IDFromString text = .ok id ∧ id.String = text) ∧
    (∀ a b : ID, a.Equals b = true ↔ a.String = b.String) := by
  refine ⟨?_, ?_, ?_, ?_⟩
  · intro h
    simp only [IDFromString, if_pos h]
    exact ⟨_, rfl, rfl⟩
  · intro h1 h2
    simp only [IDFromString, if_neg h1, h2]
    exact ⟨_, rfl, rfl⟩
  · intro h1 h2
    simp only [IDFromString, if_neg h1, h2]
    exact ⟨_, rfl, rfl⟩
  · intro a b
    simp [ID.Equals, ID.String]

/-- C29: every mutator called on a nil report returns `ErrNilNippou` (code
`NIL_RECEIVER`), whatever the arguments, and the receiver stays nil: the nil
check precedes every other check. -/
theorem nil_receiver_error (m : Mutation) (now : Time) :
    m.call none now = (none, some ErrNilNippou) ∧ ErrNilNippou.Code = "NIL_RECEIVER" := by
  refine ⟨?_, by decide⟩
  cases m <;> rfl

/-- What `UpdateContent` returns on a non-nil report, by the first check that
fails. -/
theorem UpdateContent_cases (n : Nippou) (text : GoString) (now : Time) :
    Nippou.UpdateContent (some n) text now =
      if sanitizeString text = [] then (some n, some ErrEmptyContent)
      else if 65536 < RuneCountInString (sanitizeString text) then
        (some n, some ErrContentTooLong)
      else (some { n with content := sanitizeString text, updatedAt := now }, none) := by
  simp only [Nippou.UpdateContent, MaxContentLength, gt_iff_lt]

/-- C30: on a non-nil report, with `s = sanitizeString(text)`, `UpdateContent(text)`
fails with `ErrEmptyContent` when `s` is empty, fails with `ErrContentTooLong` when
`s` has more than 65536 code points, and otherwise returns no error and leaves
`Content() = s`. -/
theorem UpdateContent_spec (n : Nippou) (text : GoString) (now : Time) :
    (sanitizeString text = [] →
      (Nippou.UpdateContent (some n) text now).2 = some ErrEmptyContent) ∧
    (sanitizeString text ≠ [] → 65536 < RuneCountInString (sanitizeString text) →
      (Nippou.UpdateContent (some n) text now).2 = some ErrContentTooLong) ∧
    (sanitizeString text ≠ [] → RuneCountInString (sanitizeString text) ≤ 65536 →
      (Nippou.UpdateContent (some n) text now).2 = none ∧
      Nippou.Content (Nippou.UpdateContent (some n) text now).1 = sanitizeString text) := by
  refine ⟨?_, ?_, ?_⟩
  · intro h
    rw [UpdateContent_cases, if_pos h]
  · intro h1 h2
    rw [UpdateContent_cases, if_neg h1, if_pos h2]
  · intro h1 h2
    rw [UpdateContent_cases, if_neg h1, if_neg (not_lt.mpr h2)]
    exact ⟨rfl, rfl⟩

/-- A text made of white space only is sanitized to the empty text. -/
theorem sanitizeString_whitespace (s : GoString) (h : ∀ c ∈ s, unicodeIsSpace c = true) :
    sanitizeString s = [] := by
  have ht : TrimSpace s = [] := by
    have h1 : s.dropWhile unicodeIsSpace = [] := List.dropWhile_eq_nil_iff.mpr h
    simp [TrimSpace, h1]
  simp [sanitizeString, ht, ReplaceAll, replaceScan]

/-- What `Build` returns, by the first check that fails. -/
theorem Build_cases (b : NippouBuilder) :
    b.Build =
      if sanitizeString b.content = [] then .error ErrEmptyContent
      else if 65536 < RuneCountInString (sanitizeString b.content) then .error ErrContentTooLong
      else
        match timeParseDate b.dateStr with
        | none => .error ErrInvalidDateFormat
        | some date =>
          if 20 < b.tags.length then .error ErrMaxTagsExceeded
          else
            .ok { id := b.idGen.Generate (), date := date, content := sanitizeString b.content,
                  location := b.location, voice := b.voice, tags := b.tags,
                  createdAt := b.timeFunc (), updatedAt := b.timeFunc () } := by
  simp only [NippouBuilder.Build, MaxContentLength, MaxTagCount, gt_iff_lt, copyTags]

/-- C26: `Build` reports the first failing check in the order content, date, tag
count and returns no entity on failure: `ErrEmptyContent` (`VALIDATION_ERROR`,
field `content`) when the sanitized content is empty, as it is for a content of
white space only; else `ErrContentTooLong` (`LIMIT_EXCEEDED`, field `content`)
above 65536 code points; else `ErrInvalidDateFormat` (`INVALID_FORMAT`, field
`date`) when the date string does not parse; else `ErrMaxTagsExceeded`
(`LIMIT_EXCEEDED`, field `tags`) for more than 20 tags; else it succeeds. -/
theorem Build_order (b : NippouBuilder) :
    (sanitizeString b.content = [] → b.Build = .error ErrEmptyContent) ∧
    ((∀ c ∈ b.content, unicodeIsSpace c = true) → b.Build = .error ErrEmptyContent) ∧
    (sanitizeString b.content ≠ [] → 65536 < RuneCountInString (sanitizeString b.content) →
      b.Build = .error ErrContentTooLong) ∧
    (sanitizeString b.content ≠ [] → RuneCountInString (sanitizeString b.content) ≤ 65536 →
      timeParseDate b.dateStr = none → b.Build = .error ErrInvalidDateFormat) ∧
    (sanitizeString b.content ≠ [] → RuneCountInString (sanitizeString b.content) ≤ 65536 →
      timeParseDate b.dateStr ≠ none → 20 < b.tags.length →
      b.Build = .error ErrMaxTagsExceeded) ∧
    (sanitizeString b.content ≠ [] → RuneCountInString (sanitizeString b.content) ≤ 65536 →
      timeParseDate b.dateStr ≠ none → b.tags.length ≤ 20 → ∃ n, b.Build = .ok n) ∧
    (ErrEmptyContent.Code = "VALIDATION_ERROR" ∧ ErrEmptyContent.Field = "content") ∧
    (ErrContentTooLong.Code = "LIMIT_EXCEEDED" ∧ ErrContentTooLong.Field = "content") ∧
    (ErrInvalidDateFormat.Code = "INVALID_FORMAT" ∧ ErrInvalidDateFormat.Field = "date") ∧
    (ErrMaxTagsExceeded.Code = "LIMIT_EXCEEDED" ∧ ErrMaxTagsExceeded.Field = "tags") := by
  refine ⟨?_, ?_, ?_, ?_, ?_, ?_, by decide, by decide, by decide, by decide⟩
  · intro h
    rw [Build_cases, if_pos h]
  · intro h
    rw [Build_cases, if_pos (sanitizeString_whitespace _ h)]
  · intro h1 h2
    rw [Build_cases, if_neg h1, if_pos h2]
  · intro h1 h2 h3
    rw [Build_cases, if_neg h1, if_neg (not_lt.mpr h2), h3]
  · intro h1 h2 h3 h4
    rw [Build_cases, if_neg h1, if_neg (not_lt.mpr h2)]
    cases hd : timeParseDate b.dateStr with
    | none => exact absurd hd h3
    | some date => simp only [if_pos h4]
  · intro h1 h2 h3 h4
    rw [Build_cases, if_neg h1, if_neg (not_lt.mpr h2)]
    cases hd : timeParseDate b.dateStr with
    | none => exact absurd hd h3
    | some date =>
      simp only [if_neg (not_lt.mpr h4)]
      exact ⟨_, rfl⟩

/-- C28: when `Build` succeeds the entity has `Content()` equal to the sanitized
content, the location, the voice and the tags of the builder, in their order,
`ID()` equal to the value the identifier generator returns, and `CreatedAt()` and
`UpdatedAt()` both equal to the instant the clock of the builder returns.  A
builder fresh from `NewNippouBuilder` has no location, no voice and no tags. -/
theorem Build_fields (b : NippouBuilder) (n : Nippou) (h : b.Build = .ok n) :
    Nippou.Content (some n) = sanitizeString b.content ∧
    Nippou.Location (some n) = b.location ∧ Nippou.Voice (some n) = b.voice ∧
    Nippou.Tags (some n) = b.tags ∧ Nippou.ID (some n) = b.idGen.Generate () ∧
    Nippou.CreatedAt (some n) = b.timeFunc () ∧ Nippou.UpdatedAt (some n) = b.timeFunc () ∧
    (∀ g f d c, (NewNippouBuilder g f d c).location = none ∧
      (NewNippouBuilder g f d c).voice = none ∧ (NewNippouBuilder g f d c).tags = [] ∧
      (NewNippouBuilder g f d c).idGen = g ∧ (NewNippouBuilder g f d c).timeFunc = f) := by
  rw [Build_cases] at h
  split at h
  · cases h
  · split at h
    · cases h
    · split at h
      · cases h
      · split at h
        · cases h
        · cases h
          refine ⟨rfl, ?_, ?_, rfl, rfl, rfl, rfl, fun _ _ _ _ => ⟨rfl, rfl, rfl, rfl, rfl⟩⟩
          · simp only [Nippou.Location]
            cases b.location <;> rfl
          · simp only [Nippou.Voice]
            cases b.voice <;> rfl

/-- C28 at the sample builder with two tags. -/
theorem Build_fields_witness :
    (sampleBuilder.WithTags (sampleTags 2)).Build = .ok (sampleBuilt (sampleTags 2)) ∧
    Nippou.Tags (some (sampleBuilt (sampleTags 2))) =
      (sampleBuilder.WithTags (sampleTags 2)).tags ∧
    Nippou.CreatedAt (some (sampleBuilt (sampleTags 2))) =
      (sampleBuilder.WithTags (sampleTags 2)).timeFunc () :=
  ⟨by decide,
    (Build_fields (sampleBuilder.WithTags (sampleTags 2)) (sampleBuilt (sampleTags 2))
      (by decide)).2.2.2.1,
    (Build_fields (sampleBuilder.WithTags (sampleTags 2)) (sampleBuilt (sampleTags 2))
      (by decide)).2.2.2.2.2.1⟩

/-! ## Lemmas on the characters of a tag -/

/-- A property checked on the 128 ASCII code points holds of every ASCII
character. -/
theorem ascii_forall (P : Char → Prop) (h : ∀ n : Fin 128, P (Char.ofNat n)) (c : Char)
    (hc : c.toNat < 128) : P c := by
  have := h ⟨c.toNat, hc⟩
  simpa using this

/-- The characters the tag pattern admits are ASCII. -/
theorem tagChar_ascii (c : Char)
    (h : (isAlnumASCII c || c == '_' || c == '-') = true) : c.toNat < 128 := by
  simp only [isAlnumASCII, Bool.or_eq_true, Bool.and_eq_true, decide_eq_true_eq,
    beq_iff_eq] at h
  rcases h with (((⟨_, h⟩ | ⟨_, h⟩) | ⟨_, h⟩) | h) | h
  · have h' : c.toNat ≤ 122 := h
    omega
  · have h' : c.toNat ≤ 90 := h
    omega
  · have h' : c.toNat ≤ 57 := h
    omega
  · subst h; decide
  · subst h; decide

/-- A character the tag pattern admits is no white space, its lower case is
admitted too, alphanumeric if the character is, and lower-casing it twice is
lower-casing it once. -/
theorem tagChar_facts (c : Char)
    (h : (isAlnumASCII c || c == '_' || c == '-') = true) :
    unicodeIsSpace c = false ∧
    (isAlnumASCII (unicodeToLower c) || unicodeToLower c == '_' ||
      unicodeToLower c == '-') = true ∧
    (isAlnumASCII c = true → isAlnumASCII (unicodeToLower c) = true) ∧
    unicodeToLower (unicodeToLower c) = unicodeToLower c := by
  exact ascii_forall
    (fun c => (isAlnumASCII c || c == '_' || c == '-') = true →
      unicodeIsSpace c = false ∧
      (isAlnumASCII (unicodeToLower c) || unicodeToLower c == '_' ||
        unicodeToLower c == '-') = true ∧
      (isAlnumASCII c = true → isAlnumASCII (unicodeToLower c) = true) ∧
      unicodeToLower (unicodeToLower c) = unicodeToLower c)
    (by decide) c (tagChar_ascii c h) h

/-- The lower case of a character is no upper-case ASCII letter. -/
theorem unicodeToLower_not_upper (c : Char) :
    ¬ ('A' ≤ unicodeToLower c ∧ unicodeToLower c ≤ 'Z') := by
  by_cases hc : c.toNat < 128
  · exact ascii_forall (fun c => ¬ ('A' ≤ unicodeToLower c ∧ unicodeToLower c ≤ 'Z'))
      (by decide) c hc
  · have hz : ¬ c ≤ 'Z' := by
      intro h
      have h' : c.toNat ≤ 90 := h
      omega
    have h1 : ¬ ('A' ≤ c ∧ c ≤ 'Z') := fun h => hz h.2
    simp only [unicodeToLower, if_neg h1]
    split
    · decide
    · split
      · decide
      · exact h1

/-- An alphanumeric ASCII character that is no upper-case letter is a lower-case
letter or a digit. -/
theorem lowerAlnum_of_not_upper (d : Char) (h : isAlnumASCII d = true)
    (hu : ¬ ('A' ≤ d ∧ d ≤ 'Z')) : isLowerAlnumASCII d = true := by
  simp only [isAlnumASCII, isLowerAlnumASCII, Bool.or_eq_true, Bool.and_eq_true,
    decide_eq_true_eq] at h ⊢
  rcases h with (h | h) | h
  · exact Or.inl h
  · exact absurd h hu
  · exact Or.inr h

/-- A text without white space is its own `TrimSpace`. -/
theorem TrimSpace_of_no_space (s : GoString) (h : ∀ c ∈ s, unicodeIsSpace c = false) :
    TrimSpace s = s := by
  have key : ∀ l : GoString, (∀ c ∈ l, unicodeIsSpace c = false) →
      l.dropWhile unicodeIsSpace = l := by
    intro l hl
    cases l with
    | nil => rfl
    | cons a as =>
      have := hl a (List.mem_cons_self _ _)
      simp [List.dropWhile, this]
  unfold TrimSpace
  rw [key s h, key s.reverse (fun c hc => h c (List.mem_reverse.mp hc)), List.reverse_reverse]

/-- What a match of the tag pattern says about the characters of the text. -/
theorem tagPattern_chars (s : GoString) (h : tagPatternMatchString s = true) :
    ∃ c cs, s = c :: cs ∧ isAlnumASCII c = true ∧
      ∀ d ∈ cs, (isAlnumASCII d || d == '_' || d == '-') = true := by
  cases s with
  | nil => simp [tagPatternMatchString] at h
  | cons c cs =>
    simp only [tagPatternMatchString, Bool.and_eq_true, List.all_eq_true] at h
    exact ⟨c, cs, rfl, h.1, h.2⟩

/-- Every character of a text that matches the tag pattern is admitted by it. -/
theorem tagPattern_all (s : GoString) (h : tagPatternMatchString s = true) :
    ∀ d ∈ s, (isAlnumASCII d || d == '_' || d == '-') = true := by
  obtain ⟨c, cs, rfl, hc, hcs⟩ := tagPattern_chars s h
  intro d hd
  rcases List.mem_cons.mp hd with hd | hd
  · subst hd
    simp [hc]
  · exact hcs d hd

/-- A text of at most 50 code points that matches the tag pattern is accepted by
`NewTag` as its lower case, and so is that lower case. -/
theorem NewTag_of_match (x : GoString) (hlen : x.length ≤ 50)
    (hm : tagPatternMatchString x = true) :
    NewTag x = .ok { value := ToLower x } ∧ NewTag (ToLower x) = .ok { value := ToLower x } := by
  have hall := tagPattern_all x hm
  obtain ⟨c, cs, hx, hc, hcs⟩ := tagPattern_chars x hm
  have htrim : TrimSpace x = x :=
    TrimSpace_of_no_space x (fun d hd => (tagChar_facts d (hall d hd)).1)
  have hm' : tagPatternMatchString (ToLower x) = true := by
    rw [hx]
    simp only [ToLower, List.map_cons, tagPatternMatchString, Bool.and_eq_true,
      List.all_eq_true, List.mem_map]
    refine ⟨(tagChar_facts c (by simp [hc])).2.2.1 hc, ?_⟩
    rintro d ⟨e, he, rfl⟩
    exact (tagChar_facts e (hcs e he)).2.1
  have hall' := tagPattern_all (ToLower x) hm'
  have htrim' : TrimSpace (ToLower x) = ToLower x :=
    TrimSpace_of_no_space _ (fun d hd => (tagChar_facts d (hall' d hd)).1)
  have hidem : ToLower (ToLower x) = ToLower x := by
    simp only [ToLower, List.map_map]
    apply List.map_congr_left
    intro d hd
    exact (tagChar_facts d (hall d hd)).2.2.2
  have hne : x ≠ [] := by rw [hx]; exact List.cons_ne_nil _ _
  have hne' : ToLower x ≠ [] := by
    rw [hx]; simp [ToLower]
  refine ⟨?_, ?_⟩
  · rw [NewTag_cases, htrim, if_neg hne, if_neg (by simpa [RuneCountInString] using hlen),
      if_neg (by simp [hm'])]
  · rw [NewTag_cases, htrim', hidem, if_neg hne',
      if_neg (by simpa [RuneCountInString, ToLower] using hlen), if_neg (by simp [hm'])]

/-- C22: a text of 1 to 50 characters that matches the tag pattern is accepted by
`NewTag`; `NewTag` of the `String()` of the resulting tag succeeds too and gives a
tag that `Equals` the first. -/
theorem NewTag_idempotent (x : GoString) (hlen : 1 ≤ x.length ∧ x.length ≤ 50)
    (hm : tagPatternMatchString x = true) :
    ∃ t, NewTag x = .ok t ∧ ∃ u, NewTag t.String = .ok u ∧ u.Equals t = true := by
  obtain ⟨h1, h2⟩ := NewTag_of_match x hlen.2 hm
  exact ⟨_, h1, _, h2, by simp [Tag.Equals]⟩

/-- C22 at the text `Tag-1_a`. -/
theorem NewTag_idempotent_witness :
    (1 ≤ "Tag-1_a".toList.length ∧ "Tag-1_a".toList.length ≤ 50) ∧
    tagPatternMatchString "Tag-1_a".toList = true ∧
    ∃ t, NewTag "Tag-1_a".toList = .ok t ∧ ∃ u, NewTag t.String = .ok u ∧ u.Equals t = true :=
  ⟨by decide, by decide, NewTag_idempotent "Tag-1_a".toList (by decide) (by decide)⟩

/-- C24: the `String()` of a tag that `NewTag` returns is the lower-cased trimmed
input, has 1 to 50 code points, starts with a lower-case ASCII letter or a digit
and holds only lower-case ASCII letters, digits, `-` and `_`; two accepted inputs
with the same lower-cased trimmed form give tags that are `Equals`. -/
theorem NewTag_normal_form (text : GoString) (t : Tag) (h : NewTag text = .ok t) :
    t.String = ToLower (TrimSpace text) ∧
    (1 ≤ RuneCountInString t.String ∧ RuneCountInString t.String ≤ 50) ∧
    (∃ c cs, t.String = c :: cs ∧ isLowerAlnumASCII c = true ∧
      ∀ d ∈ cs, isLowerAlnumASCII d = true ∨ d = '-' ∨ d = '_') ∧
    (∀ other u, NewTag other = .ok u →
      ToLower (TrimSpace other) = ToLower (TrimSpace text) → t.Equals u = true) := by
  have hv := NewTag_value text t h
  rw [NewTag_cases] at h
  split at h
  · cases h
  · next hne =>
    split at h
    · cases h
    · next hlen =>
      split at h
      · cases h
      · next hm =>
        have hm' : tagPatternMatchString (ToLower (TrimSpace text)) = true := by
          simpa using hm
        obtain ⟨c, cs, hcs, hc, hrest⟩ := tagPattern_chars _ hm'
        have hup : ∀ d ∈ ToLower (TrimSpace text), ¬ ('A' ≤ d ∧ d ≤ 'Z') := by
          intro d hd
          simp only [ToLower, List.mem_map] at hd
          obtain ⟨e, -, rfl⟩ := hd
          exact unicodeToLower_not_upper e
        refine ⟨hv, ⟨?_, ?_⟩, ⟨c, cs, by rw [Tag.String, hv, hcs], ?_, ?_⟩, ?_⟩
        · rw [Tag.String, hv, hcs]
          simp [RuneCountInString]
        · rw [Tag.String, hv]
          simpa [RuneCountInString, ToLower] using hlen
        · exact lowerAlnum_of_not_upper c hc
            (hup c (by rw [hcs]; exact List.mem_cons_self _ _))
        · intro d hd
          have hd' := hrest d hd
          have hnu := hup d (by rw [hcs]; exact List.mem_cons_of_mem _ hd)
          simp only [Bool.or_eq_true, beq_iff_eq] at hd'
          rcases hd' with (hd' | hd') | hd'
          · exact Or.inl (lowerAlnum_of_not_upper d hd' hnu)
          · exact Or.inr (Or.inr hd')
          · exact Or.inr (Or.inl hd')
        · intro other u hu heq
          simp only [Tag.Equals, beq_iff_eq]
          rw [hv, NewTag_value other u hu, heq]

/-- C24 at the text ` Go-Lang `, with `go-lang` as the other input. -/
theorem NewTag_normal_form_witness :
    NewTag " Go-Lang ".toList = .ok ⟨"go-lang".toList⟩ ∧
    Tag.String ⟨"go-lang".toList⟩ = ToLower (TrimSpace " Go-Lang ".toList) ∧
    (1 ≤ RuneCountInString (Tag.String ⟨"go-lang".toList⟩) ∧
      RuneCountInString (Tag.String ⟨"go-lang".toList⟩) ≤ 50) ∧
    (∃ c cs, Tag.String ⟨"go-lang".toList⟩ = c :: cs ∧ isLowerAlnumASCII c = true ∧
      ∀ d ∈ cs, isLowerAlnumASCII d = true ∨ d = '-' ∨ d = '_') ∧
    (∀ other u, NewTag other = .ok u →
      ToLower (TrimSpace other) = ToLower (TrimSpace " Go-Lang ".toList) →
      Tag.Equals ⟨"go-lang".toList⟩ u = true) :=
  ⟨by decide, NewTag_normal_form " Go-Lang ".toList ⟨"go-lang".toList⟩ (by decide)⟩

/-! ## Lemmas on `time.Parse` -/

/-- The character of a digit is a digit with that value. -/
theorem digitChar_facts (k : Nat) (hk : k < 10) :
    isDigit (digitChar k) = true ∧ digitVal (digitChar k) = k := by
  have h : ∀ k : Fin 10, isDigit (digitChar k) = true ∧ digitVal (digitChar k) = k := by
    decide
  exact h ⟨k, hk⟩

/-- A digit is the character of its value. -/
theorem digitVal_facts (c : Char) (h : isDigit c = true) :
    digitVal c < 10 ∧ digitChar (digitVal c) = c := by
  simp only [isDigit, Bool.and_eq_true, decide_eq_true_eq] at h
  have h1 : 48 ≤ c.toNat := h.1
  have h2 : c.toNat ≤ 57 := h.2
  have h0 : '0'.toNat = 48 := rfl
  refine ⟨by simp only [digitVal, h0]; omega, ?_⟩
  simp only [digitChar, digitVal, h0]
  have : 48 + (c.toNat - 48) = c.toNat := by omega
  rw [this, Char.ofNat_toNat]

/-- No month has more than 31 days. -/
theorem daysIn_le (month year : Nat) : daysIn month year ≤ 31 := by
  unfold daysIn
  split
  · split <;> decide
  · split <;> decide

/-- The strict form of an existing calendar date parses to that date. -/
theorem timeParseDate_formatDate (y m d : Nat) (h : IsCalendarDate y m d) :
    timeParseDate (formatDate y m d) = some (timeDate y m d) := by
  obtain ⟨hy, hm1, hm2, hd1, hd2⟩ := h
  have hd3 : d ≤ 31 := le_trans hd2 (daysIn_le m y)
  have e1 := digitChar_facts (y / 1000 % 10) (Nat.mod_lt _ (by decide))
  have e2 := digitChar_facts (y / 100 % 10) (Nat.mod_lt _ (by decide))
  have e3 := digitChar_facts (y / 10 % 10) (Nat.mod_lt _ (by decide))
  have e4 := digitChar_facts (y % 10) (Nat.mod_lt _ (by decide))
  have e5 := digitChar_facts (m / 10 % 10) (Nat.mod_lt _ (by decide))
  have e6 := digitChar_facts (m % 10) (Nat.mod_lt _ (by decide))
  have e7 := digitChar_facts (d / 10 % 10) (Nat.mod_lt _ (by decide))
  have e8 := digitChar_facts (d % 10) (Nat.mod_lt _ (by decide))
  have hyear : y / 1000 % 10 * 1000 + y / 100 % 10 * 100 + y / 10 % 10 * 10 + y % 10 = y := by
    omega
  have hmonth : m / 10 % 10 * 10 + m % 10 = m := by omega
  have hday : d / 10 % 10 * 10 + d % 10 = d := by omega
  simp only [formatDate, timeParseDate, e1.1, e2.1, e3.1, e4.1, e5.1, e6.1, e7.1, e8.1, e1.2,
    e2.2, e3.2, e4.2, e5.2, e6.2, e7.2, e8.2, hyear, hmonth, hday, beq_self_eq_true,
    Bool.and_self, if_true]
  have c1 : ¬ ((decide (m ≤ 0) || decide (12 < m)) = true) := by
    simp only [Bool.or_eq_true, decide_eq_true_eq]; omega
  have c2 : ¬ ((decide (d < 1) || decide (d > daysIn m y)) = true) := by
    simp only [Bool.or_eq_true, decide_eq_true_eq]; omega
  rw [if_neg c1, if_neg c2]

/-- A date string that parses is the strict form of an existing calendar date, and
parses to that date. -/
theorem timeParseDate_some (s : GoString) (t : Time) (h : timeParseDate s = some t) :
    ∃ y m d, IsCalendarDate y m d ∧ s = formatDate y m d ∧ t = timeDate y m d := by
  unfold timeParseDate at h
  split at h
  · next y1 y2 y3 y4 s1 m1 m2 s2 d1 d2 =>
    split at h
    · next hform =>
      simp only [Bool.and_eq_true, beq_iff_eq] at hform
      obtain ⟨⟨⟨⟨⟨⟨⟨⟨⟨hy1, hy2⟩, hy3⟩, hy4⟩, hs1⟩, hm1⟩, hm2⟩, hs2⟩, hd1⟩, hd2⟩ := hform
      have f1 := digitVal_facts y1 hy1
      have f2 := digitVal_facts y2 hy2
      have f3 := digitVal_facts y3 hy3
      have f4 := digitVal_facts y4 hy4
      have f5 := digitVal_facts m1 hm1
      have f6 := digitVal_facts m2 hm2
      have f7 := digitVal_facts d1 hd1
      have f8 := digitVal_facts d2 hd2
      simp only at h
      split at h
      · cases h
      · next hmonth =>
        split at h
        · cases h
        · next hday =>
          simp only [Bool.or_eq_true, decide_eq_true_eq, not_or, not_le, not_lt] at hmonth hday
          cases h
          refine ⟨digitVal y1 * 1000 + digitVal y2 * 100 + digitVal y3 * 10 + digitVal y4,
            digitVal m1 * 10 + digitVal m2, digitVal d1 * 10 + digitVal d2,
            ⟨by omega, by omega, by omega, by omega, by omega⟩, ?_, rfl⟩
          have g1 : (digitVal y1 * 1000 + digitVal y2 * 100 + digitVal y3 * 10 + digitVal y4)
              / 1000 % 10 = digitVal y1 := by omega
          have g2 : (digitVal y1 * 1000 + digitVal y2 * 100 + digitVal y3 * 10 + digitVal y4)
              / 100 % 10 = digitVal y2 := by omega
          have g3 : (digitVal y1 * 1000 + digitVal y2 * 100 + digitVal y3 * 10 + digitVal y4)
              / 10 % 10 = digitVal y3 := by omega
          have g4 : (digitVal y1 * 1000 + digitVal y2 * 100 + digitVal y3 * 10 + digitVal y4)
              % 10 = digitVal y4 := by omega
          have g5 : (digitVal m1 * 10 + digitVal m2) / 10 % 10 = digitVal m1 := by omega
          have g6 : (digitVal m1 * 10 + digitVal m2) % 10 = digitVal m2 := by omega
          have g7 : (digitVal d1 * 10 + digitVal d2) / 10 % 10 = digitVal d1 := by omega
          have g8 : (digitVal d1 * 10 + digitVal d2) % 10 = digitVal d2 := by omega
          simp only [formatDate, g1, g2, g3, g4, g5, g6, g7, g8, f1.2, f2.2, f3.2, f4.2, f5.2,
            f6.2, f7.2, f8.2, hs1, hs2]
    · cases h
  · cases h

/-- A date from `time.Date` at midnight has no time of day. -/
theorem timeDate_midnight (y m d : Nat) : timeDate y m d % nanosecondsPerDay = 0 := by
  simp only [timeDate, nanosecondsPerDay, mul_assoc]
  exact Int.mul_emod_left _ _

/-- C27: for a valid content, `Build` passes the date check exactly when the date
string is the strict form (four digits, `-`, two digits, `-`, two digits) of an
existing calendar date; the deviations `2026/01/08`, `08-01-2026`, `2026-1-8`, the
empty string, month 13 and day 32 fail with `ErrInvalidDateFormat`; on success
`Date()` is that calendar date at midnight, with no time of day. -/
theorem Build_date_check (b : NippouBuilder) (hc : sanitizeString b.content ≠ [])
    (hlen : RuneCountInString (sanitizeString b.content) ≤ 65536) :
    (b.Build ≠ .error ErrInvalidDateFormat ↔
      ∃ y m d, IsCalendarDate y m d ∧ b.dateStr = formatDate y m d) ∧
    (∀ n, b.Build = .ok n →
      ∃ y m d, IsCalendarDate y m d ∧ b.dateStr = formatDate y m d ∧
        Nippou.Date (some n) = timeDate y m d ∧
        Nippou.Date (some n) % nanosecondsPerDay = 0) ∧
    (∀ s ∈ ["2026/01/08".toList, "08-01-2026".toList, "2026-1-8".toList, [],
        "2026-13-01".toList, "2026-01-32".toList],
      (NippouBuilder.mk s b.content b.location b.voice b.tags b.idGen b.timeFunc).Build =
        .error ErrInvalidDateFormat) := by
  have hlen' : ¬ 65536 < RuneCountInString (sanitizeString b.content) := not_lt.mpr hlen
  refine ⟨?_, ?_, ?_⟩
  · rw [Build_cases, if_neg hc, if_neg hlen']
    cases hd : timeParseDate b.dateStr with
    | none =>
      constructor
      · intro h
        exact absurd rfl h
      · rintro ⟨y, m, d, hcal, hs⟩ _
        rw [hs, timeParseDate_formatDate y m d hcal] at hd
        cases hd
    | some t =>
      obtain ⟨y, m, d, hcal, hs, -⟩ := timeParseDate_some _ t hd
      constructor
      · intro _
        exact ⟨y, m, d, hcal, hs⟩
      · intro _
        simp only
        split
        · decide
        · intro h
          cases h
  · intro n hn
    rw [Build_cases, if_neg hc, if_neg hlen'] at hn
    cases hd : timeParseDate b.dateStr with
    | none =>
      rw [hd] at hn
      cases hn
    | some t =>
      rw [hd] at hn
      simp only at hn
      split at hn
      · cases hn
      · cases hn
        obtain ⟨y, m, d, hcal, hs, ht⟩ := timeParseDate_some _ t hd
        refine ⟨y, m, d, hcal, hs, ht, ?_⟩
        simp only [Nippou.Date, ht]
        exact timeDate_midnight y m d
  · intro s hs
    have hnone : timeParseDate s = none := by
      revert s
      decide
    rw [Build_cases]
    dsimp only
    rw [if_neg hc, if_neg hlen', hnone]

/-- C27 at the sample builder, whose date string is `2026-01-08`. -/
theorem Build_date_check_witness :
    sanitizeString sampleBuilder.content ≠ [] ∧
    RuneCountInString (sanitizeString sampleBuilder.content) ≤ 65536 ∧
    (sampleBuilder.Build ≠ .error ErrInvalidDateFormat ↔
      ∃ y m d, IsCalendarDate y m d ∧ sampleBuilder.dateStr = formatDate y m d) ∧
    sampleBuilder.dateStr = formatDate 2026 1 8 ∧ IsCalendarDate 2026 1 8 ∧
    sampleBuilder.Build = .ok (sampleBuilt []) ∧
    Nippou.Date (some (sampleBuilt [])) = timeDate 2026 1 8 :=
  ⟨by decide, by decide, (Build_date_check sampleBuilder (by decide) (by decide)).1,
    by decide, by decide, by decide, by decide⟩


/-! ## Reconstruction -/

/-- The loop of `Reconstruct` keeps `NewTag` of the raw strings it accepts. -/
theorem reconstructTags_eq_filterMap (raw : List GoString) :
    reconstructTags raw = raw.filterMap (fun t => (NewTag t).toOption) := by
  induction raw with
  | nil => rfl
  | cons s rest ih =>
    cases hs : NewTag s with
    | error err => simp [reconstructTags, hs, ih, List.filterMap_cons, Except.toOption]
    | ok t => simp [reconstructTags, hs, ih, List.filterMap_cons, Except.toOption]

/-- What `Reconstruct` returns, by the result of `IDFromString`. -/
theorem Reconstruct_cases (data : ReconstructedNippou) :
    Reconstruct data =
      match IDFromString data.ID with
      | .error err => .error err
      | .ok id =>
        .ok { id := id, date := data.Date, content := data.Content,
              location := data.Location, voice := data.Voice,
              tags := reconstructTags data.Tags, createdAt := data.CreatedAt,
              updatedAt := data.UpdatedAt } := by
  rfl

/-- The ID `IDFromString` returns wraps the input text. -/
theorem IDFromString_ok (s : GoString) (id : ID) (h : IDFromString s = .ok id) :
    id = { value := s } := by
  simp only [IDFromString] at h
  split at h
  · cases h
  · split at h
    · cases h
    · cases h; rfl

/-- C31: for raw fields with a valid ID `Reconstruct` succeeds whatever the raw
tag strings are, and the tag list is `NewTag(t)` for the raw strings `t` that
`NewTag` accepts, in their order; the rejected ones are skipped. -/
theorem Reconstruct_keeps_accepted_tags (data : ReconstructedNippou) (id : ID)
    (hid : IDFromString data.ID = .ok id) :
    ∃ n, Reconstruct data = .ok n ∧
      Nippou.Tags (some n) = data.Tags.filterMap (fun t => (NewTag t).toOption) := by
  rw [Reconstruct_cases, hid]
  exact ⟨_, rfl, reconstructTags_eq_filterMap _⟩

/-- C31 at the raw tags `valid`, `invalid tag with spaces`, `another-valid`. -/
theorem Reconstruct_keeps_accepted_tags_witness :
    IDFromString (sampleData ["valid".toList, "invalid tag with spaces".toList,
      "another-valid".toList]).ID = .ok ⟨sampleID⟩ ∧
    (∃ n, Reconstruct (sampleData ["valid".toList, "invalid tag with spaces".toList,
        "another-valid".toList]) = .ok n ∧
      Nippou.Tags (some n) = (sampleData ["valid".toList, "invalid tag with spaces".toList,
        "another-valid".toList]).Tags.filterMap (fun t => (NewTag t).toOption)) ∧
    ["valid".toList, "invalid tag with spaces".toList, "another-valid".toList].filterMap
      (fun t => (NewTag t).toOption) = [⟨"valid".toList⟩, ⟨"another-valid".toList⟩] :=
  ⟨by decide,
    Reconstruct_keeps_accepted_tags (sampleData ["valid".toList,
      "invalid tag with spaces".toList, "another-valid".toList]) ⟨sampleID⟩ (by decide),
    by decide⟩

/-- C32: `Reconstruct(data)` returns an error exactly when `IDFromString(data.ID)`
fails, and then that same error; otherwise the entity has `ID().String()` equal to
`data.ID` and its date, content, location, voice, `createdAt` and `updatedAt` are
the fields of `data` as they are. -/
theorem Reconstruct_spec (data : ReconstructedNippou) :
    ((∃ err, Reconstruct data = .error err) ↔ ∃ err, IDFromString data.ID = .error err) ∧
    (∀ err, IDFromString data.ID = .error err → Reconstruct data = .error err) ∧
    (∀ id, IDFromString data.ID = .ok id →
      ∃ n, Reconstruct data = .ok n ∧ (Nippou.ID (some n)).String = data.ID ∧
        Nippou.Date (some n) = data.Date ∧ Nippou.Content (some n) = data.Content ∧
        Nippou.Location (some n) = data.Location ∧ Nippou.Voice (some n) = data.Voice ∧
        Nippou.CreatedAt (some n) = data.CreatedAt ∧
        Nippou.UpdatedAt (some n) = data.UpdatedAt) := by
  rw [Reconstruct_cases]
  cases hid : IDFromString data.ID with
  | error e =>
    refine ⟨⟨fun _ => ⟨e, rfl⟩, fun _ => ⟨e, rfl⟩⟩, ?_, ?_⟩
    · intro err h
      cases h
      rfl
    · intro id h
      cases h
  | ok i =>
    refine ⟨⟨?_, ?_⟩, ?_, ?_⟩
    · rintro ⟨err, h⟩
      cases h
    · rintro ⟨err, h⟩
      cases h
    · intro err h
      cases h
    · intro id h
      cases h
      refine ⟨_, rfl, ?_, rfl, rfl, ?_, ?_, rfl, rfl⟩
      · rw [IDFromString_ok data.ID i hid]
        rfl
      · simp only [Nippou.Location]
        cases data.Location <;> rfl
      · simp only [Nippou.Voice]
        cases data.Voice <;> rfl

/-- Lower-casing a character twice is lower-casing it once. -/
theorem unicodeToLower_idem (c : Char) :
    unicodeToLower (unicodeToLower c) = unicodeToLower c := by
  by_cases hc : c.toNat < 128
  · exact ascii_forall (fun c => unicodeToLower (unicodeToLower c) = unicodeToLower c)
      (by decide) c hc
  · have hz : ¬ c ≤ 'Z' := by
      intro h
      have h' : c.toNat ≤ 90 := h
      omega
    have h1 : ¬ ('A' ≤ c ∧ c ≤ 'Z') := fun h => hz h.2
    by_cases h2 : c.toNat = 0x130
    · simp only [unicodeToLower, if_neg h1, if_pos h2]
      decide
    · by_cases h3 : c.toNat = 0x212A
      · simp only [unicodeToLower, if_neg h1, if_neg h2, if_pos h3]
        decide
      · simp only [unicodeToLower, if_neg h1, if_neg h2, if_neg h3]

/-- A tag that `NewTag` returns is accepted again, unchanged, from its value. -/
theorem NewTag_fixed (x : GoString) (t : Tag) (h : NewTag x = .ok t) :
    NewTag t.value = .ok t := by
  have hv := NewTag_value x t h
  rw [NewTag_cases] at h
  split at h
  · cases h
  · split at h
    · cases h
    · next hlen =>
      split at h
      · cases h
      · next hm =>
        have hm' : tagPatternMatchString (ToLower (TrimSpace x)) = true := by simpa using hm
        have hl : (ToLower (TrimSpace x)).length ≤ 50 := by
          simpa [RuneCountInString, ToLower] using hlen
        have hidem : ToLower (ToLower (TrimSpace x)) = ToLower (TrimSpace x) := by
          simp only [ToLower, List.map_map]
          apply List.map_congr_left
          intro d _
          exact unicodeToLower_idem d
        have := (NewTag_of_match (ToLower (TrimSpace x)) hl hm').1
        rw [hidem] at this
        rw [hv, this]
        cases t
        simp only [Tag.mk.injEq, Except.ok.injEq]
        exact hv.symm

/-- `Reconstruct` of the raw fields of an entity with a valid ID and valid tags
gives that entity back. -/
theorem Reconstruct_rawFields (n : Nippou) (id : ID) (hid : IDFromString n.id.value = .ok id)
    (htags : ∀ t ∈ n.tags, ∃ x, NewTag x = .ok t) :
    Reconstruct (rawFields (some n)) = .ok n := by
  have hrt : ∀ l : List Tag, (∀ t ∈ l, ∃ x, NewTag x = .ok t) →
      reconstructTags (l.map Tag.String) = l := by
    intro l
    induction l with
    | nil => intro _; rfl
    | cons a as ih =>
      intro hl
      obtain ⟨x, hx⟩ := hl a (List.mem_cons_self _ _)
      have ha : NewTag a.String = .ok a := NewTag_fixed x a hx
      simp only [List.map_cons, reconstructTags, ha]
      rw [ih (fun t ht => hl t (List.mem_cons_of_mem _ ht))]
  have hloc : Nippou.Location (some n) = n.location := by
    simp only [Nippou.Location]
    cases n.location <;> rfl
  have hvoice : Nippou.Voice (some n) = n.voice := by
    simp only [Nippou.Voice]
    cases n.voice <;> rfl
  have hid' : IDFromString (rawFields (some n)).ID = .ok n.id := by
    have := IDFromString_ok _ _ hid
    subst this
    exact hid
  rw [Reconstruct_cases, hid']
  simp only [rawFields, hloc, hvoice, Nippou.TagStrings, hrt n.tags htags, Nippou.Date,
    Nippou.Content, Nippou.CreatedAt, Nippou.UpdatedAt]

/-- C33, as the claim states it, fails: a builder whose identifier generator
returns `test-id-123` builds an entity whose raw fields `Reconstruct` rejects, and
a builder given the zero Tag builds an entity whose raw fields are reconstructed
without that tag. -/
theorem round_trip_breaks :
    (∃ n, mockIDBuilder.Build = .ok n ∧
      Reconstruct (rawFields (some n)) =
        .error { Code := "INVALID_FORMAT", Field := "id", Message := "invalid UUID format" }) ∧
    (∃ n n', (sampleBuilder.WithTags [⟨[]⟩]).Build = .ok n ∧
      Reconstruct (rawFields (some n)) = .ok n' ∧ Nippou.Tags (some n) = [⟨[]⟩] ∧
      Nippou.Tags (some n') = []) :=
  ⟨⟨{ sampleBuilt [] with id := ⟨"test-id-123".toList⟩ }, by decide, by decide⟩,
    ⟨sampleBuilt [⟨[]⟩], sampleBuilt [], by decide, by decide, by decide, by decide⟩⟩

/-- C33, amended: for an entity returned by `Build` whose identifier is accepted
by `IDFromString` and whose tags are values that `NewTag` returns, `Reconstruct` of
its raw fields succeeds and gives back an entity equal to it in every field, so
with the same content, date, tag list and timestamps. -/
theorem round_trip (b : NippouBuilder) (n : Nippou) (id : ID) (_hb : b.Build = .ok n)
    (hid : IDFromString (Nippou.ID (some n)).String = .ok id)
    (htags : ∀ t ∈ Nippou.Tags (some n), ∃ x, NewTag x = .ok t) :
    Reconstruct (rawFields (some n)) = .ok n :=
  Reconstruct_rawFields n id hid htags

/-- C33, amended, at the sample builder with the tags `t0`, `t1`. -/
theorem round_trip_witness :
    (sampleBuilder.WithTags (sampleTags 2)).Build = .ok (sampleBuilt (sampleTags 2)) ∧
    IDFromString (Nippou.ID (some (sampleBuilt (sampleTags 2)))).String = .ok ⟨sampleID⟩ ∧
    (∀ t ∈ Nippou.Tags (some (sampleBuilt (sampleTags 2))), ∃ x, NewTag x = .ok t) ∧
    Reconstruct (rawFields (some (sampleBuilt (sampleTags 2)))) =
      .ok (sampleBuilt (sampleTags 2)) :=
  ⟨by decide, by decide,
    fun t ht => ⟨t.value, by revert t; decide⟩,
    round_trip (sampleBuilder.WithTags (sampleTags 2)) (sampleBuilt (sampleTags 2)) ⟨sampleID⟩
      (by decide) (by decide) (fun t ht => ⟨t.value, by revert t; decide⟩)⟩

/-! ## Sanitization is not idempotent; frame of the mutators; add then remove -/

/-- C37: `sanitizeString` is not idempotent.  It trims before it drops the NULs, so
NUL, space, `a` is sanitized to space, `a`, which is sanitized to `a`.  Feeding the
`Content()` of an entity back through `UpdateContent`, or the `Address()` of a
Location back through `NewLocation`, then changes the stored text. -/
theorem sanitizeString_not_idempotent :
    sanitizeString "\x00 a".toList = " a".toList ∧
    sanitizeString (sanitizeString "\x00 a".toList) = "a".toList ∧
    sanitizeString (sanitizeString "\x00 a".toList) ≠ sanitizeString "\x00 a".toList ∧
    (∃ n n', (Nippou.UpdateContent (some sampleNippou) "\x00 a".toList 9).1 = some n ∧
      (Nippou.UpdateContent (some n) (Nippou.Content (some n)) 10).1 = some n' ∧
      Nippou.Content (some n') ≠ Nippou.Content (some n)) ∧
    (∃ l l', NewLocation 0 0 "\x00 a".toList = .ok l ∧
      NewLocation 0 0 (Location.Address (some l)) = .ok l' ∧
      Location.Address (some l') ≠ Location.Address (some l)) :=
  ⟨by decide, by decide, by decide,
    ⟨{ sampleNippou with content := " a".toList, updatedAt := 9 },
      { sampleNippou with content := "a".toList, updatedAt := 10 },
      by decide, by decide, by decide⟩,
    ⟨⟨0, 0, " a".toList⟩, ⟨0, 0, "a".toList⟩, by decide, by decide, by decide⟩⟩

/-- C38: a mutator call on a non-nil report never changes `id`, `date` or
`createdAt`, and changes no field other than its own target (content for
`UpdateContent`, location for the three location mutators, voice for the three
voice mutators, tags for the three tag mutators) and `updatedAt`. -/
theorem mutator_frame (n : Nippou) (m : Mutation) (now : Time) :
    ∃ n', (m.call (some n) now).1 = some n' ∧
      n'.id = n.id ∧ n'.date = n.date ∧ n'.createdAt = n.createdAt ∧
      (m.target ≠ Field.content → n'.content = n.content) ∧
      (m.target ≠ Field.location → n'.location = n.location) ∧
      (m.target ≠ Field.voice → n'.voice = n.voice) ∧
      (m.target ≠ Field.tags → n'.tags = n.tags) := by
  cases m with
  | UpdateContent content =>
    simp only [Mutation.call, Nippou.UpdateContent, Mutation.target]
    split
    · exact ⟨n, rfl, rfl, rfl, rfl, fun _ => rfl, fun _ => rfl, fun _ => rfl, fun _ => rfl⟩
    · split
      · exact ⟨n, rfl, rfl, rfl, rfl, fun _ => rfl, fun _ => rfl, fun _ => rfl, fun _ => rfl⟩
      · exact ⟨_, rfl, rfl, rfl, rfl, fun h => absurd rfl h, fun _ => rfl, fun _ => rfl,
          fun _ => rfl⟩
  | AttachLocation lat lng address =>
    simp only [Mutation.call, Nippou.AttachLocation, Mutation.target]
    split
    · exact ⟨n, rfl, rfl, rfl, rfl, fun _ => rfl, fun _ => rfl, fun _ => rfl, fun _ => rfl⟩
    · exact ⟨_, rfl, rfl, rfl, rfl, fun _ => rfl, fun h => absurd rfl h, fun _ => rfl,
        fun _ => rfl⟩
  | SetLocation loc =>
    exact ⟨_, rfl, rfl, rfl, rfl, fun _ => rfl, fun h => absurd rfl h, fun _ => rfl,
      fun _ => rfl⟩
  | RemoveLocation =>
    exact ⟨_, rfl, rfl, rfl, rfl, fun _ => rfl, fun h => absurd rfl h, fun _ => rfl,
      fun _ => rfl⟩
  | SetVoiceConfig enabled modelName =>
    simp only [Mutation.call, Nippou.SetVoiceConfig, Mutation.target]
    split
    · exact ⟨n, rfl, rfl, rfl, rfl, fun _ => rfl, fun _ => rfl, fun _ => rfl, fun _ => rfl⟩
    · exact ⟨_, rfl, rfl, rfl, rfl, fun _ => rfl, fun _ => rfl, fun h => absurd rfl h,
        fun _ => rfl⟩
  | SetVoice voice =>
    exact ⟨_, rfl, rfl, rfl, rfl, fun _ => rfl, fun _ => rfl, fun h => absurd rfl h,
      fun _ => rfl⟩
  | RemoveVoice =>
    exact ⟨_, rfl, rfl, rfl, rfl, fun _ => rfl, fun _ => rfl, fun h => absurd rfl h,
      fun _ => rfl⟩
  | AddTag tagStr =>
    simp only [Mutation.call, Nippou.AddTag, Nippou.AddValidatedTag, Mutation.target]
    split
    · exact ⟨n, rfl, rfl, rfl, rfl, fun _ => rfl, fun _ => rfl, fun _ => rfl, fun _ => rfl⟩
    · split
      · exact ⟨n, rfl, rfl, rfl, rfl, fun _ => rfl, fun _ => rfl, fun _ => rfl, fun _ => rfl⟩
      · split
        · exact ⟨n, rfl, rfl, rfl, rfl, fun _ => rfl, fun _ => rfl, fun _ => rfl,
            fun _ => rfl⟩
        · exact ⟨_, rfl, rfl, rfl, rfl, fun _ => rfl, fun _ => rfl, fun _ => rfl,
            fun h => absurd rfl h⟩
  | AddValidatedTag tag =>
    simp only [Mutation.call, Nippou.AddValidatedTag, Mutation.target]
    split
    · exact ⟨n, rfl, rfl, rfl, rfl, fun _ => rfl, fun _ => rfl, fun _ => rfl, fun _ => rfl⟩
    · split
      · exact ⟨n, rfl, rfl, rfl, rfl, fun _ => rfl, fun _ => rfl, fun _ => rfl, fun _ => rfl⟩
      · exact ⟨_, rfl, rfl, rfl, rfl, fun _ => rfl, fun _ => rfl, fun _ => rfl,
          fun h => absurd rfl h⟩
  | RemoveTag tagStr =>
    simp only [Mutation.call, Nippou.RemoveTag, Mutation.target]
    split
    · exact ⟨n, rfl, rfl, rfl, rfl, fun _ => rfl, fun _ => rfl, fun _ => rfl, fun _ => rfl⟩
    · split
      · exact ⟨_, rfl, rfl, rfl, rfl, fun _ => rfl, fun _ => rfl, fun _ => rfl,
          fun h => absurd rfl h⟩
      · exact ⟨n, rfl, rfl, rfl, rfl, fun _ => rfl, fun _ => rfl, fun _ => rfl, fun _ => rfl⟩

/-- The first tag equal to `t` in a list that holds none, followed by `t`, is at
the end. -/
theorem findIdx_append_new (tags : List Tag) (t : Tag)
    (hnew : ∀ u ∈ tags, u.Equals t = false) :
    (tags ++ [t]).findIdx? (fun u => u.Equals t) = some tags.length := by
  rw [List.findIdx?_eq_some_iff_getElem]
  refine ⟨by simp, ?_, ?_⟩
  · simp [Tag.Equals]
  · intro j hj
    rw [List.getElem_append_left hj]
    simp [hnew (tags[j]) (List.getElem_mem _)]

/-- C39: on a non-nil report with fewer than 20 tags, for a text that `NewTag`
accepts with a tag equal to none of the report's tags, `AddTag` and then
`RemoveTag` of that text both succeed and give back the original tag list; and
when `RemoveTag` removes a tag the report holds, the tag count goes down by one
and the remaining tags keep their order. -/
theorem AddTag_then_RemoveTag (n : Nippou) (x : GoString) (t : Tag) (now1 now2 : Time)
    (hx : NewTag x = .ok t) :
    (n.tags.length < 20 → (∀ u ∈ n.tags, u.Equals t = false) →
      ∃ n1 n2, Nippou.AddTag (some n) x now1 = (some n1, none) ∧
        Nippou.RemoveTag (some n1) x now2 = (some n2, none) ∧
        Nippou.Tags (some n2) = Nippou.Tags (some n)) ∧
    (Nippou.HasTag (some n) x = true →
      ∃ n', Nippou.RemoveTag (some n) x now2 = (some n', none) ∧
        Nippou.TagCount (some n') + 1 = Nippou.TagCount (some n) ∧
        List.Sublist (Nippou.Tags (some n')) (Nippou.Tags (some n))) := by
  refine ⟨?_, ?_⟩
  · intro hlt hnew
    have h1 : ¬ n.tags.length ≥ MaxTagCount := by simpa [MaxTagCount] using hlt
    have h2 : n.tags.any (fun u => u.Equals t) = false := by
      rw [List.any_eq_false]
      intro u hu
      simp [hnew u hu]
    refine ⟨{ n with tags := n.tags ++ [t], updatedAt := now1 },
      { n with tags := n.tags, updatedAt := now2 }, ?_, ?_, rfl⟩
    · simp only [Nippou.AddTag, hx, Nippou.AddValidatedTag, h1, h2, if_false,
        Bool.false_eq_true]
    · rw [RemoveTag_accepted _ x t now2 hx]
      simp only [findIdx_append_new n.tags t hnew]
      simp
  · intro hhas
    simp only [Nippou.HasTag, hx, List.any_eq_true] at hhas
    rw [RemoveTag_accepted n x t now2 hx]
    cases hi : n.tags.findIdx? (fun u => u.Equals t) with
    | none =>
      rw [List.findIdx?_eq_none_iff] at hi
      obtain ⟨u, hu, he⟩ := hhas
      rw [hi u hu] at he
      cases he
    | some i =>
      have hlen : i < n.tags.length := by
        rw [List.findIdx?_eq_some_iff_getElem] at hi
        exact hi.1
      refine ⟨_, rfl, ?_, ?_⟩
      · simp only [Nippou.TagCount, ← List.eraseIdx_eq_take_drop_succ,
          List.length_eraseIdx, hlen, if_true]
        omega
      · simp only [Nippou.Tags, copyTags, ← List.eraseIdx_eq_take_drop_succ]
        exact List.eraseIdx_sublist _ _

/-- C39 at a report with the tags `t0`, `t1`: `memo` is added and removed, and
`T0` is removed. -/
theorem AddTag_then_RemoveTag_witness :
    NewTag "memo".toList = .ok ⟨"memo".toList⟩ ∧
    (∃ n1 n2, Nippou.AddTag (some (sampleBuilt (sampleTags 2))) "memo".toList 101 =
        (some n1, none) ∧
      Nippou.RemoveTag (some n1) "memo".toList 102 = (some n2, none) ∧
      Nippou.Tags (some n2) = Nippou.Tags (some (sampleBuilt (sampleTags 2)))) ∧
    NewTag "T0".toList = .ok ⟨"t0".toList⟩ ∧
    (∃ n', Nippou.RemoveTag (some (sampleBuilt (sampleTags 2))) "T0".toList 102 =
        (some n', none) ∧
      Nippou.TagCount (some n') + 1 = Nippou.TagCount (some (sampleBuilt (sampleTags 2))) ∧
      List.Sublist (Nippou.Tags (some n')) (Nippou.Tags (some (sampleBuilt (sampleTags 2))))) :=
  ⟨by decide,
    (AddTag_then_RemoveTag (sampleBuilt (sampleTags 2)) "memo".toList ⟨"memo".toList⟩ 101 102
      (by decide)).1 (by decide) (by decide),
    by decide,
    (AddTag_then_RemoveTag (sampleBuilt (sampleTags 2)) "T0".toList ⟨"t0".toList⟩ 101 102
      (by decide)).2 (by decide)⟩

/-! ## The accessors return copies -/

/-- The value of the entity depends on the heap only at the addresses it holds. -/
theorem value_congr (o : NippouObj) (h h' : Heap)
    (hl : ∀ p, o.location = some p → h'.locations p = h.locations p)
    (hv : ∀ p, o.voice = some p → h'.voices p = h.voices p)
    (ht : ∀ s, o.tags = some s → h'.arrays s.array = h.arrays s.array) :
    o.value h' = o.value h := by
  have e1 : h'.locationAt o.location = h.locationAt o.location := by
    cases hp : o.location with
    | none => rfl
    | some p => simp [Heap.locationAt, hl p hp]
  have e2 : h'.voiceAt o.voice = h.voiceAt o.voice := by
    cases hp : o.voice with
    | none => rfl
    | some p => simp [Heap.voiceAt, hv p hp]
  have e3 : h'.tagsAt o.tags = h.tagsAt o.tags := by
    cases hs : o.tags with
    | none => rfl
    | some s => simp [Heap.tagsAt, ht s hs]
  simp only [NippouObj.value, e1, e2, e3]

/-- C36: the read accessors `Location()`, `Voice()` and `Tags()` return copies.  In
every heap the value behind the returned reference is the value-level result
(`Nippou.Location`, `Nippou.Voice`, `Nippou.Tags`) of the entity's state.  When the
addresses of the entity are allocated, the returned reference is new storage,
two successive calls return distinct storage (for a slice: when it has an
element), and after the call a write through the returned reference
(`s[i] = v`, `*p = l`, `*p = v`) leaves the state of the entity, hence the result
of every later accessor call, as it was. -/
theorem accessors_return_copies (o : NippouObj) (h : Heap) :
    (∀ g : Heap,
      (NippouObj.Location (some o) g).2.locationAt (NippouObj.Location (some o) g).1 =
        Nippou.Location (some (o.value g)) ∧
      (NippouObj.Voice (some o) g).2.voiceAt (NippouObj.Voice (some o) g).1 =
        Nippou.Voice (some (o.value g)) ∧
      (NippouObj.Tags (some o) g).2.tagsAt (NippouObj.Tags (some o) g).1 =
        Nippou.Tags (some (o.value g))) ∧
    (o.Allocated h →
      (∀ p, (NippouObj.Location (some o) h).1 = some p →
        o.location ≠ some p ∧
        (NippouObj.Location (some o) (NippouObj.Location (some o) h).2).1 ≠ some p ∧
        ∀ l, o.value ((NippouObj.Location (some o) h).2.storeLocation p l) = o.value h) ∧
      (∀ p, (NippouObj.Voice (some o) h).1 = some p →
        o.voice ≠ some p ∧
        (NippouObj.Voice (some o) (NippouObj.Voice (some o) h).2).1 ≠ some p ∧
        ∀ v, o.value ((NippouObj.Voice (some o) h).2.storeVoice p v) = o.value h) ∧
      (∀ s, (NippouObj.Tags (some o) h).1 = some s →
        (0 < s.len →
          (∀ t, o.tags = some t → t.array ≠ s.array) ∧
          (∀ s', (NippouObj.Tags (some o) (NippouObj.Tags (some o) h).2).1 = some s' →
            s'.array ≠ s.array)) ∧
        ∀ i v, o.value ((NippouObj.Tags (some o) h).2.setElem s i v) = o.value h)) := by
  refine ⟨fun g => ⟨?_, ?_, ?_⟩, fun hwf => ⟨?_, ?_, ?_⟩⟩
  · simp only [NippouObj.Location, Nippou.Location, NippouObj.value, Heap.locationAt]
    cases o.location <;> simp
  · simp only [NippouObj.Voice, Nippou.Voice, NippouObj.value, Heap.voiceAt]
    cases o.voice <;> simp
  · simp only [NippouObj.Tags, copyTagsHeap, Nippou.Tags, NippouObj.value, copyTags]
    cases o.tags with
    | none => rfl
    | some s => simp [Heap.tagsAt]
  · intro p hp
    simp only [NippouObj.Location] at hp ⊢
    cases hq : o.location with
    | none => simp [hq] at hp
    | some q =>
      have hlt := hwf.1 q hq
      simp only [hq, Option.some.injEq] at hp
      subst hp
      refine ⟨fun e => ?_, fun e => ?_, fun l => ?_⟩
      · simp only [Option.some.injEq] at e
        exact Nat.ne_of_lt hlt e
      · simp only [Option.some.injEq] at e
        exact Nat.succ_ne_self _ e
      · apply value_congr
        · intro r hr
          rw [hq] at hr
          cases hr
          simp [Heap.storeLocation, Function.update_noteq (Nat.ne_of_lt hlt)]
        · intro r _
          rfl
        · intro s _
          rfl
  · intro p hp
    simp only [NippouObj.Voice] at hp ⊢
    cases hq : o.voice with
    | none => simp [hq] at hp
    | some q =>
      have hlt := hwf.2.1 q hq
      simp only [hq, Option.some.injEq] at hp
      subst hp
      refine ⟨fun e => ?_, fun e => ?_, fun v => ?_⟩
      · simp only [Option.some.injEq] at e
        exact Nat.ne_of_lt hlt e
      · simp only [Option.some.injEq] at e
        exact Nat.succ_ne_self _ e
      · apply value_congr
        · intro r _
          rfl
        · intro r hr
          rw [hq] at hr
          cases hr
          simp [Heap.storeVoice, Function.update_noteq (Nat.ne_of_lt hlt)]
        · intro s _
          rfl
  · intro s hs
    simp only [NippouObj.Tags, copyTagsHeap] at hs ⊢
    cases hq : o.tags with
    | none => simp [hq] at hs
    | some q =>
      have hlt := hwf.2.2 q hq
      simp only [hq, Option.some.injEq] at hs
      subst hs
      refine ⟨fun _ => ⟨fun t ht => ?_, fun s' hs' => ?_⟩, fun i v => ?_⟩
      · cases ht
        exact Nat.ne_of_lt hlt
      · simp only [Option.some.injEq] at hs'
        subst hs'
        simp
      · apply value_congr
        · intro r _
          unfold Heap.setElem
          split <;> rfl
        · intro r _
          unfold Heap.setElem
          split <;> rfl
        · intro t ht
          rw [hq] at ht
          cases ht
          unfold Heap.setElem
          split
          · simp [Function.update_noteq (Nat.ne_of_lt hlt)]
          · simp [Function.update_noteq (Nat.ne_of_lt hlt)]

/-- Witness for `accessors_return_copies`: in the sample heap the slice `Tags()`
returns lies in the new array 3, and writing `zzz` to its element 0 leaves the
entity as it was. -/
theorem accessors_return_copies_witness :
    sampleObj.Allocated sampleHeap ∧
    sampleObj.value ((NippouObj.Tags (some sampleObj) sampleHeap).2.setElem
      { array := 3, len := 2 } 0 { value := "zzz".toList }) = sampleObj.value sampleHeap :=
  have hwf : sampleObj.Allocated sampleHeap := by
    refine ⟨?_, ?_, ?_⟩ <;> intro p hp <;> cases hp <;> decide
  ⟨hwf, (((accessors_return_copies sampleObj sampleHeap).2 hwf).2.2
    { array := 3, len := 2 } rfl).2 0 { value := "zzz".toList }⟩

/-! ## `Format` inverts `Parse` on the layout `2006-01-02` -/

/-- The year cycles of `yearDay` on a day count given by its cycles. -/
theorem yearDay_cycles (a b c e yd : Int) (hb0 : 0 ≤ b) (hb : b < 4) (hc0 : 0 ≤ c) (hc : c < 25)
    (he0 : 0 ≤ e) (he : e < 4) (h0 : 0 ≤ yd)
    (h1 : yd < 365 ∨ (yd = 365 ∧ e = 3 ∧ (c ≠ 24 ∨ b = 3))) :
    yearDay (146097 * a + 36524 * b + 1461 * c + 365 * e + yd) =
      (400 * a + 100 * b + 4 * c + e + 1, yd) := by
  simp only [yearDay]
  have e1 : (146097 * a + 36524 * b + 1461 * c + 365 * e + yd) / 146097 = a := by omega
  rw [e1]
  have e2 : 146097 * a + 36524 * b + 1461 * c + 365 * e + yd - 146097 * a =
      36524 * b + 1461 * c + 365 * e + yd := by ring
  rw [e2]
  have e3 : (36524 * b + 1461 * c + 365 * e + yd) / 36524 -
      (36524 * b + 1461 * c + 365 * e + yd) / 36524 / 4 = b := by
    rcases h1 with h1 | ⟨h1, h2, h3 | h3⟩
    · have hr : 1461 * c + 365 * e + yd < 36524 := by omega
      have hj : (36524 * b + 1461 * c + 365 * e + yd) / 36524 = b := by omega
      rw [hj]
      omega
    · have hr : 1461 * c + 365 * e + yd < 36524 := by omega
      have hj : (36524 * b + 1461 * c + 365 * e + yd) / 36524 = b := by omega
      rw [hj]
      omega
    · subst h1 h2 h3
      have hc' : c = 24 ∨ c < 24 := by omega
      rcases hc' with hc' | hc'
      · subst hc'
        norm_num
      · have hj : (36524 * 3 + 1461 * c + 365 * 3 + 365) / 36524 = 3 := by omega
        rw [hj]
        norm_num
  rw [e3]
  have e4 : 36524 * b + 1461 * c + 365 * e + yd - 36524 * b = 1461 * c + 365 * e + yd := by ring
  rw [e4]
  have e5 : (1461 * c + 365 * e + yd) / 1461 = c := by omega
  rw [e5]
  have e6 : 1461 * c + 365 * e + yd - 1461 * c = 365 * e + yd := by ring
  rw [e6]
  have e7 : (365 * e + yd) / 365 - (365 * e + yd) / 365 / 4 = e := by
    rcases h1 with h1 | ⟨h1, h2, _⟩
    · have hj : (365 * e + yd) / 365 = e := by omega
      rw [hj]
      omega
    · subst h1 h2
      norm_num
  rw [e7]
  have e8 : 365 * e + yd - 365 * e = yd := by ring
  rw [e8]

/-- The year and the day of the year of a day count. -/
theorem yearDay_spec (y yd : Int) (h0 : 0 ≤ yd)
    (h1 : yd < 365 ∨ (yd = 365 ∧ isLeapYear y = true)) :
    yearDay (365 * (y - 1) + (y - 1) / 4 - (y - 1) / 100 + (y - 1) / 400 + yd) = (y, yd) := by
  have hY : y - 1 = 400 * ((y - 1) / 400) + 100 * ((y - 1) % 400 / 100) +
      4 * ((y - 1) % 100 / 4) + (y - 1) % 4 := by omega
  have hD : 365 * (y - 1) + (y - 1) / 4 - (y - 1) / 100 + (y - 1) / 400 + yd =
      146097 * ((y - 1) / 400) + 36524 * ((y - 1) % 400 / 100) + 1461 * ((y - 1) % 100 / 4) +
        365 * ((y - 1) % 4) + yd := by omega
  have hleap : isLeapYear y = true →
      (y - 1) % 4 = 3 ∧ ((y - 1) % 100 / 4 ≠ 24 ∨ (y - 1) % 400 / 100 = 3) := by
    intro h
    simp only [isLeapYear, Bool.and_eq_true, Bool.or_eq_true, beq_iff_eq, bne_iff_ne, ne_eq] at h
    omega
  rw [hD, yearDay_cycles _ _ _ _ _ (by omega) (by omega) (by omega) (by omega) (by omega)
    (by omega) h0 (by
      rcases h1 with h1 | ⟨h1, h2⟩
      · exact Or.inl h1
      · exact Or.inr ⟨h1, hleap h2⟩)]
  congr 1
  omega

/-- The lengths of the months depend on the year only through its leap status. -/
theorem daysIn_leap (m y : Nat) :
    daysIn m y = daysIn m (if isLeap y then 4 else 1) ∧
    daysBefore m y = daysBefore m (if isLeap y then 4 else 1) := by
  have h : ∀ k, daysIn k y = daysIn k (if isLeap y then 4 else 1) := by
    intro k
    unfold daysIn
    cases hl : isLeap y <;> simp [isLeap]
  refine ⟨h m, ?_⟩
  unfold daysBefore
  congr 1
  exact List.map_congr_left (fun k _ => h (k + 1))

set_option maxRecDepth 100000 in
/-- The month and the day of every day of a common year and of a leap year. -/
theorem monthDay_table :
    ∀ leap : Bool, ∀ m : Fin 13, ∀ d : Fin 32, 1 ≤ m.val → 1 ≤ d.val →
      d.val ≤ daysIn m.val (if leap then 4 else 1) →
      monthDay leap (daysBefore m.val (if leap then 4 else 1) + d.val - 1) = (m.val, d.val) ∧
      daysBefore m.val (if leap then 4 else 1) + d.val - 1 < (if leap then 366 else 365) := by
  decide

/-- The month and the day of the month of a calendar date. -/
theorem monthDay_spec (y m d : Nat) (hm1 : 1 ≤ m) (hm2 : m ≤ 12) (hd1 : 1 ≤ d)
    (hd2 : d ≤ daysIn m y) :
    monthDay (isLeap y) (daysBefore m y + d - 1) = (m, d) ∧
    daysBefore m y + d - 1 < (if isLeap y then 366 else 365) := by
  have hd3 : d ≤ 31 := le_trans hd2 (daysIn_le m y)
  have h := monthDay_table (isLeap y) ⟨m, by omega⟩ ⟨d, by omega⟩ hm1 hd1
  rw [(daysIn_leap m y).1, (daysIn_leap m y).2] at *
  cases hl : isLeap y
  · rw [hl] at h hd2
    simpa using h hd2
  · rw [hl] at h hd2
    simpa using h hd2

/-- The leap status of a year that is not negative. -/
theorem isLeapYear_cast (y : Nat) : isLeapYear (y : Int) = isLeap y := by
  simp only [isLeapYear, isLeap]
  have h4 : ((y : Int) % 4 == 0) = (y % 4 == 0) := by
    rw [Bool.eq_iff_iff]; simp only [beq_iff_eq]; omega
  have h100 : ((y : Int) % 100 != 0) = (y % 100 != 0) := by
    rw [Bool.eq_iff_iff]; simp only [bne_iff_ne, ne_eq]; omega
  have h400 : ((y : Int) % 400 == 0) = (y % 400 == 0) := by
    rw [Bool.eq_iff_iff]; simp only [beq_iff_eq]; omega
  rw [h4, h100, h400]

/-- Formatting the midnight of a calendar date gives its strict form. -/
theorem timeFormatDate_timeDate (y m d : Nat) (h : IsCalendarDate y m d) :
    timeFormatDate (timeDate y m d) = formatDate y m d := by
  obtain ⟨hy, hm1, hm2, hd1, hd2⟩ := h
  have hd3 : d ≤ 31 := le_trans hd2 (daysIn_le m y)
  obtain ⟨hmd, hlt⟩ := monthDay_spec y m d hm1 hm2 hd1 hd2
  have hyd : ((daysBefore m y : Int) + ((d : Int) - 1)) = ((daysBefore m y + d - 1 : Nat) : Int) := by
    omega
  have hdays : timeDate y m d / (86400 * 1000000000) =
      365 * ((y : Int) - 1) + ((y : Int) - 1) / 4 - ((y : Int) - 1) / 100 + ((y : Int) - 1) / 400 +
        ((daysBefore m y + d - 1 : Nat) : Int) := by
    simp only [timeDate]
    rw [mul_assoc, Int.mul_ediv_cancel _ (by norm_num), ← hyd]
    ring
  have hspec := yearDay_spec (y : Int) ((daysBefore m y + d - 1 : Nat) : Int) (by omega) (by
    rw [isLeapYear_cast]
    cases hl : isLeap y
    · rw [hl] at hlt
      simp only [Bool.false_eq_true, if_false] at hlt
      left; omega
    · rw [hl] at hlt
      simp only [if_true] at hlt
      rcases Nat.lt_or_ge (daysBefore m y + d - 1) 365 with h365 | h365
      · left; omega
      · right; exact ⟨by omega, rfl⟩)
  simp only [timeFormatDate]
  rw [hdays, hspec]
  simp only [Int.toNat_ofNat, isLeapYear_cast, hmd]
  have a1 : appendInt (y : Int) 4 = [digitChar (y / 1000 % 10), digitChar (y / 100 % 10),
      digitChar (y / 10 % 10), digitChar (y % 10)] := by
    have hlt4 : y < 10000 := by omega
    have q1 : y / 100 / 10 = y / 1000 % 10 := by omega
    have q2 : y / 100 % 10 = y / 100 % 10 := rfl
    have q3 : y % 100 / 10 = y / 10 % 10 := by omega
    have q4 : y % 100 % 10 = y % 10 := by omega
    simp [appendInt, hlt4, q1, q3, q4]
  have a2 : ∀ k : Nat, k ≤ 31 → appendInt (k : Int) 2 = [digitChar (k / 10 % 10), digitChar (k % 10)] := by
    intro k hk
    have hlt2 : k < 100 := by omega
    have q1 : k / 10 % 10 = k / 10 := by omega
    simp [appendInt, hlt2, q1]
  rw [a1, a2 m (by omega), a2 d hd3]
  rfl

/-! ## `sanitizeString` on text without NUL -/

/-- A text without carriage return keeps its line endings. -/
theorem normalizeLineEndings_of_noCR (t : GoString) (h : '\r' ∉ t) :
    normalizeLineEndings t = t := by
  induction t using normalizeLineEndings.induct with
  | case1 => rfl
  | case2 => exact absurd (List.mem_singleton_self _) h
  | case3 c hc => simp [normalizeLineEndings, hc]
  | case4 c d rest hcd ih =>
    exact absurd (by simp [hcd.1]) h
  | case5 d rest _ ih =>
    exact absurd (List.mem_cons_self _ _) h
  | case6 c d rest hcd hc ih =>
    have h' : '\r' ∉ d :: rest := fun hm => h (List.mem_cons_of_mem _ hm)
    simp only [normalizeLineEndings, if_neg hcd, if_neg hc, ih h']

/-- The first character after the line-ending step. -/
theorem normalizeLineEndings_head (t : GoString) :
    (normalizeLineEndings t).head? = t.head?.map (fun c => if c = '\r' then '\n' else c) := by
  match t with
  | [] => rfl
  | [c] =>
    by_cases hc : c = '\r' <;> simp [normalizeLineEndings, hc]
  | c :: d :: rest =>
    by_cases hcd : c = '\r' ∧ d = '\n'
    · simp [normalizeLineEndings, hcd, hcd.1]
    · by_cases hc : c = '\r'
      · simp only [normalizeLineEndings, if_neg hcd, if_pos hc]
        simp [hc]
      · simp only [normalizeLineEndings, if_neg hcd, if_neg hc]
        simp [hc]

/-- The last character after the line-ending step. -/
theorem normalizeLineEndings_getLast (t : GoString) :
    (normalizeLineEndings t).getLast? =
      t.getLast?.map (fun c => if c = '\r' then '\n' else c) := by
  induction t using normalizeLineEndings.induct with
  | case1 => rfl
  | case2 => simp [normalizeLineEndings]
  | case3 c hc => simp [normalizeLineEndings, hc]
  | case4 c d rest hcd ih =>
    simp only [normalizeLineEndings, if_pos hcd, List.getLast?_cons_cons]
    rw [List.getLast?_cons, ih, List.getLast?_cons, hcd.2]
    cases rest.getLast? <;> simp
  | case5 d rest hcd ih =>
    rw [normalizeLineEndings, if_neg hcd, if_pos rfl, List.getLast?_cons_cons]
    rw [List.getLast?_cons, ih]
    rw [List.getLast?_cons]
    simp
  | case6 c d rest hcd hc ih =>
    rw [normalizeLineEndings, if_neg hcd, if_neg hc, List.getLast?_cons_cons]
    rw [List.getLast?_cons, ih]
    rw [List.getLast?_cons]
    simp

/-- A text that neither starts nor ends with white space is its own trim. -/
theorem TrimSpace_of_ends (u : GoString)
    (h1 : ∀ c, u.head? = some c → unicodeIsSpace c = false)
    (h2 : ∀ c, u.getLast? = some c → unicodeIsSpace c = false) : TrimSpace u = u := by
  cases u with
  | nil => rfl
  | cons c cs =>
    have hc := h1 c rfl
    have e1 : (c :: cs).dropWhile unicodeIsSpace = c :: cs := by
      simp [List.dropWhile, hc]
    simp only [TrimSpace, e1]
    cases hrev : (c :: cs).reverse with
    | nil => simp at hrev
    | cons x xs =>
      have hx : (c :: cs).getLast? = some x := by
        rw [← List.head?_reverse, hrev]
        rfl
      have hx' := h2 x hx
      have e2 : (x :: xs).dropWhile unicodeIsSpace = x :: xs := by
        simp [List.dropWhile, hx']
      rw [e2, ← hrev, List.reverse_reverse]

/-- A trimmed text neither starts nor ends with white space. -/
theorem TrimSpace_ends (s : GoString) :
    (∀ c, (TrimSpace s).head? = some c → unicodeIsSpace c = false) ∧
    (∀ c, (TrimSpace s).getLast? = some c → unicodeIsSpace c = false) := by
  constructor
  · intro c hc
    simp only [TrimSpace, List.head?_reverse] at hc
    have hne : ((s.dropWhile unicodeIsSpace).reverse.dropWhile unicodeIsSpace) ≠ [] := by
      intro e
      rw [e] at hc
      cases hc
    obtain ⟨pre, hpre⟩ := List.dropWhile_suffix (l := (s.dropWhile unicodeIsSpace).reverse)
      unicodeIsSpace
    have hl : (s.dropWhile unicodeIsSpace).reverse.getLast? = some c := by
      rw [← hpre, List.getLast?_append_of_ne_nil _ hne]
      exact hc
    rw [List.getLast?_reverse] at hl
    have := List.head?_dropWhile_not unicodeIsSpace s
    rw [hl] at this
    exact this
  · intro c hc
    simp only [TrimSpace, List.getLast?_reverse] at hc
    have := List.head?_dropWhile_not unicodeIsSpace (s.dropWhile unicodeIsSpace).reverse
    rw [hc] at this
    exact this

/-- On a text without NUL, `sanitizeString` is idempotent. -/
theorem sanitizeString_idem (s : GoString) (h : '\x00' ∉ s) :
    sanitizeString (sanitizeString s) = sanitizeString s := by
  have hsub : ∀ c ∈ TrimSpace s, c ∈ s := by
    intro c hc
    simp only [TrimSpace, List.mem_reverse] at hc
    exact (List.dropWhile_sublist _).subset ((List.dropWhile_sublist _).subset hc |> List.mem_reverse.mp)
  have hf : (TrimSpace s).filter (fun c => c != '\x00') = TrimSpace s := by
    rw [List.filter_eq_self]
    intro c hc
    have : c ≠ '\x00' := fun e => h (e ▸ hsub c hc)
    simpa using this
  have hs : sanitizeString s = normalizeLineEndings (TrimSpace s) := by
    rw [sanitizeString_eq, hf]
  obtain ⟨t1, t2⟩ := TrimSpace_ends s
  have hcr : unicodeIsSpace '\r' = true := by decide
  have htrim : TrimSpace (normalizeLineEndings (TrimSpace s)) =
      normalizeLineEndings (TrimSpace s) := by
    apply TrimSpace_of_ends
    · intro c hc
      rw [normalizeLineEndings_head] at hc
      cases hh : (TrimSpace s).head? with
      | none => rw [hh] at hc; cases hc
      | some x =>
        rw [hh] at hc
        have hx := t1 x hh
        have hxr : x ≠ '\r' := fun e => by rw [e, hcr] at hx; cases hx
        simp only [Option.map_some', if_neg hxr, Option.some.injEq] at hc
        rw [← hc]
        exact hx
    · intro c hc
      rw [normalizeLineEndings_getLast] at hc
      cases hh : (TrimSpace s).getLast? with
      | none => rw [hh] at hc; cases hc
      | some x =>
        rw [hh] at hc
        have hx := t2 x hh
        have hxr : x ≠ '\r' := fun e => by rw [e, hcr] at hx; cases hx
        simp only [Option.map_some', if_neg hxr, Option.some.injEq] at hc
        rw [← hc]
        exact hx
  have hnul : '\x00' ∉ normalizeLineEndings (TrimSpace s) := by
    intro hm
    rcases mem_normalizeLineEndings _ _ hm with hm' | hm'
    · exact h (hsub _ hm')
    · cases hm'
  have hf2 : (normalizeLineEndings (TrimSpace s)).filter (fun c => c != '\x00') =
      normalizeLineEndings (TrimSpace s) := by
    rw [List.filter_eq_self]
    intro c hc
    have : c ≠ '\x00' := fun e => hnul (e ▸ hc)
    simpa using this
  rw [hs, sanitizeString_eq, htrim, hf2,
    normalizeLineEndings_of_noCR _ (normalizeLineEndings_noCR _)]

/-! ## The storage mapping -/

/-- The date of a built entity is the parsed date string of the builder. -/
theorem Build_date (b : NippouBuilder) (n : Nippou) (h : b.Build = .ok n) :
    timeParseDate b.dateStr = some n.date := by
  rw [Build_cases] at h
  split at h
  · cases h
  · split at h
    · cases h
    · split at h
      · cases h
      · next date hd =>
        split at h
        · cases h
        · cases h
          exact hd

/-- A tag value holds no comma and no white space and is not empty. -/
theorem NewTag_value_facts (x : GoString) (t : Tag) (h : NewTag x = .ok t) :
    t.value ≠ [] ∧ ',' ∉ t.value ∧ TrimSpace t.value = t.value := by
  have hv := NewTag_value x t h
  rw [NewTag_cases] at h
  split at h
  · cases h
  · split at h
    · cases h
    · split at h
      · cases h
      · next hm =>
        have hm' : tagPatternMatchString t.value = true := by
          rw [hv]
          simpa using hm
        obtain ⟨c, cs, hcs, _, _⟩ := tagPattern_chars _ hm'
        have hall := tagPattern_all _ hm'
        refine ⟨by rw [hcs]; exact List.cons_ne_nil _ _, fun hmem => ?_, ?_⟩
        · have := hall ',' hmem
          revert this
          decide
        · exact TrimSpace_of_no_space _ (fun d hd => (tagChar_facts d (hall d hd)).1)

/-- A location made from an address without NUL is returned unchanged from its
own fields. -/
theorem NewLocation_fixed (lat lng : Float64) (a : GoString) (l : Location)
    (ha : '\x00' ∉ a)
    (h : NewLocation lat lng a = .ok l) :
    NewLocation l.latitude l.longitude l.address = .ok l := by
  rw [NewLocation_cases] at h
  split at h
  · cases h
  · next h1 =>
    split at h
    · cases h
    · next h2 =>
      split at h
      · cases h
      · next h3 =>
        cases h
        rw [NewLocation_cases]
        simp only [sanitizeString_idem a ha]
        rw [if_neg h1, if_neg h2, if_neg h3]

/-- A voice configuration made from a model name without NUL is returned
unchanged from its own fields. -/
theorem NewVoiceConfig_fixed (e : Bool) (m : GoString) (v : VoiceConfig) (hm : '\x00' ∉ m)
    (h : NewVoiceConfig e m = .ok v) :
    NewVoiceConfig v.enabled v.modelName = .ok v := by
  rw [NewVoiceConfig_cases] at h
  split at h
  · cases h
  · next h1 =>
    split at h
    · cases h
    · next h2 =>
      cases h
      rw [NewVoiceConfig_cases]
      simp only [sanitizeString_idem m hm]
      rw [if_neg h1, if_neg h2]

/-- Splitting the joined values of a non-empty list of tags gives the values. -/
theorem splitTags_Join (tags : List Tag) (h : ∀ t ∈ tags, ∃ x, NewTag x = .ok t)
    (hne : tags ≠ []) :
    salesforce.splitTags (Join (tags.map Tag.String) [',']) = tags.map Tag.String := by
  have hfacts : ∀ v ∈ tags.map Tag.String, v ≠ [] ∧ ',' ∉ v ∧ TrimSpace v = v := by
    intro v hv
    obtain ⟨t, ht, rfl⟩ := List.mem_map.mp hv
    obtain ⟨x, hx⟩ := h t ht
    exact NewTag_value_facts x t hx
  have hne' : tags.map Tag.String ≠ [] := by
    intro e
    exact hne (List.map_eq_nil_iff.mp e)
  have hsplit : Split (Join (tags.map Tag.String) [',']) ',' = tags.map Tag.String :=
    List.splitOn_intercalate _ ',' (fun v hv => (hfacts v hv).2.1) hne'
  have hjoin : Join (tags.map Tag.String) [','] ≠ [] := by
    intro e
    rw [e] at hsplit
    have h0 : ([] : GoString) ∈ tags.map Tag.String := by
      rw [← hsplit]
      decide
    exact (hfacts [] h0).1 rfl
  simp only [salesforce.splitTags, if_pos hjoin, hsplit]
  rw [List.map_congr_left (fun v hv => (hfacts v hv).2.2), List.map_id']
  rw [List.filter_eq_self]
  intro v hv
  simpa using (hfacts v hv).1

/-- The record `FromDomain` makes of an entity. -/
theorem FromDomain_some (n : Nippou) :
    salesforce.FromDomain (some n) = some
      { ID := n.id.value, Date := timeFormatDate n.date, Content := n.content,
        Latitude := Location.Latitude n.location, Longitude := Location.Longitude n.location,
        Address := Location.Address n.location, VoiceOn := VoiceConfig.Enabled n.voice,
        VoiceModel := VoiceConfig.ModelName n.voice,
        Tags := if n.tags = [] then [] else Join (n.tags.map Tag.String) [','],
        CreatedDate := [], LastModifiedDate := [] } := by
  obtain ⟨id, date, content, location, voice, tags, c, u⟩ := n
  cases location <;> cases voice <;> cases tags <;>
    simp [salesforce.FromDomain, Nippou.ID, ID.String, Nippou.Date, Nippou.Content,
      Nippou.Location, Nippou.Voice, Nippou.TagStrings, Location.Latitude, Location.Longitude,
      Location.Address, VoiceConfig.Enabled, VoiceConfig.ModelName]

/-- The storage mapping of an entity whose parts the storage keeps. -/
theorem ToDomain_FromDomain (n : Nippou) (id : ID) (lib : TimeLayouts) (now : Time)
    (hdate : timeParseDate (timeFormatDate n.date) = some n.date)
    (hid : IDFromString n.id.value = .ok id)
    (htags : ∀ t ∈ n.tags, ∃ x, NewTag x = .ok t)
    (hloc : ∀ l, n.location = some l →
      NewLocation l.latitude l.longitude l.address = .ok l ∧
        l.latitude ≠ .nan ∧ l.longitude ≠ .nan ∧
        ¬ (l.latitude = 0 ∧ l.longitude = 0 ∧ l.address = []))
    (hvoice : ∀ v, n.voice = some v →
      NewVoiceConfig v.enabled v.modelName = .ok v ∧ ¬ (v.enabled = false ∧ v.modelName = [])) :
    salesforce.ToDomain (salesforce.FromDomain (some n)) lib now =
      .ok (some { n with createdAt := now, updatedAt := now }) := by
  have hl : (if Float64.ne (Location.Latitude n.location) 0 = true ∨
        Float64.ne (Location.Longitude n.location) 0 = true ∨
        Location.Address n.location ≠ [] then
      (NewLocation (Location.Latitude n.location) (Location.Longitude n.location)
        (Location.Address n.location)).toOption else none) = n.location := by
    cases hn : n.location with
    | none =>
      have h0 : Float64.ne 0 0 = false := by decide
      simp [Location.Latitude, Location.Longitude, Location.Address, h0]
    | some l =>
      obtain ⟨h1, n1, n2, h2⟩ := hloc l hn
      have hc : Float64.ne l.latitude 0 = true ∨ Float64.ne l.longitude 0 = true ∨
          l.address ≠ [] := by
        by_contra hcon
        push_neg at hcon
        refine h2 ⟨?_, ?_, hcon.2.2⟩
        · by_contra hne
          exact hcon.1 ((Float64_eq_self _ n1).2.mpr hne)
        · by_contra hne
          exact hcon.2.1 ((Float64_eq_self _ n2).2.mpr hne)
      simp only [Location.Latitude, Location.Longitude, Location.Address, if_pos hc, h1]
      rfl
  have hv : (if VoiceConfig.Enabled n.voice = true ∨ VoiceConfig.ModelName n.voice ≠ [] then
      (NewVoiceConfig (VoiceConfig.Enabled n.voice) (VoiceConfig.ModelName n.voice)).toOption
      else none) = n.voice := by
    cases hn : n.voice with
    | none => simp [VoiceConfig.Enabled, VoiceConfig.ModelName]
    | some v =>
      obtain ⟨h1, h2⟩ := hvoice v hn
      have hc : v.enabled = true ∨ v.modelName ≠ [] := by
        by_contra hcon
        push_neg at hcon
        exact h2 ⟨by simpa using hcon.1, hcon.2⟩
      simp only [VoiceConfig.Enabled, VoiceConfig.ModelName, if_pos hc, h1]
      rfl
  have ht : salesforce.splitTags (if n.tags = [] then [] else Join (n.tags.map Tag.String) [','])
      = n.tags.map Tag.String := by
    by_cases hnil : n.tags = []
    · rw [if_pos hnil, hnil]
      rfl
    · rw [if_neg hnil]
      exact splitTags_Join n.tags htags hnil
  have hrec := Reconstruct_rawFields { n with createdAt := now, updatedAt := now } id hid htags
  have hloc' : Nippou.Location (some { n with createdAt := now, updatedAt := now }) =
      n.location := by
    simp only [Nippou.Location]
    cases n.location <;> rfl
  have hvoice' : Nippou.Voice (some { n with createdAt := now, updatedAt := now }) =
      n.voice := by
    simp only [Nippou.Voice]
    cases n.voice <;> rfl
  simp only [rawFields, hloc', hvoice', Nippou.ID, ID.String, Nippou.Date, Nippou.Content,
    Nippou.TagStrings, Nippou.CreatedAt, Nippou.UpdatedAt] at hrec
  rw [FromDomain_some]
  simp only [salesforce.ToDomain, hdate, salesforce.parseTimestamp, if_true, hl, hv, ht, hrec]

/-- A Location without a NaN coordinate is `Equals` to itself. -/
theorem Location_Equals_self (l : Option Location)
    (h : ∀ x, l = some x → x.latitude ≠ .nan ∧ x.longitude ≠ .nan) :
    Location.Equals l l = true := by
  cases l with
  | none => rfl
  | some x =>
    obtain ⟨h1, h2⟩ := h x rfl
    simp [Location.Equals, (Float64_eq_self _ h1).1, (Float64_eq_self _ h2).1]

/-- Equal voice configurations are `Equals`. -/
theorem VoiceConfig_Equals_self (v : Option VoiceConfig) : VoiceConfig.Equals v v = true := by
  cases v <;> simp [VoiceConfig.Equals]

/-- C40, as the claim states it, fails.  The location `NewLocation(0, 0, "")` and
the voice config `NewVoiceConfig(false, "")` are valid, and an entity built with
them comes back from the storage mapping with no location and no voice config.
The location `NewLocation(35, 139, "\x00 Tokyo")` has the address `" Tokyo"`, and
an entity built with it comes back with the address `"Tokyo"`, a location that
is not `Equals`.  The location `NewLocation(NaN, 139, "Tokyo")` is accepted, and
an entity built with it comes back with the same three fields, a location that
is not `Equals` because NaN is not `==` to itself. -/
theorem ToDomain_drops_zero_values :
    (NewLocation 0 0 [] = .ok { latitude := 0, longitude := 0, address := [] } ∧
      NewVoiceConfig false [] = .ok { enabled := false, modelName := [] } ∧
      zeroValuedBuilder.Build = .ok zeroValuedBuilt ∧
      IDFromString (Nippou.ID (some zeroValuedBuilt)).String = .ok ⟨sampleID⟩ ∧
      ∃ n', salesforce.ToDomain (salesforce.FromDomain (some zeroValuedBuilt)) noLayouts 7 =
          .ok (some n') ∧
        Nippou.Location (some zeroValuedBuilt) ≠ none ∧ Nippou.Location (some n') = none ∧
        Nippou.Voice (some zeroValuedBuilt) ≠ none ∧ Nippou.Voice (some n') = none) ∧
    (NewLocation 35 139 "\x00 Tokyo".toList =
        .ok { latitude := 35, longitude := 139, address := " Tokyo".toList } ∧
      (sampleBuilder.WithLocation
        (some { latitude := 35, longitude := 139, address := " Tokyo".toList })).Build =
          .ok spacedBuilt ∧
      ∃ n', salesforce.ToDomain (salesforce.FromDomain (some spacedBuilt)) noLayouts 7 =
          .ok (some n') ∧
        Location.Address (Nippou.Location (some n')) = "Tokyo".toList ∧
        Location.Equals (Nippou.Location (some n')) (Nippou.Location (some spacedBuilt)) =
          false) ∧
    (NewLocation .nan 139 "Tokyo".toList =
        .ok { latitude := .nan, longitude := 139, address := "Tokyo".toList } ∧
      (sampleBuilder.WithLocation
        (some { latitude := .nan, longitude := 139, address := "Tokyo".toList })).Build =
          .ok nanBuilt ∧
      ∃ n', salesforce.ToDomain (salesforce.FromDomain (some nanBuilt)) noLayouts 7 =
          .ok (some n') ∧
        Nippou.Location (some n') = Nippou.Location (some nanBuilt) ∧
        Location.Equals (Nippou.Location (some n')) (Nippou.Location (some nanBuilt)) =
          false) :=
  ⟨⟨by decide, by decide, by decide, by decide,
      { sampleBuilt [] with createdAt := 7, updatedAt := 7 }, by decide, by decide, by decide,
      by decide, by decide⟩,
    ⟨by decide, by decide,
      { sampleBuilt [] with
        location := some { latitude := 35, longitude := 139, address := "Tokyo".toList },
        createdAt := 7, updatedAt := 7 }, by decide, by decide, by decide⟩,
    ⟨by decide, by decide,
      { nanBuilt with createdAt := 7, updatedAt := 7 }, by decide, by decide, by decide⟩⟩

/-- C40, amended: let `n` be an entity built by `Build` whose identifier
`IDFromString` accepts, whose tags are values `NewTag` returns, whose location, if
any, was made by `NewLocation` from coordinates other than NaN and an address
without NUL and is not `(0, 0, "")`, and whose voice config, if any, was made by
`NewVoiceConfig` from a model name without NUL and is not `(false, "")`.  Then
`ToDomain(FromDomain(n))` succeeds with an entity that has the id, date, content
and tag list of `n`, a location that `Equals` the one of `n` and is absent
exactly when `n` has none, and a voice config that `Equals` the one of `n` and is
absent exactly when `n` has none; the entity is `n` with both timestamps set to
the time of the call. -/
theorem ToDomain_inverts_FromDomain (b : NippouBuilder) (n : Nippou) (id : ID) (lib : TimeLayouts)
    (now : Time) (hb : b.Build = .ok n)
    (hid : IDFromString (Nippou.ID (some n)).String = .ok id)
    (htags : ∀ t ∈ Nippou.Tags (some n), ∃ x, NewTag x = .ok t)
    (hloc : ∀ l, Nippou.Location (some n) = some l →
      (∃ lat lng a, lat ≠ .nan ∧ lng ≠ .nan ∧ '\x00' ∉ a ∧ NewLocation lat lng a = .ok l) ∧
        ¬ (l.latitude = 0 ∧ l.longitude = 0 ∧ l.address = []))
    (hvoice : ∀ v, Nippou.Voice (some n) = some v →
      (∃ e m, '\x00' ∉ m ∧ NewVoiceConfig e m = .ok v) ∧
        ¬ (v.enabled = false ∧ v.modelName = [])) :
    ∃ n', salesforce.ToDomain (salesforce.FromDomain (some n)) lib now = .ok (some n') ∧
      n' = { n with createdAt := now, updatedAt := now } ∧
      Nippou.ID (some n') = Nippou.ID (some n) ∧
      Nippou.Date (some n') = Nippou.Date (some n) ∧
      Nippou.Content (some n') = Nippou.Content (some n) ∧
      Nippou.Tags (some n') = Nippou.Tags (some n) ∧
      Location.Equals (Nippou.Location (some n')) (Nippou.Location (some n)) = true ∧
      (Nippou.Location (some n') = none ↔ Nippou.Location (some n) = none) ∧
      VoiceConfig.Equals (Nippou.Voice (some n')) (Nippou.Voice (some n)) = true ∧
      (Nippou.Voice (some n') = none ↔ Nippou.Voice (some n) = none) := by
  have hdate : timeParseDate (timeFormatDate n.date) = some n.date := by
    obtain ⟨y, m, d, hcal, _, ht⟩ := timeParseDate_some _ _ (Build_date b n hb)
    rw [ht, timeFormatDate_timeDate y m d hcal, timeParseDate_formatDate y m d hcal]
  have hget : ∀ l, n.location = some l → Nippou.Location (some n) = some l := by
    intro l hn
    simp only [Nippou.Location, hn]
  have hl : ∀ l, n.location = some l →
      NewLocation l.latitude l.longitude l.address = .ok l ∧
        l.latitude ≠ .nan ∧ l.longitude ≠ .nan ∧
        ¬ (l.latitude = 0 ∧ l.longitude = 0 ∧ l.address = []) := by
    intro l hn
    obtain ⟨⟨lat, lng, a, hlat, hlng, ha, hnew⟩, hz⟩ := hloc l (hget l hn)
    obtain ⟨c1, c2⟩ := NewLocation_coords lat lng a l hnew
    exact ⟨NewLocation_fixed lat lng a l ha hnew, by rw [c1]; exact hlat, by rw [c2]; exact hlng,
      hz⟩
  have hv : ∀ v, n.voice = some v →
      NewVoiceConfig v.enabled v.modelName = .ok v ∧
        ¬ (v.enabled = false ∧ v.modelName = []) := by
    intro v hn
    have hget' : Nippou.Voice (some n) = some v := by
      simp only [Nippou.Voice, hn]
    obtain ⟨⟨e, m, hm, hnew⟩, hz⟩ := hvoice v hget'
    exact ⟨NewVoiceConfig_fixed e m v hm hnew, hz⟩
  have hnn : ∀ x, Nippou.Location (some n) = some x →
      x.latitude ≠ .nan ∧ x.longitude ≠ .nan := by
    intro x hx
    obtain ⟨⟨lat, lng, a, hlat, hlng, _, hnew⟩, _⟩ := hloc x hx
    obtain ⟨c1, c2⟩ := NewLocation_coords lat lng a x hnew
    exact ⟨by rw [c1]; exact hlat, by rw [c2]; exact hlng⟩
  refine ⟨{ n with createdAt := now, updatedAt := now },
    ToDomain_FromDomain n id lib now hdate hid htags hl hv, rfl, rfl, rfl, rfl, rfl,
    Location_Equals_self _ hnn, Iff.rfl, VoiceConfig_Equals_self _, Iff.rfl⟩

/-- C40, amended, at the sample builder with a location in Tokyo, an enabled
voice config and the tags `t0`, `t1`. -/
theorem ToDomain_inverts_FromDomain_witness :
    fullBuilder.Build = .ok fullBuilt ∧
    IDFromString (Nippou.ID (some fullBuilt)).String = .ok ⟨sampleID⟩ ∧
    ∃ n', salesforce.ToDomain (salesforce.FromDomain (some fullBuilt)) noLayouts 7 =
        .ok (some n') ∧
      Nippou.Tags (some n') = sampleTags 2 ∧
      Location.Equals (Nippou.Location (some n')) (Nippou.Location (some fullBuilt)) = true :=
  ⟨by decide, by decide,
    (ToDomain_inverts_FromDomain fullBuilder fullBuilt ⟨sampleID⟩ noLayouts 7 (by decide)
      (by decide) (fun t ht => ⟨t.value, by revert t; decide⟩)
      (fun l hl => by
        cases hl
        exact ⟨⟨35, 139, "Tokyo".toList, by decide, by decide, by decide, by decide⟩,
          by decide⟩)
      (fun v hv => by
        cases hv
        exact ⟨⟨true, "gpt-4o".toList, by decide, by decide⟩, by decide⟩)).imp
      (fun _ h => ⟨h.1, h.2.2.2.2.2.1, h.2.2.2.2.2.2.1⟩)⟩

/-! ## The create use case -/

/-- The tag loop of `Validate`. -/
theorem validateTags_spec (tags : List GoString) (idx : Nat) :
    (usecase.validateTags idx tags = none ↔ ∀ t ∈ tags, t.length ≤ 50) ∧
    ∀ e, usecase.validateTags idx tags = some e →
      (∃ msg, e = usecase.NewInvalidInputError "tags" msg) ∧ ∃ t ∈ tags, 50 < t.length := by
  induction tags generalizing idx with
  | nil =>
    refine ⟨⟨fun _ t ht => (by cases ht), fun _ => rfl⟩, fun e he => ?_⟩
    cases he
  | cons a as ih =>
    by_cases ha : 50 < a.length
    · have hv : usecase.validateTags idx (a :: as) = some (usecase.NewInvalidInputError "tags"
          ("tag at index " ++ toString idx ++ " exceeds maximum length of " ++
            toString MaxTagLength)) := by
        simp only [usecase.validateTags, RuneCountInString, MaxTagLength]
        rw [if_pos ha]
      rw [hv]
      refine ⟨⟨fun h => (by cases h), fun h => ?_⟩, fun e he => ?_⟩
      · have := h a (List.mem_cons_self _ _)
        omega
      · cases he
        exact ⟨⟨_, rfl⟩, a, List.mem_cons_self _ _, ha⟩
    · have hv : usecase.validateTags idx (a :: as) = usecase.validateTags (idx + 1) as := by
        simp only [usecase.validateTags, RuneCountInString, MaxTagLength]
        rw [if_neg ha]
      rw [hv]
      obtain ⟨h1, h2⟩ := ih (idx + 1)
      refine ⟨?_, fun e he => ?_⟩
      · rw [h1]
        constructor
        · intro h t ht
          rcases List.mem_cons.mp ht with rfl | ht'
          · omega
          · exact h t ht'
        · intro h t ht
          exact h t (List.mem_cons_of_mem _ ht)
      · obtain ⟨hm, t, ht, hlen⟩ := h2 e he
        exact ⟨hm, t, List.mem_cons_of_mem _ ht, hlen⟩

/-- The location block of `Validate` as nested conditions. -/
theorem validateLocation_cases (l : usecase.LocationInput) :
    usecase.validateLocation (some l) =
      if l.Latitude < -90 ∨ 90 < l.Latitude then
        some (usecase.NewInvalidInputError "location.latitude" "must be between -90 and 90")
      else if l.Longitude < -180 ∨ 180 < l.Longitude then
        some (usecase.NewInvalidInputError "location.longitude" "must be between -180 and 180")
      else if 500 < l.Address.length then
        some (usecase.NewInvalidInputError "location.address" "exceeds maximum length of 500")
      else none := rfl

/-- The voice block of `Validate` as nested conditions. -/
theorem validateVoice_cases (v : usecase.VoiceInput) :
    usecase.validateVoice (some v) =
      if v.Enabled = true ∧ TrimSpace v.ModelName = [] then
        some (usecase.NewInvalidInputError "voice.modelName"
          "cannot be empty when voice is enabled")
      else if 100 < v.ModelName.length then
        some (usecase.NewInvalidInputError "voice.modelName" "exceeds maximum length of 100")
      else none := rfl

/-- The checks of `Validate` as nested conditions. -/
theorem Validate_cases (x : usecase.CreateInput) :
    usecase.CreateInput.Validate (some x) =
      if TrimSpace x.Date = [] then
        some (usecase.NewInvalidInputError "date" "cannot be empty")
      else if TrimSpace x.Content = [] then
        some (usecase.NewInvalidInputError "content" "cannot be empty")
      else if 65536 < x.Content.length then
        some (usecase.NewInvalidInputError "content"
          "exceeds maximum length of 65536 characters")
      else if 20 < x.Tags.length then
        some (usecase.NewInvalidInputError "tags" "exceeds maximum count of 20")
      else
        match usecase.validateTags 0 x.Tags with
        | some err => some err
        | none =>
          match usecase.validateLocation x.Location with
          | some err => some err
          | none => usecase.validateVoice x.Voice := rfl

/-- On an input without a NaN coordinate, `Validate` returns no error exactly when
`Date` and `Content` are not empty after trimming, `Content` has at most 65536
code points, there are at most 20 tags of at most 50 code points each, a location
has its latitude in [-90, 90], its longitude in [-180, 180] and an address of at
most 500 code points, and a voice has a model name of at most 100 code points
that is not blank when enabled. -/
theorem Validate_none_iff (x : usecase.CreateInput)
    (hnan : ∀ l ∈ x.Location, l.Latitude ≠ .nan ∧ l.Longitude ≠ .nan) :
    usecase.CreateInput.Validate (some x) = none ↔ Acceptable x := by
  rw [Validate_cases]
  obtain ⟨ht1, _⟩ := validateTags_spec x.Tags 0
  constructor
  · intro h
    split at h
    · cases h
    · next h1 =>
      split at h
      · cases h
      · next h2 =>
        split at h
        · cases h
        · next h3 =>
          split at h
          · cases h
          · next h4 =>
            split at h
            · cases h
            · next htags =>
              split at h
              · cases h
              · next hloc =>
                refine ⟨h1, h2, by omega, by omega, ht1.mp htags, ?_, ?_⟩
                · intro l hl
                  have hl' : x.Location = some l := hl
                  obtain ⟨n1, n2⟩ := hnan l hl
                  rw [hl', validateLocation_cases] at hloc
                  split at hloc
                  · cases hloc
                  · next g1 =>
                    split at hloc
                    · cases hloc
                    · next g2 =>
                      split at hloc
                      · cases hloc
                      · next g3 =>
                        rw [not_or] at g1 g2
                        exact ⟨Float64_le_of_not_lt _ _ (by decide) n1 g1.1,
                          Float64_le_of_not_lt _ _ n1 (by decide) g1.2,
                          Float64_le_of_not_lt _ _ (by decide) n2 g2.1,
                          Float64_le_of_not_lt _ _ n2 (by decide) g2.2, by omega⟩
                · intro v hv
                  have hv' : x.Voice = some v := hv
                  rw [hv', validateVoice_cases] at h
                  split at h
                  · cases h
                  · next g1 =>
                    split at h
                    · cases h
                    · next g2 =>
                      exact ⟨by omega, fun he ht => g1 ⟨he, ht⟩⟩
  · rintro ⟨h1, h2, h3, h4, h5, h6, h7⟩
    rw [if_neg h1, if_neg h2, if_neg (by omega), if_neg (by omega), ht1.mpr h5]
    have hloc : usecase.validateLocation x.Location = none := by
      cases hl : x.Location with
      | none => rfl
      | some l =>
        obtain ⟨a1, a2, a3, a4, a5⟩ := h6 l hl
        rw [validateLocation_cases,
          if_neg (not_or.mpr ⟨Float64_not_lt_of_le _ _ a1, Float64_not_lt_of_le _ _ a2⟩),
          if_neg (not_or.mpr ⟨Float64_not_lt_of_le _ _ a3, Float64_not_lt_of_le _ _ a4⟩),
          if_neg (by omega)]
    have hvoice : usecase.validateVoice x.Voice = none := by
      cases hv : x.Voice with
      | none => rfl
      | some v =>
        obtain ⟨a1, a2⟩ := h7 v hv
        rw [validateVoice_cases, if_neg (fun hc => a2 hc.1 hc.2), if_neg (by omega)]
    simp only [hloc, hvoice]

/-- Every rejection of a non-nil input by `Validate` is the `INVALID_INPUT` error
`NewInvalidInputError field msg`, whose message starts with the name of a field
of the input that offends its condition. -/
theorem Validate_rejection (x : usecase.CreateInput) (e : usecase.UseCaseError)
    (h : usecase.CreateInput.Validate (some x) = some e) :
    e.Code = "INVALID_INPUT" ∧
    ∃ field msg, e = usecase.NewInvalidInputError field msg ∧
      e.Message = field ++ ": " ++ msg ∧ Offends x field := by
  rw [Validate_cases] at h
  have key : ∀ field msg, e = usecase.NewInvalidInputError field msg → Offends x field →
      e.Code = "INVALID_INPUT" ∧
      ∃ field msg, e = usecase.NewInvalidInputError field msg ∧
        e.Message = field ++ ": " ++ msg ∧ Offends x field := by
    intro field msg he ho
    exact ⟨by rw [he]; rfl, field, msg, he, by rw [he]; rfl, ho⟩
  split at h
  · next h1 =>
    cases h
    exact key "date" _ rfl (by simpa [Offends] using h1)
  · split at h
    · next h2 =>
      cases h
      exact key "content" _ rfl (by simp only [Offends]; simp [h2])
    · split at h
      · next h3 =>
        cases h
        exact key "content" _ rfl (by simp only [Offends]; simp [h3])
      · split at h
        · next h4 =>
          cases h
          exact key "tags" _ rfl (by simp only [Offends]; simp [h4])
        · split at h
          · next err htags =>
            cases h
            obtain ⟨⟨msg, hmsg⟩, t, ht, hlen⟩ := (validateTags_spec x.Tags 0).2 _ htags
            exact key "tags" msg hmsg (by
              simp only [Offends]
              simp only [String.reduceEq, if_false, if_true]
              exact Or.inr ⟨t, ht, hlen⟩)
          · split at h
            · next err hloc =>
              cases h
              cases hl : x.Location with
              | none => rw [hl] at hloc; cases hloc
              | some l =>
                rw [hl, validateLocation_cases] at hloc
                split at hloc
                · next g1 =>
                  cases hloc
                  exact key "location.latitude" _ rfl (by
                    simp only [Offends]
                    simp only [String.reduceEq, if_false, if_true]
                    exact ⟨l, hl, g1⟩)
                · split at hloc
                  · next g2 =>
                    cases hloc
                    exact key "location.longitude" _ rfl (by
                      simp only [Offends]
                      simp only [String.reduceEq, if_false, if_true]
                      exact ⟨l, hl, g2⟩)
                  · split at hloc
                    · next g3 =>
                      cases hloc
                      exact key "location.address" _ rfl (by
                        simp only [Offends]
                        simp only [String.reduceEq, if_false, if_true]
                        exact ⟨l, hl, g3⟩)
                    · cases hloc
            · cases hv : x.Voice with
              | none => rw [hv] at h; cases h
              | some v =>
                rw [hv, validateVoice_cases] at h
                split at h
                · next g1 =>
                  cases h
                  exact key "voice.modelName" _ rfl (by
                    simp only [Offends]
                    simp only [String.reduceEq, if_false, if_true]
                    exact ⟨v, hv, Or.inl g1⟩)
                · split at h
                  · next g2 =>
                    cases h
                    exact key "voice.modelName" _ rfl (by
                      simp only [Offends]
                      simp only [String.reduceEq, if_false, if_true]
                      exact ⟨v, hv, Or.inr g2⟩)
                  · cases h

/-- C34: `Validate` does not reject a NaN coordinate.  Its guards
`lat < -90 || lat > 90` and `lng < -180 || lng > 180` are both false at NaN, so
an input whose location has the latitude NaN, which is not in [-90, 90], passes
`Validate`; `NewLocation` has the same guards, and `Execute` builds and saves an
entity whose location has the latitude NaN.  Apart from NaN the claim holds:
on every input without a NaN coordinate `Validate` returns no error exactly when
the input is not nil and meets the conditions of the claim; a nil input gives
`ErrNilInput`; and every other rejection, on any input, is an `INVALID_INPUT`
error whose message names an offending field. -/
theorem Validate_accepts_NaN :
    (usecase.CreateInput.Validate (some nanInput) = none ∧ ¬ Acceptable nanInput ∧
      (∀ l ∈ nanInput.Location, ¬ (-90 ≤ l.Latitude ∧ l.Latitude ≤ 90)) ∧
      (usecase.Execute { repo := okRepository } sampleRuntime (some liveContext)
        (some nanInput)).saved = [nanBuilt] ∧
      Location.Latitude (Nippou.Location (some nanBuilt)) = .nan) ∧
    (∀ i : Option usecase.CreateInput,
      (∀ x, i = some x → ∀ l ∈ x.Location, l.Latitude ≠ .nan ∧ l.Longitude ≠ .nan) →
      (usecase.CreateInput.Validate i = none ↔ ∃ x, i = some x ∧ Acceptable x)) ∧
    usecase.CreateInput.Validate none = some usecase.ErrNilInput ∧
    (∀ x e, usecase.CreateInput.Validate (some x) = some e →
      e.Code = "INVALID_INPUT" ∧
      ∃ field msg, e = usecase.NewInvalidInputError field msg ∧
        e.Message = field ++ ": " ++ msg ∧ Offends x field) := by
  refine ⟨⟨by decide, by decide, by decide, by decide, by decide⟩, ?_, rfl,
    fun x e h => Validate_rejection x e h⟩
  intro i hnan
  cases i with
  | none =>
    constructor
    · intro h; cases h
    · rintro ⟨x, hx, _⟩; cases hx
  | some x =>
    rw [Validate_none_iff x (hnan x rfl)]
    constructor
    · intro h; exact ⟨x, rfl, h⟩
    · rintro ⟨y, hy, h⟩
      cases hy
      exact h

/-- Step 3 of `Execute` succeeds only when `NewLocation` accepts the location of
the input; it writes the location of the builder and nothing else. -/
theorem addLocation_ok (b b' : NippouBuilder) (x : usecase.CreateInput)
    (h : usecase.addLocation b x = .ok b') :
    b' = { b with location := b'.location } ∧
    (x.Location = none → b'.location = b.location) ∧
    ∀ l ∈ x.Location, ∃ loc, NewLocation l.Latitude l.Longitude l.Address = .ok loc ∧
      b'.location = some loc := by
  unfold usecase.addLocation at h
  cases hl : x.Location with
  | none =>
    rw [hl] at h
    cases h
    exact ⟨rfl, fun _ => rfl, fun l hl' => by cases hl'⟩
  | some l =>
    rw [hl] at h
    simp only at h
    cases hn : NewLocation l.Latitude l.Longitude l.Address with
    | error err => rw [hn] at h; cases h
    | ok loc =>
      rw [hn] at h
      cases h
      refine ⟨rfl, fun hc => (by cases hc), fun l' hl' => ?_⟩
      cases hl'
      exact ⟨loc, hn, rfl⟩

/-- Step 4 of `Execute` succeeds only when `NewVoiceConfig` accepts the voice of
the input; it writes the voice of the builder and nothing else. -/
theorem addVoice_ok (b b' : NippouBuilder) (x : usecase.CreateInput)
    (h : usecase.addVoice b x = .ok b') :
    b' = { b with voice := b'.voice } ∧
    (x.Voice = none → b'.voice = b.voice) ∧
    ∀ v ∈ x.Voice, ∃ voice, NewVoiceConfig v.Enabled v.ModelName = .ok voice ∧
      b'.voice = some voice := by
  unfold usecase.addVoice at h
  cases hv : x.Voice with
  | none =>
    rw [hv] at h
    cases h
    exact ⟨rfl, fun _ => rfl, fun v hv' => by cases hv'⟩
  | some v =>
    rw [hv] at h
    simp only at h
    cases hn : NewVoiceConfig v.Enabled v.ModelName with
    | error err => rw [hn] at h; cases h
    | ok voice =>
      rw [hn] at h
      cases h
      refine ⟨rfl, fun hc => (by cases hc), fun v' hv' => ?_⟩
      cases hv'
      exact ⟨voice, hn, rfl⟩

/-- Step 5 of `Execute` succeeds only when the tag loop accepts the tags of the
input; it writes the tags of the builder and nothing else. -/
theorem addTags_ok (b b' : NippouBuilder) (x : usecase.CreateInput)
    (h : usecase.addTags b x = .ok b') :
    b' = { b with tags := b'.tags } ∧
    (x.Tags = [] → b'.tags = b.tags) ∧
    (x.Tags ≠ [] → usecase.collectTags x.Tags [] = .ok b'.tags) := by
  unfold usecase.addTags at h
  by_cases ht : x.Tags.length > 0
  · rw [if_pos ht] at h
    have hne : x.Tags ≠ [] := fun e => by rw [e] at ht; exact absurd ht (by decide)
    cases hc : usecase.collectTags x.Tags [] with
    | error err => rw [hc] at h; cases h
    | ok tags =>
      rw [hc] at h
      cases h
      exact ⟨rfl, fun e => absurd e hne, fun _ => rfl⟩
  · rw [if_neg ht] at h
    cases h
    have hnil : x.Tags = [] := List.length_eq_zero.mp (by omega)
    exact ⟨rfl, fun _ => rfl, fun hne => absurd hnil hne⟩

/-- Steps 2 to 6 of `Execute` succeed only when every construction succeeds: the
entity is built by the builder of the date and the content of the input, with
the location, the voice configuration and the tags made from the input. -/
theorem construct_ok (rt : usecase.Runtime) (x : usecase.CreateInput) (n : Nippou)
    (h : usecase.construct rt x = .ok n) :
    ∃ b : NippouBuilder, b.Build = .ok n ∧
      b.dateStr = x.Date ∧ b.content = x.Content ∧
      (x.Location = none → b.location = none) ∧
      (∀ l ∈ x.Location, ∃ loc, NewLocation l.Latitude l.Longitude l.Address = .ok loc ∧
        b.location = some loc) ∧
      (x.Voice = none → b.voice = none) ∧
      (∀ v ∈ x.Voice, ∃ voice, NewVoiceConfig v.Enabled v.ModelName = .ok voice ∧
        b.voice = some voice) ∧
      (x.Tags = [] → b.tags = []) ∧
      (x.Tags ≠ [] → usecase.collectTags x.Tags [] = .ok b.tags) := by
  unfold usecase.construct at h
  cases h1 : usecase.addLocation
      (NewNippouBuilder rt.defaultIDGenerator rt.timeNow x.Date x.Content) x with
  | error err => rw [h1] at h; cases h
  | ok b1 =>
    rw [h1] at h
    simp only at h
    cases h2 : usecase.addVoice b1 x with
    | error err => rw [h2] at h; cases h
    | ok b2 =>
      rw [h2] at h
      simp only at h
      cases h3 : usecase.addTags b2 x with
      | error err => rw [h3] at h; cases h
      | ok b3 =>
        rw [h3] at h
        simp only at h
        cases h4 : b3.Build with
        | error err => rw [h4] at h; cases h
        | ok m =>
          rw [h4] at h
          cases h
          obtain ⟨e1, l0, l1⟩ := addLocation_ok _ _ _ h1
          obtain ⟨e2, v0, v1⟩ := addVoice_ok _ _ _ h2
          obtain ⟨e3, t0, t1⟩ := addTags_ok _ _ _ h3
          have f3 : b3.dateStr = b2.dateStr ∧ b3.content = b2.content ∧
              b3.location = b2.location ∧ b3.voice = b2.voice := by
            rw [e3]; exact ⟨rfl, rfl, rfl, rfl⟩
          have f2 : b2.dateStr = b1.dateStr ∧ b2.content = b1.content ∧
              b2.location = b1.location ∧ b2.tags = b1.tags := by
            rw [e2]; exact ⟨rfl, rfl, rfl, rfl⟩
          have f1 : b1.dateStr = x.Date ∧ b1.content = x.Content ∧
              b1.voice = none ∧ b1.tags = [] := by
            rw [e1]; exact ⟨rfl, rfl, rfl, rfl⟩
          refine ⟨b3, h4, by rw [f3.1, f2.1, f1.1], by rw [f3.2.1, f2.2.1, f1.2.1], ?_, ?_, ?_, ?_,
            ?_, t1⟩
          · intro hn
            rw [f3.2.2.1, f2.2.2.1, l0 hn]
            rfl
          · intro l hl
            obtain ⟨loc, hloc, hb⟩ := l1 l hl
            exact ⟨loc, hloc, by rw [f3.2.2.1, f2.2.2.1, hb]⟩
          · intro hn
            rw [f3.2.2.2, v0 hn, f1.2.2.1]
          · intro v hv
            obtain ⟨voice, hvoice, hb⟩ := v1 v hv
            exact ⟨voice, hvoice, by rw [f3.2.2.2, hb]⟩
          · intro hn
            rw [t0 hn, f2.2.2.2, f1.2.2.2]

/-- C35: one call of `Execute` calls `repo.Save` at most once.  A call of `Save`
happens only after the context check on entry found the context live,
`Validate` accepted the input, the location, the voice configuration, the tags
and `Build` succeeded, and the second context check found the context live; its
argument is the built entity.  When `Execute` returns an error with a code other
than `REPOSITORY_ERROR`, `Save` was not called; when it returns an output, it
returns no error and `Save` was called exactly once, with the built entity. -/
theorem Execute_saves_once (uc : usecase.CreateUseCase) (rt : usecase.Runtime)
    (ctx : Option usecase.Context) (input : Option usecase.CreateInput) :
    (usecase.Execute uc rt ctx input).saved.length ≤ 1 ∧
    (∀ n ∈ (usecase.Execute uc rt ctx input).saved,
      (usecase.Execute uc rt ctx input).saved = [n] ∧
      ∃ c x, ctx = some c ∧ c.doneOnEntry = false ∧ input = some x ∧
        usecase.CreateInput.Validate input = none ∧ usecase.construct rt x = .ok n ∧
        c.doneBeforeSave = false ∧
        ∃ b : NippouBuilder, b.Build = .ok n ∧
          (∀ l ∈ x.Location, ∃ loc, NewLocation l.Latitude l.Longitude l.Address = .ok loc ∧
            b.location = some loc) ∧
          (∀ v ∈ x.Voice, ∃ voice, NewVoiceConfig v.Enabled v.ModelName = .ok voice ∧
            b.voice = some voice) ∧
          (x.Tags ≠ [] → usecase.collectTags x.Tags [] = .ok b.tags)) ∧
    (∀ e, (usecase.Execute uc rt ctx input).err = some e → e.Code ≠ "REPOSITORY_ERROR" →
      (usecase.Execute uc rt ctx input).saved = []) ∧
    (∀ out, (usecase.Execute uc rt ctx input).output = some out →
      (usecase.Execute uc rt ctx input).err = none ∧
      ∃ x n, input = some x ∧ usecase.construct rt x = .ok n ∧
        (usecase.Execute uc rt ctx input).saved = [n]) := by
  cases ctx with
  | none => simp [usecase.Execute]
  | some c =>
    cases hd : c.doneOnEntry with
    | true => simp [usecase.Execute, hd]
    | false =>
      cases hv : usecase.CreateInput.Validate input with
      | some err => simp [usecase.Execute, hd, hv]
      | none =>
        cases input with
        | none => simp [usecase.Execute, hd, hv]
        | some x =>
          cases hc : usecase.construct rt x with
          | error err => simp [usecase.Execute, hd, hv, hc]
          | ok n =>
            cases hs : c.doneBeforeSave with
            | true => simp [usecase.Execute, hd, hv, hc, hs]
            | false =>
              obtain ⟨b, hb, _, _, _, hl, _, hvo, _, ht⟩ := construct_ok rt x n hc
              cases hsave : uc.repo.Save n with
              | mk after err =>
                cases err with
                | some cause =>
                  have hE : usecase.Execute uc rt (some c) (some x) =
                      { output := none, err := some (usecase.NewRepositoryError cause),
                        saved := [n] } := by
                    simp [usecase.Execute, hd, hv, hc, hs, hsave]
                  rw [hE]
                  refine ⟨by simp, ?_, ?_, ?_⟩
                  · intro m hm
                    simp only [List.mem_singleton] at hm
                    subst hm
                    exact ⟨rfl, c, x, rfl, hd, rfl, rfl, hc, hs, b, hb, hl, hvo, ht⟩
                  · intro e he hne
                    simp only [Option.some.injEq] at he
                    subst he
                    exact absurd rfl hne
                  · intro out ho
                    cases ho
                | none =>
                  have hE : usecase.Execute uc rt (some c) (some x) =
                      { output := usecase.mapToOutput rt (some after), err := none,
                        saved := [n] } := by
                    simp [usecase.Execute, hd, hv, hc, hs, hsave]
                  rw [hE]
                  refine ⟨by simp, ?_, ?_, ?_⟩
                  · intro m hm
                    simp only [List.mem_singleton] at hm
                    subst hm
                    exact ⟨rfl, c, x, rfl, hd, rfl, rfl, hc, hs, b, hb, hl, hvo, ht⟩
                  · intro e he
                    cases he
                  · intro out _
                    exact ⟨rfl, x, n, rfl, hc, rfl⟩

/-- Sample runs of `Validate`: the minimal input passes, a nil input gives
`ErrNilInput`, and a tag of 51 code points is reported with its index. -/
theorem Validate_samples :
    usecase.CreateInput.Validate (some sampleInput) = none ∧
    usecase.CreateInput.Validate none =
      some { Code := "INVALID_INPUT", Message := "input cannot be nil", Cause := none } ∧
    usecase.CreateInput.Validate
        (some { sampleInput with Tags := ["a".toList, List.replicate 51 'a'] }) =
      some { Code := "INVALID_INPUT",
             Message := "tags: tag at index 1 exceeds maximum length of 50", Cause := none } :=
  ⟨by decide, by decide, by decide⟩

/-- Sample runs of `Execute` on the minimal input.  With a live context and a
repository that accepts, `Save` is called once with the built entity and the
output is returned.  With a repository that fails, `Save` is called once and the
error is `REPOSITORY_ERROR`.  With a context cancelled before persistence, or
with a date that does not parse, `Save` is not called. -/
theorem Execute_samples :
    ((usecase.Execute { repo := okRepository } sampleRuntime (some liveContext)
        (some sampleInput)).saved = [sampleBuilt []] ∧
      (usecase.Execute { repo := okRepository } sampleRuntime (some liveContext)
        (some sampleInput)).output =
        some { ID := sampleID, Date := "2026-01-08".toList, Content := "content".toList,
               Location := none, Voice := none, Tags := [], CreatedAt := [],
               UpdatedAt := [] }) ∧
    ((usecase.Execute { repo := { Save := fun n => (n, some (.other "down")) } } sampleRuntime
        (some liveContext) (some sampleInput)).saved = [sampleBuilt []] ∧
      (usecase.Execute { repo := { Save := fun n => (n, some (.other "down")) } } sampleRuntime
        (some liveContext) (some sampleInput)).err =
        some { Code := "REPOSITORY_ERROR", Message := "failed to persist nippou",
               Cause := some (.other "down") }) ∧
    ((usecase.Execute { repo := okRepository } sampleRuntime
        (some { liveContext with doneBeforeSave := true }) (some sampleInput)).saved = [] ∧
      (usecase.Execute { repo := okRepository } sampleRuntime
        (some { liveContext with doneBeforeSave := true }) (some sampleInput)).err =
        some { Code := "CONTEXT_CANCELLED", Message := "operation cancelled before persistence",
               Cause := some (.other "context canceled") }) ∧
    ((usecase.Execute { repo := okRepository } sampleRuntime (some liveContext)
        (some { sampleInput with Date := "2026/01/08".toList })).saved = [] ∧
      (usecase.Execute { repo := okRepository } sampleRuntime (some liveContext)
        (some { sampleInput with Date := "2026/01/08".toList })).err =
        some { Code := "DOMAIN_VIOLATION", Message := "domain validation failed",
               Cause := some (.domain ErrInvalidDateFormat) }) :=
  ⟨⟨by decide, by decide⟩, ⟨by decide, by decide⟩, ⟨by decide, by decide⟩,
    ⟨by decide, by decide⟩⟩
end nippou
